import Mathlib

/-!
# OS/161 process management: process table, process tree, descriptor tables

A shallow embedding of `kern/proc/proc.c`, `kern/syscall/proc_syscalls.c` and
`kern/syscall/file_syscalls.c` (compiled with `OPT_C2` and
`USE_SEMAPHORE_FOR_WAITPID`), followed by theorems about the embedded code.

Conventions of the embedding

* Kernel memory is explicit state.  A `struct proc *` is an address `Nat`, and
  `Kernel.procs` maps an address to the record stored there (`none` when the
  address holds no live record: never allocated, or released with `kfree`).
  The C `NULL` is `none` in an `Option`.
* A C function that can fail to return normally yields an `Outcome`:
  `panic` (a failed `KASSERT` or a call of `panic`), `fault` (a dereference of
  `NULL` or of released memory, an out-of-bounds array access, a second
  `kfree` of a list node), `sleeps` (the calling thread goes to sleep on a
  semaphore whose count is zero or on a held lock) and `diverges` (a loop
  that never exits).
* Loops and recursion that C does not bound take a fuel argument.
* Results of collaborators outside these three files (`kmalloc`, `kstrdup`,
  `vfs_open`, `as_copy`, `thread_fork`, `copyin`, `VOP_READ`, ...) are
  supplied by the caller of the embedded function as an explicit argument.
* Constants of headers that are not part of the three files (`OPEN_MAX`,
  the `errno` values, the `open` flags) are parameters or symbolic values.
-/

namespace OS161

/-! ## Outcomes -/

/-- Result of running a piece of kernel code. -/
inductive Outcome (α : Type) where
  | ok (a : α)
  | panic
  | fault
  | sleeps
  | diverges

namespace Outcome

/-- Sequencing: the first abnormal outcome wins. -/
def bind {α β : Type} (x : Outcome α) (f : α → Outcome β) : Outcome β :=
  match x with
  | ok a => f a
  | panic => panic
  | fault => fault
  | sleeps => sleeps
  | diverges => diverges

instance : Monad Outcome where
  pure := Outcome.ok
  bind := Outcome.bind

/-- The value of a normal return. -/
def val? {α : Type} : Outcome α → Option α
  | ok a => some a
  | _ => none

end Outcome

/-! ## Data model -/

/-- The constant `MAX_PROC` of proc.c. -/
abbrev MAX_PROC : Nat := 100

/-- A node of a children list: `addr` is the address of the node itself (the
argument of the `kfree` that releases it), `p` its `struct proc *` field.  The
`next` field is the tail of the list that holds the node. -/
structure child_node where
  addr : Nat
  p : Nat
deriving DecidableEq, Repr

/-- A node of a thread list, as `child_node`. -/
structure thread_node where
  addr : Nat
  t : Nat
deriving DecidableEq, Repr

/-- A `struct openfile *`: the address of an entry of the static array
`systemFileTable`, or the address of a record obtained from `kmalloc`. -/
inductive OfPtr where
  | sys (i : Nat)
  | heap (a : Nat)
deriving DecidableEq, Repr

/-- The `lock` field of an open-file record together with the state of the
lock it points to. -/
inductive LockRef where
  | null
  | free
  | held
  | destroyed
deriving DecidableEq, Repr

/-- The errno values that the three files name (kern/errno.h), kept symbolic;
`code n` is an error number produced by a collaborator. -/
inductive Errno where
  | ENOSYS
  | ENOMEM
  | ECHILD
  | EFAULT
  | ESRCH
  | EINVAL
  | ENPROC
  | EBADF
  | ESPIPE
  | ENFILE
  | EMFILE
  | code (n : Int)
deriving DecidableEq, Repr

/-- Record `struct openfile`. -/
structure openfile where
  vn : Option Nat
  offset : Int
  mode_open : Int
  lock : LockRef
  countRef : Int
deriving DecidableEq, Repr

/-- Record `struct proc`.  `p_sem` is the count of the semaphore `p_sem`
points to (`none`: no semaphore). -/
structure proc where
  p_name : String
  p_numthreads : Nat
  p_thread_list : List thread_node
  p_children_list : List child_node
  p_father_proc : Option Nat
  p_addrspace : Option Nat
  p_cwd : Option Nat
  p_terminated : Int
  p_pid : Int
  p_status : Int
  p_sem : Option Nat
  fileTable : Nat → Option OfPtr

/-- The static `processTable` of proc.c. -/
structure processTable_t where
  active : Int
  proc : Nat → Option Nat
  last_i : Nat

/-- Calls into collaborators that the embedded code makes for effect. -/
inductive Event where
  | vfs_close (vn : Nat)
  | vop_decref (vn : Nat)
  | vop_incref (vn : Nat)
  | as_destroy (a : Nat)
  | as_deactivate
  | lock_destroy (f : OfPtr)
  | thread_destroy (t : Nat)
deriving DecidableEq, Repr

/-- Kernel state read or written by the three files. `nodes a` tells whether
`a` is the address of a live list node; `events` is the history of effectful
collaborator calls, most recent first. -/
structure Kernel where
  processTable : processTable_t
  kproc : Option Nat
  curthread : Nat
  t_proc : Nat → Option Nat
  procs : Nat → Option proc
  nodes : Nat → Bool
  ofheap : Nat → Option openfile
  systemFileTable : Nat → openfile
  events : List Event

namespace Kernel

/-- The macro `curproc`, that is `curthread->t_proc`. -/
def curproc (s : Kernel) : Option Nat := s.t_proc s.curthread

/-- Read of `*p` for a `struct proc *p`. -/
def getProc (s : Kernel) (p : Nat) : Outcome proc :=
  match s.procs p with
  | some r => .ok r
  | none => .fault

/-- Write of fields of `*p` for a `struct proc *p`. -/
def modProc (s : Kernel) (p : Nat) (f : proc → proc) : Outcome Kernel :=
  match s.procs p with
  | some r => .ok { s with procs := Function.update s.procs p (some (f r)) }
  | none => .fault

/-- Append to the history of collaborator calls. -/
def emit (s : Kernel) (e : Event) : Kernel := { s with events := e :: s.events }

end Kernel

/-! ## proc.c: the process table -/

/-- The `while (i != processTable.last_i)` loop of `proc_init_waitpid`. -/
def proc_init_waitpid_loop (proc : Nat) : Nat → Nat → Kernel → Outcome Kernel
  | 0, _, _ => .diverges
  | fuel + 1, i, s =>
    if i ≠ s.processTable.last_i then
      if s.processTable.proc i = none then
        -- processTable.proc[i] = proc; processTable.last_i = i; proc->p_pid = i; break;
        { s with processTable :=
            { s.processTable with
                proc := Function.update s.processTable.proc i (some proc), last_i := i } }.modProc
          proc (fun r => { r with p_pid := (i : Int) })
      else
        proc_init_waitpid_loop proc fuel (if i + 1 > MAX_PROC then 1 else i + 1) s
    else .ok s

/-- Function `proc_init_waitpid`; `sem` is the result of `sem_create`. -/
def proc_init_waitpid (sem : Option Nat) (proc : Nat) (s : Kernel) : Outcome Kernel := do
  let i := s.processTable.last_i + 1
  let s ← s.modProc proc (fun r => { r with p_pid := 0 })
  let i := if i > MAX_PROC then 1 else i
  let s ← proc_init_waitpid_loop proc (MAX_PROC + 1) i s
  let r ← s.getProc proc
  if r.p_pid = 0 then
    .panic
  else
    s.modProc proc (fun r => { r with p_status := 0, p_sem := sem })

/-- The `while` loop of `proc_verify_pid`; the result is the final `pid`. -/
def proc_verify_pid_loop (s : Kernel) : Nat → Nat → Outcome Nat
  | 0, _ => .diverges
  | fuel + 1, i =>
    if i ≠ s.processTable.last_i then
      if s.processTable.proc i = none then
        .ok i
      else
        proc_verify_pid_loop s fuel (if i + 1 > MAX_PROC then 1 else i + 1)
    else .ok 0

/-- Function `proc_verify_pid`. -/
def proc_verify_pid (s : Kernel) : Outcome Int := do
  let i := s.processTable.last_i + 1
  let i := if i > MAX_PROC then 1 else i
  let pid ← proc_verify_pid_loop s (MAX_PROC + 1) i
  if pid = 0 then .ok (-1) else .ok 0

/-- Function `proc_end_waitpid`. -/
def proc_end_waitpid (proc : Nat) (s : Kernel) : Outcome Kernel := do
  let r ← s.getProc proc
  let i := r.p_pid
  if i > 0 ∧ i ≤ (MAX_PROC : Int) then
    let s := { s with processTable :=
      { s.processTable with proc := Function.update s.processTable.proc i.toNat none } }
    -- sem_destroy(proc->p_sem)
    match r.p_sem with
    | some _ => s.modProc proc (fun r => { r with p_sem := none })
    | none => .fault
  else .panic

/-- Function `proc_search_pid`. -/
def proc_search_pid (pid : Int) (s : Kernel) : Outcome (Option Nat) :=
  if pid > (MAX_PROC : Int) then
    .ok none
  else if pid ≥ 0 ∧ pid < (MAX_PROC : Int) then
    match s.processTable.proc pid.toNat with
    | none => .fault
    | some p => do
      let r ← s.getProc p
      if r.p_pid = pid then .ok (some p) else .panic
  else .panic

/-! ## Constants of headers outside the three files -/

/-- Constants that the embedded code takes from kern/limits.h, kern/fcntl.h,
kern/seek.h and kern/wait.h. -/
structure Consts where
  OPEN_MAX : Nat
  O_RDONLY : Int
  O_WRONLY : Int
  O_RDWR : Int
  O_ACCMODE : Int
  O_APPEND : Int
  SEEK_SET : Int
  SEEK_CUR : Int
  SEEK_END : Int
  WNOHANG : Int

/-- An `int` result that is a number or one of the named errno constants. -/
inductive RetVal where
  | num (n : Int)
  | errno (e : Errno)
deriving DecidableEq, Repr

/-- Conversion to a 32-bit signed integer. -/
def int32 (x : Int) : Int := (x + 2 ^ 31) % 2 ^ 32 - 2 ^ 31

/-- Conversion to a 64-bit signed integer (`off_t` arithmetic). -/
def int64 (x : Int) : Int := (x + 2 ^ 63) % 2 ^ 64 - 2 ^ 63

namespace Kernel

/-- Read of `*of` for a `struct openfile *of`. -/
def getOf (s : Kernel) : OfPtr → Outcome openfile
  | .sys i => .ok (s.systemFileTable i)
  | .heap a =>
    match s.ofheap a with
    | some r => .ok r
    | none => .fault

/-- Write of `*of` for a `struct openfile *of`. -/
def setOf (s : Kernel) (f : OfPtr) (r : openfile) : Kernel :=
  match f with
  | .sys i => { s with systemFileTable := Function.update s.systemFileTable i r }
  | .heap a => { s with ofheap := Function.update s.ofheap a (some r) }

/-- Write of fields of `*of` for a `struct openfile *of`. -/
def modOf (s : Kernel) (f : OfPtr) (g : openfile → openfile) : Outcome Kernel :=
  match s.getOf f with
  | .ok r => .ok (s.setOf f (g r))
  | _ => .fault

/-- Call `kfree(node)` on a list node. -/
def kfreeNode (s : Kernel) (a : Nat) : Outcome Kernel :=
  if s.nodes a then .ok { s with nodes := Function.update s.nodes a false } else .fault

/-- Read of `p->fileTable[fd]`, an array of `OPEN_MAX` entries. -/
def ftRead (K : Consts) (s : Kernel) (p : Nat) (fd : Int) : Outcome (Option OfPtr) :=
  if 0 ≤ fd ∧ fd < (K.OPEN_MAX : Int) then do
    let r ← s.getProc p
    .ok (r.fileTable fd.toNat)
  else .fault

/-- Write of `p->fileTable[fd]`, an array of `OPEN_MAX` entries. -/
def ftWrite (K : Consts) (s : Kernel) (p : Nat) (fd : Int) (f : Option OfPtr) : Outcome Kernel :=
  if 0 ≤ fd ∧ fd < (K.OPEN_MAX : Int) then
    s.modProc p (fun r => { r with fileTable := Function.update r.fileTable fd.toNat f })
  else .fault

/-- Read of `curproc->fileTable[fd]`. -/
def curFtRead (K : Consts) (s : Kernel) (fd : Int) : Outcome (Option OfPtr) :=
  match s.curproc with
  | none => .fault
  | some cp => s.ftRead K cp fd

/-- Write of `curproc->fileTable[fd]`. -/
def curFtWrite (K : Consts) (s : Kernel) (fd : Int) (f : Option OfPtr) : Outcome Kernel :=
  match s.curproc with
  | none => .fault
  | some cp => s.ftWrite K cp fd f

end Kernel

/-! ## proc.c: children lists, creation and destruction -/

/-- The list walk of `proc_remove_proc`: the first node whose `p` is `this`,
and the list without it. -/
def unlink_child (this : Nat) : List child_node → Option (child_node × List child_node)
  | [] => none
  | current :: next =>
    if current.p = this then some (current, next)
    else
      match unlink_child this next with
      | some (n, rest) => some (n, current :: rest)
      | none => none

/-- Function `proc_remove_proc`. -/
def proc_remove_proc (this father : Option Nat) (s : Kernel) : Outcome (Int × Kernel) :=
  match father, this with
  | some f, some t => do
    let fr ← s.getProc f
    match unlink_child t fr.p_children_list with
    | some (current, rest) => do
      let s ← s.modProc f (fun r => { r with p_children_list := rest })
      let s ← s.kfreeNode current.addr
      .ok (0, s)
    | none => .ok (-1, s)
  | _, _ => .ok (-1, s)

/-- Results of the collaborators called by `std_init`: `kstrdup`, `kmalloc`
(the address of the new record), `vfs_open` (the vnode, `none` on error) and
`lock_create`. -/
structure StdEnv where
  kstrdup : Bool
  kmalloc : Option Nat
  vfs_open : Option Nat
  lock_create : Bool

/-- Function `std_init`. A record fresh from `kmalloc` has unspecified
contents; every field is assigned before `std_init` returns 0. -/
def std_init (K : Consts) (env : StdEnv) (proc : Nat) (fd : Int) (mode : Int) (s : Kernel) :
    Outcome (Int × Kernel) :=
  if !env.kstrdup then .ok (-1, s)
  else do
    let s ← s.ftWrite K proc fd (env.kmalloc.map OfPtr.heap)
    match env.kmalloc with
    | none => .ok (-1, s)
    | some a =>
      let s := s.setOf (.heap a) { vn := none, offset := 0, mode_open := 0, lock := .null, countRef := 0 }
      match env.vfs_open with
      | none => .ok (-1, { s with ofheap := Function.update s.ofheap a none })
      | some v => do
        let s ← s.modOf (.heap a) (fun r => { r with vn := some v, offset := 0 })
        if !env.lock_create then
          .ok (-1, { (s.emit (.vfs_close v)) with ofheap := Function.update s.ofheap a none })
        else do
          let s ← s.modOf (.heap a)
            (fun r => { r with lock := .free, countRef := 1, mode_open := mode })
          .ok (0, s)

/-- Results of the collaborators called by `proc_create`: `kmalloc` (the
address of the new record), `kstrdup` and `sem_create`. -/
structure CreateEnv where
  kmalloc : Option Nat
  kstrdup : Bool
  sem_create : Bool

/-- Function `proc_create`. -/
def proc_create (env : CreateEnv) (name : String) (s : Kernel) : Outcome (Option Nat × Kernel) :=
  match env.kmalloc with
  | none => .ok (none, s)
  | some a =>
    if !env.kstrdup then .ok (none, s)
    else do
      let s := { s with procs := Function.update s.procs a (some
        { p_name := name, p_numthreads := 0, p_thread_list := [], p_children_list := [],
          p_father_proc := none, p_addrspace := none, p_cwd := none, p_terminated := 0,
          p_pid := 0, p_status := 0, p_sem := none, fileTable := fun _ => none }) }
      let s ← proc_init_waitpid (if env.sem_create then some 0 else none) a s
      -- bzero(proc->fileTable, OPEN_MAX * sizeof(struct openfile *))
      let s ← s.modProc a (fun r => { r with fileTable := fun _ => none })
      .ok (some a, s)

/-- Function `check_is_child`. -/
def check_is_child (pid : Int) (s : Kernel) : Outcome Int := do
  let p ← proc_search_pid pid s
  match p with
  | none => .ok (-1)
  | some p => do
    let r ← s.getProc p
    if r.p_father_proc = s.curproc then .ok 1 else .ok 0

/-- The list walk of `check_is_terminated`. -/
def check_is_terminated_loop (s : Kernel) : List child_node → Outcome (Option Nat)
  | [] => .ok none
  | current :: next => do
    let r ← s.getProc current.p
    if r.p_terminated = 1 then .ok (some current.p)
    else check_is_terminated_loop s next

/-- Function `check_is_terminated`. -/
def check_is_terminated (p : Option Nat) (s : Kernel) : Outcome (Option Nat) :=
  match p with
  | none => .fault
  | some p => do
    let r ← s.getProc p
    check_is_terminated_loop s r.p_children_list

/-- The `while (proc->p_children_list != NULL)` loop of `proc_destroy`, for the
children list read at loop entry; `destroy` is the recursive call. -/
def proc_destroy_loop (destroy : Option Nat → Kernel → Outcome Kernel) (proc : Nat) :
    List child_node → Kernel → Outcome Kernel
  | [], s => .ok s
  | curNode :: nextOne, s => do
    let s ← destroy (some curNode.p) s
    let s ← s.modProc proc (fun r => { r with p_children_list := nextOne })
    let s ← s.kfreeNode curNode.addr
    proc_destroy_loop destroy proc nextOne s

/-- Function `proc_destroy`; the fuel bounds the depth of the recursion. -/
def proc_destroy : Nat → Option Nat → Kernel → Outcome Kernel
  | 0, _, _ => .diverges
  | fuel + 1, proc, s =>
    match proc with
    | none => .panic
    | some p =>
      if some p = s.kproc then .panic
      else do
        let r ← s.getProc p
        let s ← match r.p_cwd with
          | some v => (s.emit (.vop_decref v)).modProc p (fun r => { r with p_cwd := none })
          | none => .ok s
        let s ← match r.p_addrspace with
          | some a =>
            if some p = s.curproc then do
              let s ← s.modProc p (fun r => { r with p_addrspace := none })
              .ok ((s.emit .as_deactivate).emit (.as_destroy a))
            else do
              let s ← s.modProc p (fun r => { r with p_addrspace := none })
              .ok (s.emit (.as_destroy a))
          | none => .ok s
        let s ← proc_destroy_loop (proc_destroy fuel) p r.p_children_list s
        let r ← s.getProc p
        let s ← match r.p_father_proc with
          | some f => do
            let (rc, s) ← proc_remove_proc (some p) (some f) s
            if rc ≠ 0 then .panic else .ok s
          | none => .ok s
        let r ← s.getProc p
        if r.p_numthreads ≠ 0 then .panic
        else do
          let s ← proc_end_waitpid p s
          -- kfree(proc->p_name); kfree(proc);
          .ok { s with procs := Function.update s.procs p none }

/-! ## proc.c: threads, wait and signal, descriptor table copy -/

/-- Function `proc_addthread`; `kmalloc` is the address of the new list node. -/
def proc_addthread (kmalloc : Option Nat) (proc : Nat) (t : Nat) (s : Kernel) :
    Outcome (Int × Kernel) :=
  if s.t_proc t ≠ none then .panic
  else do
    let s ← s.modProc proc (fun r => { r with p_numthreads := r.p_numthreads + 1 })
    match kmalloc with
    | none => .panic
    | some a => do
      let s := { s with nodes := Function.update s.nodes a true }
      let s ← s.modProc proc
        (fun r => { r with p_thread_list := { addr := a, t := t } :: r.p_thread_list })
      .ok (0, { s with t_proc := Function.update s.t_proc t (some proc) })

/-- The list walk of `proc_remthread`: the first node whose `t` is `t`, and the
list without it. -/
def unlink_thread (t : Nat) : List thread_node → Option (thread_node × List thread_node)
  | [] => none
  | current :: next =>
    if current.t = t then some (current, next)
    else
      match unlink_thread t next with
      | some (n, rest) => some (n, current :: rest)
      | none => none

/-- Function `proc_remthread`. -/
def proc_remthread (t : Nat) (s : Kernel) : Outcome Kernel :=
  match s.t_proc t with
  | none => .panic
  | some p => do
    let r ← s.getProc p
    if r.p_numthreads > 0 then do
      let s ← s.modProc p (fun r => { r with p_numthreads := r.p_numthreads - 1 })
      let s ← match unlink_thread t r.p_thread_list with
        | some (current, rest) => do
          let s ← s.modProc p (fun r => { r with p_thread_list := rest })
          s.kfreeNode current.addr
        | none => .ok s
      .ok { s with t_proc := Function.update s.t_proc t none }
    else .panic

/-- Modelled from the spec: the termination primitive is a counting semaphore
(synch.c is not among the three files); `P` takes one unit of the count and
puts the caller to sleep when the count is zero. -/
def P (proc : Nat) (s : Kernel) : Outcome Kernel := do
  let r ← s.getProc proc
  match r.p_sem with
  | none => .fault
  | some 0 => .sleeps
  | some (n + 1) => s.modProc proc (fun r => { r with p_sem := some n })

/-- Modelled from the spec: `V` on the termination semaphore adds one unit to
its count (synch.c is not among the three files). -/
def V (proc : Nat) (s : Kernel) : Outcome Kernel := do
  let r ← s.getProc proc
  match r.p_sem with
  | none => .fault
  | some n => s.modProc proc (fun r => { r with p_sem := some (n + 1) })

/-- Function `proc_wait`; the fuel is that of `proc_destroy`. -/
def proc_wait (fuel : Nat) (proc : Option Nat) (s : Kernel) : Outcome (Int × Kernel) :=
  match proc with
  | none => .panic
  | some p =>
    if some p = s.kproc then .panic
    else do
      let s ← P p s
      let r ← s.getProc p
      let return_status := r.p_status
      let s ← proc_destroy fuel (some p) s
      .ok (return_status, s)

/-- Function `proc_signal_end`. -/
def proc_signal_end (proc : Nat) (s : Kernel) : Outcome Kernel := V proc s

/-- Function `openfileIncrRefCount` of file_syscalls.c. -/
def openfileIncrRefCount (of : Option OfPtr) (s : Kernel) : Outcome Kernel :=
  match of with
  | some f => s.modOf f (fun r => { r with countRef := r.countRef + 1 })
  | none => .ok s

/-- The `for (fd=0; fd<OPEN_MAX; fd++)` loop of `proc_file_table_copy`, with
`n` iterations left. -/
def proc_file_table_copy_loop (K : Consts) (psrc pdest : Nat) : Nat → Nat → Kernel → Outcome Kernel
  | 0, _, s => .ok s
  | n + 1, fd, s => do
    let of ← s.ftRead K psrc fd
    let s ← s.ftWrite K pdest fd of
    let s ← match of with
      | some f => openfileIncrRefCount (some f) s
      | none => .ok s
    proc_file_table_copy_loop K psrc pdest n (fd + 1) s

/-- Function `proc_file_table_copy`. -/
def proc_file_table_copy (K : Consts) (psrc pdest : Nat) (s : Kernel) : Outcome Kernel :=
  proc_file_table_copy_loop K psrc pdest K.OPEN_MAX 0 s

/-- Results of the collaborators called by `proc_create_runprogram`. -/
structure RunEnv where
  create : CreateEnv
  std0 : StdEnv
  std1 : StdEnv
  std2 : StdEnv

/-- Function `proc_create_runprogram`. -/
def proc_create_runprogram (K : Consts) (env : RunEnv) (name : String) (s : Kernel) :
    Outcome (Option Nat × Kernel) := do
  let (newproc, s) ← proc_create env.create name s
  match newproc with
  | none => .ok (none, s)
  | some np => do
    let s ← s.modProc np (fun r => { r with p_addrspace := none })
    let (r0, s) ← std_init K env.std0 np 0 K.O_RDONLY s
    if r0 = -1 then .ok (none, s)
    else do
      let (r1, s) ← std_init K env.std1 np 1 K.O_WRONLY s
      if r1 = -1 then .ok (none, s)
      else do
        let (r2, s) ← std_init K env.std2 np 2 K.O_WRONLY s
        if r2 = -1 then .ok (none, s)
        else
          match s.curproc with
          | none => .fault
          | some cp => do
            let cr ← s.getProc cp
            match cr.p_cwd with
            | some v => do
              let s ← (s.emit (.vop_incref v)).modProc np (fun r => { r with p_cwd := some v })
              .ok (some np, s)
            | none => .ok (some np, s)

/-- Function `proc_bootstrap`. -/
def proc_bootstrap (env : CreateEnv) (s : Kernel) : Outcome Kernel := do
  let (kp, s) ← proc_create env "[kernel]" s
  let s := { s with kproc := kp }
  match kp with
  | none => .panic
  | some _ => .ok { s with processTable := { s.processTable with active := 1 } }

/-- The statements of `proc_destroy` from the release of the working directory
to the removal from the children list of the parent, that is all that
precedes `KASSERT(proc->p_numthreads == 0)`, for a `proc` that is neither
`NULL` nor `kproc`; the inner calls of `proc_destroy` have fuel `fuel`. -/
def proc_destroy_before_check (fuel : Nat) (p : Nat) (s : Kernel) : Outcome Kernel := do
  let r ← s.getProc p
  let s ← match r.p_cwd with
    | some v => (s.emit (.vop_decref v)).modProc p (fun r => { r with p_cwd := none })
    | none => .ok s
  let s ← match r.p_addrspace with
    | some a =>
      if some p = s.curproc then do
        let s ← s.modProc p (fun r => { r with p_addrspace := none })
        .ok ((s.emit .as_deactivate).emit (.as_destroy a))
      else do
        let s ← s.modProc p (fun r => { r with p_addrspace := none })
        .ok (s.emit (.as_destroy a))
    | none => .ok s
  let s ← proc_destroy_loop (proc_destroy fuel) p r.p_children_list s
  let r ← s.getProc p
  match r.p_father_proc with
    | some f => do
      let (rc, s) ← proc_remove_proc (some p) (some f) s
      if rc ≠ 0 then .panic else .ok s
    | none => .ok s

/-! ## proc_syscalls.c -/

/-- Function `sys__exit`, up to its call of `thread_exit` (which does not
return): the result is the state in which the calling thread exits. -/
def sys__exit (status : Int) (s : Kernel) : Outcome Kernel :=
  match s.curproc with
  | none => .fault
  | some p => do
    let s ← s.modProc p (fun r => { r with p_status := Int.land status 0xff })
    let s ← s.modProc p (fun r => { r with p_terminated := 1 })
    let s ← proc_remthread s.curthread s
    proc_signal_end p s

/-- Results of the collaborators called by `sys_waitpid`: whether `copyin`
and `copyout` report an error. -/
structure WaitEnv where
  copyin_err : Bool
  copyout_err : Bool

/-- The end of `sys_waitpid`, from `int s = proc_wait(p);` on. -/
def sys_waitpid_wait (env : WaitEnv) (fuel : Nat) (pid : Int) (statusp : Option Nat)
    (p : Option Nat) (s : Kernel) : Outcome (Int × Option Errno × Kernel) := do
  let (_, s) ← proc_wait fuel p s
  if statusp ≠ none ∧ env.copyout_err then .ok (-1, some .EFAULT, s)
  else .ok (pid, none, s)

/-- Function `sys_waitpid`: the result is the return value and the value
stored in `*err`. -/
def sys_waitpid (K : Consts) (env : WaitEnv) (fuel : Nat) (pid : Int) (statusp : Option Nat)
    (options : Int) (s : Kernel) : Outcome (Int × Option Errno × Kernel) :=
  if pid ≤ 0 then .ok (-1, some .ENOSYS, s)
  else
    match s.curproc with
    | none => .fault
    | some cp => do
      let cr ← s.getProc cp
      if cr.p_children_list = [] then .ok (-1, some .ECHILD, s)
      else if statusp ≠ none ∧ env.copyin_err then .ok (-1, some .EFAULT, s)
      else do
        let ret ← check_is_child pid s
        if ret = -1 then .ok (-1, some .ESRCH, s)
        else if ret = 0 then .ok (-1, some .ECHILD, s)
        else do
          let p ← proc_search_pid pid s
          if options = 0 then
            sys_waitpid_wait env fuel pid statusp p s
          else if options = K.WNOHANG then do
            -- an inner declaration `struct proc *p`, local to the case block
            let p_inner ← check_is_terminated s.curproc s
            if p_inner = none then .ok (0, none, s)
            else sys_waitpid_wait env fuel pid statusp p s
          else .ok (-1, some .EINVAL, s)

/-- Results of the collaborators called by `sys_fork`: those of
`proc_create_runprogram`, `as_copy` (the new address space), the two `kmalloc`
calls (whether the trapframe was allocated, the address of the child node),
and `thread_fork` (the new thread, `none` on error) with the `kmalloc` of the
thread node in the `proc_addthread` it performs. -/
structure ForkEnv where
  run : RunEnv
  as_copy : Option Nat
  kmalloc_tf : Bool
  kmalloc_child : Option Nat
  thread_fork : Option Nat
  kmalloc_tnode : Option Nat

/-- Function `sys_fork`: the result is the return value and the value stored
in `*retval`.  The fuel is that of `proc_destroy`. -/
def sys_fork (K : Consts) (env : ForkEnv) (fuel : Nat) (s : Kernel) :
    Outcome (RetVal × Option Int × Kernel) :=
  match s.curproc with
  | none => .panic
  | some cp => do
    let v ← proc_verify_pid s
    if v = -1 then .ok (.errno .ENPROC, none, s)
    else do
      let cr ← s.getProc cp
      let (newp, s) ← proc_create_runprogram K env.run cr.p_name s
      match newp with
      | none => .ok (.errno .ENOMEM, none, s)
      | some np => do
        -- as_copy(curproc->p_addrspace, &(newp->p_addrspace));
        let s ← match env.as_copy with
          | some a => s.modProc np (fun r => { r with p_addrspace := some a })
          | none => .ok s
        let r ← s.getProc np
        if r.p_addrspace = none then do
          let s ← proc_destroy fuel (some np) s
          .ok (.errno .ENOMEM, none, s)
        else do
          let s ← proc_file_table_copy K np cp s
          if !env.kmalloc_tf then do
            let s ← proc_destroy fuel (some np) s
            .ok (.errno .ENOMEM, none, s)
          else
            match env.kmalloc_child with
            | none => .ok (.errno .ENOMEM, none, s)
            | some a => do
              let s := { s with nodes := Function.update s.nodes a true }
              let s ← s.modProc cp
                (fun r => { r with p_children_list := { addr := a, p := np } :: r.p_children_list })
              let s ← s.modProc np (fun r => { r with p_father_proc := some cp })
              match env.thread_fork with
              | none => do
                let s ← proc_destroy fuel (some np) s
                .ok (.errno .ENOMEM, none, s)
              | some t => do
                let (_, s) ← proc_addthread env.kmalloc_tnode np t s
                let r ← s.getProc np
                .ok (.num 0, some r.p_pid, s)

/-! ## proc.c: `proc_remove_all_threads`, which ends with `sys__exit` -/

/-- The `while (true)` loop of `proc_remove_all_threads`; the fuel bounds the
number of iterations. -/
def proc_remove_all_threads_loop (p : Nat) : Nat → Kernel → Outcome Kernel
  | 0, _ => .diverges
  | fuel + 1, s => do
    let r ← s.getProc p
    if r.p_numthreads = 0 then .ok s
    else
      match r.p_thread_list with
      | [] => .ok s
      | current :: next => do
        let s ← s.modProc p (fun r => { r with p_thread_list := next })
        let s ← s.kfreeNode current.addr
        let s := if current.t ≠ s.curthread then s.emit (.thread_destroy current.t) else s
        proc_remove_all_threads_loop p fuel s

/-- Function `proc_remove_all_threads`, up to the `thread_exit` of the
`sys__exit` it ends with. -/
def proc_remove_all_threads (fuel : Nat) (p : Option Nat) (s : Kernel) : Outcome Kernel :=
  match p with
  | none => .panic
  | some p => do
    let s ← proc_remove_all_threads_loop p fuel s
    sys__exit (-1) s

/-! ## file_syscalls.c -/

/-- Modelled from the spec: `lock_acquire` on the mutual-exclusion primitive
of an open-file record (synch.c is not among the three files); the caller
sleeps while the lock is held. -/
def lock_acquire (f : OfPtr) (s : Kernel) : Outcome Kernel := do
  let r ← s.getOf f
  match r.lock with
  | .free => .ok (s.setOf f { r with lock := .held })
  | .held => .sleeps
  | _ => .fault

/-- Modelled from the spec: `lock_release` on the mutual-exclusion primitive
of an open-file record (synch.c is not among the three files). -/
def lock_release (f : OfPtr) (s : Kernel) : Outcome Kernel := do
  let r ← s.getOf f
  match r.lock with
  | .held => .ok (s.setOf f { r with lock := .free })
  | .free => .panic
  | _ => .fault

/-- Modelled from the spec: `lock_destroy` on the mutual-exclusion primitive
of an open-file record (synch.c is not among the three files). -/
def lock_destroy (f : OfPtr) (s : Kernel) : Outcome Kernel := do
  let r ← s.getOf f
  match r.lock with
  | .free => .ok ((s.setOf f { r with lock := .destroyed }).emit (.lock_destroy f))
  | .held => .panic
  | _ => .fault

/-- Results of the collaborators called by `sys_read` and `sys_write`: whether
`kmalloc` succeeds and `copyin` fails, the result of `VOP_READ` or `VOP_WRITE`
with the `uio_offset` and `uio_resid` it leaves, whether `copyout` fails. -/
structure IoEnv where
  kmalloc : Bool
  copyin_err : Bool
  vop_result : Int
  uio_offset : Int
  uio_resid : Int
  copyout_err : Bool

/-- Function `sys_write`: the result is the return value and the value stored
in `*err`. -/
def sys_write (K : Consts) (env : IoEnv) (fd : Int) (size : Int) (s : Kernel) :
    Outcome (Int × Option Errno × Kernel) :=
  if fd < 0 ∨ fd > (K.OPEN_MAX : Int) then .ok (-1, some .EBADF, s)
  else
    match s.curproc with
    | none => .fault
    | some cp => do
      let of ← s.ftRead K cp fd
      match of with
      | none => .ok (-1, some .EBADF, s)
      | some f => do
        let r ← s.getOf f
        if r.mode_open ≠ K.O_WRONLY ∧ r.mode_open ≠ K.O_RDWR then .ok (-1, some .EBADF, s)
        else
          match r.vn with
          | none => .ok (-1, some .EBADF, s)
          | some _ =>
            if !env.kmalloc then .ok (-1, some .ENOMEM, s)
            else if env.copyin_err then .ok (-1, some .EFAULT, s)
            else do
              let s ← lock_acquire f s
              if env.vop_result ≠ 0 then .ok (-1, some (.code env.vop_result), s)
              else do
                let s ← s.modOf f (fun r => { r with offset := env.uio_offset })
                let nwrite := int32 (size - env.uio_resid)
                let s ← lock_release f s
                .ok (nwrite, none, s)

/-- Function `sys_read`: the result is the return value and the value stored
in `*err`. -/
def sys_read (K : Consts) (env : IoEnv) (fd : Int) (size : Int) (s : Kernel) :
    Outcome (Int × Option Errno × Kernel) :=
  if fd < 0 ∨ fd ≥ (K.OPEN_MAX : Int) then .ok (-1, some .EBADF, s)
  else
    match s.curproc with
    | none => .fault
    | some cp => do
      let of ← s.ftRead K cp fd
      match of with
      | none => .ok (-1, some .EBADF, s)
      | some f => do
        let r ← s.getOf f
        if r.mode_open ≠ K.O_RDONLY ∧ r.mode_open ≠ K.O_RDWR then .ok (-1, some .EBADF, s)
        else
          match r.vn with
          | none => .ok (-1, some .EBADF, s)
          | some _ =>
            if !env.kmalloc then .ok (-1, some .ENOMEM, s)
            else if env.copyin_err then .ok (-1, some .EFAULT, s)
            else do
              let s ← lock_acquire f s
              if env.vop_result ≠ 0 then .ok (-1, some (.code env.vop_result), s)
              else do
                let s ← s.modOf f (fun r => { r with offset := env.uio_offset })
                let nread := int32 (size - env.uio_resid)
                if env.copyout_err then .ok (-1, some .EFAULT, s)
                else do
                  let s ← lock_release f s
                  .ok (nread, none, s)

/-- Function `sys_close`. -/
def sys_close (K : Consts) (fd : Int) (s : Kernel) : Outcome (RetVal × Kernel) :=
  if fd < 0 ∨ fd ≥ (K.OPEN_MAX : Int) then .ok (.errno .EBADF, s)
  else
    match s.curproc with
    | none => .fault
    | some cp => do
      let of ← s.ftRead K cp fd
      match of with
      | none => .ok (.errno .EBADF, s)
      | some f => do
        let s ← lock_acquire f s
        let s ← s.modOf f (fun r => { r with countRef := r.countRef - 1 })
        let s ← s.ftWrite K cp fd none
        let r ← s.getOf f
        if r.countRef = 0 then
          match r.vn with
          | none => .fault
          | some v => do
            let s := s.emit (.vfs_close v)
            let s ← lock_release f s
            let s ← lock_destroy f s
            .ok (.num 0, s)
        else do
          let s ← lock_release f s
          .ok (.num 0, s)

/-- Results of the collaborators called by `sys_lseek`: `VOP_ISSEEKABLE`, and
the result of `VOP_STAT` with the `st_size` it reports. -/
structure SeekEnv where
  seekable : Bool
  stat_err : Int
  st_size : Int

/-- The end of `sys_lseek`, from `of->offset = new_offset;` on. -/
def sys_lseek_store (f : OfPtr) (new_offset : Int) (s : Kernel) :
    Outcome (RetVal × Option (Int × Int) × Kernel) := do
  let s ← s.modOf f (fun r => { r with offset := new_offset })
  let s ← lock_release f s
  .ok (.num 0, some (int32 (new_offset % 2 ^ 32), int32 (new_offset / 2 ^ 32 % 2 ^ 32)), s)

/-- Function `sys_lseek`: the result is the return value and the values
stored in `*retval_low32` and `*retval_upp32`.  `pos` is an `off_t`. -/
def sys_lseek (K : Consts) (env : SeekEnv) (fd : Int) (pos : Int) (whence : Int) (s : Kernel) :
    Outcome (RetVal × Option (Int × Int) × Kernel) :=
  match s.curproc with
  | none => .panic
  | some cp =>
    if fd < 0 ∨ fd ≥ (K.OPEN_MAX : Int) then .ok (.errno .EBADF, none, s)
    else do
      let of ← s.ftRead K cp fd
      match of with
      | none => .ok (.errno .EBADF, none, s)
      | some f => do
        let r ← s.getOf f
        match r.vn with
        | none => .fault
        | some _ =>
          if !env.seekable then .ok (.errno .ESPIPE, none, s)
          else do
            let s ← lock_acquire f s
            let r ← s.getOf f
            if whence = K.SEEK_SET then
              if pos < 0 then do
                let s ← lock_release f s
                .ok (.errno .EINVAL, none, s)
              else sys_lseek_store f pos s
            else if whence = K.SEEK_CUR then
              if pos < 0 ∧ int64 (-pos) > r.offset then do
                let s ← lock_release f s
                .ok (.errno .EINVAL, none, s)
              else sys_lseek_store f (int64 (r.offset + pos)) s
            else if whence = K.SEEK_END then
              if env.stat_err ≠ 0 then do
                let s ← lock_release f s
                .ok (.errno (.code env.stat_err), none, s)
              else if pos < 0 ∧ int64 (-pos) > env.st_size then do
                let s ← lock_release f s
                .ok (.errno .EINVAL, none, s)
              else sys_lseek_store f (int64 (env.st_size + pos)) s
            else do
              let s ← lock_release f s
              .ok (.errno .EINVAL, none, s)

/-- Results of the collaborators called by `sys_open`: whether `kmalloc`
succeeds, the result of `copyinstr`, the result of `vfs_open` and the vnode
it stores in `v`, the result of `VOP_STAT` with the `st_size` it reports,
whether `lock_create` succeeds. -/
structure OpenEnv where
  kmalloc : Bool
  copyinstr : Int
  vfs_open : Int
  v : Nat
  stat_err : Int
  st_size : Int
  lock_create : Bool

/-- The `for (i = 0; i < SYSTEM_OPEN_MAX; i++)` loop of `sys_open`, with `n`
iterations left: the result is the final `of`. -/
def sys_open_registry_loop (v : Nat) : Nat → Nat → Kernel → Option OfPtr × Kernel
  | 0, _, s => (none, s)
  | n + 1, i, s =>
    if (s.systemFileTable i).vn = none then
      (some (.sys i), s.setOf (.sys i) { s.systemFileTable i with vn := some v, offset := 0 })
    else sys_open_registry_loop v n (i + 1) s

/-- The `for (fd = 3; fd < OPEN_MAX; fd++)` loop of `sys_open`, with `n`
iterations left: the result is the final `fd`. -/
def sys_open_fd_loop (K : Consts) (of : OfPtr) : Nat → Nat → Kernel → Outcome (Nat × Kernel)
  | 0, fd, s => .ok (fd, s)
  | n + 1, fd, s => do
    let e ← s.curFtRead K fd
    if e = none then do
      let s ← s.curFtWrite K fd (some of)
      .ok (fd, s)
    else sys_open_fd_loop K of n (fd + 1) s

/-- The end of `sys_open`, from `of->lock = lock_create("file_lock");` on. -/
def sys_open_lock (K : Consts) (env : OpenEnv) (of : OfPtr) (fd : Nat) (s : Kernel) :
    Outcome (RetVal × Option Errno × Kernel) :=
  if !env.lock_create then do
    let s ← s.modOf of (fun r => { r with lock := .null })
    let s ← s.curFtWrite K fd none
    .ok (.num (-1), some .ENOMEM, s.emit (.vfs_close env.v))
  else do
    let s ← s.modOf of (fun r => { r with lock := .free })
    let s ← s.modOf of (fun r => { r with countRef := 1 })
    .ok (.num fd, some (.code 0), s)

/-- The `switch (openflags & O_ACCMODE)` of `sys_open` and what follows it. -/
def sys_open_mode (K : Consts) (env : OpenEnv) (of : OfPtr) (fd : Nat)
    (openflags : Int) (s : Kernel) : Outcome (RetVal × Option Errno × Kernel) :=
  if Int.land openflags K.O_ACCMODE = K.O_RDONLY then do
    let s ← s.modOf of (fun r => { r with mode_open := K.O_RDONLY })
    sys_open_lock K env of fd s
  else if Int.land openflags K.O_ACCMODE = K.O_WRONLY then do
    let s ← s.modOf of (fun r => { r with mode_open := K.O_WRONLY })
    sys_open_lock K env of fd s
  else if Int.land openflags K.O_ACCMODE = K.O_RDWR then do
    let s ← s.modOf of (fun r => { r with mode_open := K.O_RDWR })
    sys_open_lock K env of fd s
  else do
    let s ← s.curFtWrite K fd none
    .ok (.errno .EINVAL, none, s.emit (.vfs_close env.v))

/-- Function `sys_open`: the result is the return value and the value stored
in `*errp`.  `path` is the user address, 0 for `NULL`; `SYSTEM_OPEN_MAX` is
`10 * OPEN_MAX`; `mode` is only passed on to `vfs_open`. -/
def sys_open (K : Consts) (env : OpenEnv) (path : Nat) (openflags : Int) (s : Kernel) :
    Outcome (RetVal × Option Errno × Kernel) :=
  if path = 0 then .ok (.num (-1), some .EFAULT, s)
  else if !env.kmalloc then .ok (.num (-1), some .ENOMEM, s)
  else if env.copyinstr ≠ 0 then .ok (.num (-1), some (.code env.copyinstr), s)
  else if path ≥ 0x80000000 then .ok (.num (-1), some .EFAULT, s)
  else if env.vfs_open ≠ 0 then .ok (.num (-1), some (.code env.vfs_open), s)
  else
    match sys_open_registry_loop env.v (10 * K.OPEN_MAX) 0 s with
    | (none, s) => .ok (.errno .ENFILE, none, s.emit (.vfs_close env.v))
    | (some of, s) => do
      let (fd, s) ← sys_open_fd_loop K of (K.OPEN_MAX - 3) 3 s
      if fd = K.OPEN_MAX then .ok (.errno .EMFILE, none, s.emit (.vfs_close env.v))
      else if Int.land openflags K.O_APPEND ≠ 0 then
        if env.stat_err ≠ 0 then do
          let s ← s.curFtWrite K fd none
          .ok (.num (-1), some (.code env.stat_err), s.emit (.vfs_close env.v))
        else do
          let s ← s.modOf of (fun r => { r with offset := env.st_size })
          sys_open_mode K env of fd openflags s
      else do
        let s ← s.modOf of (fun r => { r with offset := 0 })
        sys_open_mode K env of fd openflags s

/-! ## Sequences of table operations -/

/-- Whether the record at `p` is in no slot `1..MAX_PROC` of the table. -/
def unregistered (s : Kernel) (p : Nat) : Prop :=
  ∀ i, i ≤ MAX_PROC → s.processTable.proc i ≠ some p

instance (s : Kernel) (p : Nat) : Decidable (unregistered s p) :=
  inferInstanceAs (Decidable (∀ i, i ≤ MAX_PROC → s.processTable.proc i ≠ some p))

/-- States reached from an empty process table by allocations, each for a
record that is in no slot (`proc_create` passes a record fresh from `kmalloc`),
and releases.  Between two table operations the rest of the kernel may run
(`frame`): it leaves the table as it is, and every registered record live
with its `p_pid`, which only `proc_init_waitpid` assigns. -/
inductive TableReach : Kernel → Prop where
  | empty (s : Kernel) (h : ∀ i, s.processTable.proc i = none)
      (h0 : s.processTable.last_i = 0) : TableReach s
  | alloc (s t : Kernel) (sem : Option Nat) (p : Nat) (hs : TableReach s)
      (hp : unregistered s p) (h : proc_init_waitpid sem p s = .ok t) : TableReach t
  | release (s t : Kernel) (p : Nat) (hs : TableReach s)
      (h : proc_end_waitpid p s = .ok t) : TableReach t
  | frame (s t : Kernel) (hs : TableReach s)
      (htable : t.processTable = s.processTable)
      (hpid : ∀ i p r, s.processTable.proc i = some p → s.procs p = some r →
        ∃ u, t.procs p = some u ∧ u.p_pid = r.p_pid) : TableReach t

/-! ## Concrete states -/

/-- A process record with every field zero. -/
def proc0 : proc :=
  { p_name := "", p_numthreads := 0, p_thread_list := [], p_children_list := [],
    p_father_proc := none, p_addrspace := none, p_cwd := none, p_terminated := 0,
    p_pid := 0, p_status := 0, p_sem := none, fileTable := fun _ => none }

/-- An open-file record with every field zero. -/
def openfile0 : openfile :=
  { vn := none, offset := 0, mode_open := 0, lock := .null, countRef := 0 }

/-- The kernel state at boot, before `proc_bootstrap`: static data is zero and
nothing is allocated. -/
def boot : Kernel :=
  { processTable := { active := 0, proc := fun _ => none, last_i := 0 },
    kproc := none, curthread := 0, t_proc := fun _ => none, procs := fun _ => none,
    nodes := fun _ => false, ofheap := fun _ => none, systemFileTable := fun _ => openfile0,
    events := [] }

/-- The state after `n` allocations from boot, for records at the addresses
`1, ..., m` of which those at `1, ..., n` are registered, each in the slot of
its address. -/
def filled (n m : Nat) : Kernel :=
  { boot with
    processTable :=
      { active := 0, proc := fun i => if 1 ≤ i ∧ i ≤ n then some i else none, last_i := n },
    procs := fun a =>
      if 1 ≤ a ∧ a ≤ m then
        some (if a ≤ n then { proc0 with p_pid := (a : Int), p_sem := some 0 } else proc0)
      else none }

/-- The table invariant: a slot that is not empty has an index in
`1..MAX_PROC` and holds a live record whose `p_pid` is that index. -/
def slots_hold_own_pid (s : Kernel) : Prop :=
  ∀ i p, s.processTable.proc i = some p →
    1 ≤ i ∧ i ≤ MAX_PROC ∧ ∃ r, s.procs p = some r ∧ r.p_pid = (i : Int)

/-- The state `filled 100 101` after `proc_end_waitpid` on the record at 100:
slots 1 to 99 are occupied, slot 100 is empty and `last_i` is 100. -/
def releasedLast : Kernel :=
  { filled 100 101 with
    processTable :=
      { (filled 100 101).processTable with
          proc := Function.update (filled 100 101).processTable.proc 100 none },
    procs := Function.update (filled 100 101).procs 100
      (some { proc0 with p_pid := 100, p_sem := none }) }

/-- The values that the OS/161 headers give to the constants. -/
def os161Consts : Consts :=
  { OPEN_MAX := 128, O_RDONLY := 0, O_WRONLY := 1, O_RDWR := 2, O_ACCMODE := 3, O_APPEND := 32,
    SEEK_SET := 0, SEEK_CUR := 1, SEEK_END := 2, WNOHANG := 1 }

/-- Collaborator results for `std_init` without failure: the record is placed
at address `a` and the console vnode is `v`. -/
def stdEnvOk (a v : Nat) : StdEnv :=
  { kstrdup := true, kmalloc := some a, vfs_open := some v, lock_create := true }

/-- Collaborator results for `sys_fork` without failure: the child record is
placed at address 2, its console records at 30, 31 and 32, its child node at
11, its thread is 1 with thread node 12. -/
def forkEnvOk : ForkEnv :=
  { run := { create := { kmalloc := some 2, kstrdup := true, sem_create := true },
             std0 := stdEnvOk 30 100, std1 := stdEnvOk 31 100, std2 := stdEnvOk 32 100 },
    as_copy := some 501, kmalloc_tf := true, kmalloc_child := some 11,
    thread_fork := some 1, kmalloc_tnode := some 12 }

/-- A console record as `std_init` leaves it. -/
def consoleFile (mode : Int) : openfile :=
  { vn := some 100, offset := 0, mode_open := mode, lock := .free, countRef := 1 }

/-- The record of a user process with pid 1 and one thread, thread 0: its
descriptors 0, 1, 2 are console records at 20, 21, 22 and its descriptor 3 is
entry 0 of `systemFileTable`. -/
def shProc : proc :=
  { proc0 with
    p_name := "sh", p_numthreads := 1, p_thread_list := [{ addr := 10, t := 0 }],
    p_addrspace := some 500, p_pid := 1, p_sem := some 0,
    fileTable := fun fd =>
      if fd = 0 then some (.heap 20) else if fd = 1 then some (.heap 21)
      else if fd = 2 then some (.heap 22) else if fd = 3 then some (.sys 0) else none }

/-- A file opened read-write, with reference count 1. -/
def shFile : openfile :=
  { vn := some 7, offset := 0, mode_open := 2, lock := .free, countRef := 1 }

/-- A state with one user process, `shProc` at address 1, running thread 0;
entry 0 of `systemFileTable` is `shFile`. -/
def oneProcess : Kernel :=
  { processTable := { active := 1, proc := fun i => if i = 1 then some 1 else none, last_i := 1 },
    kproc := none, curthread := 0,
    t_proc := fun t => if t = 0 then some 1 else none,
    procs := fun a => if a = 1 then some shProc else none,
    nodes := fun a => a = 10,
    ofheap := fun a =>
      if a = 20 then some (consoleFile 0) else if a = 21 then some (consoleFile 1)
      else if a = 22 then some (consoleFile 1) else none,
    systemFileTable := fun i => if i = 0 then shFile else openfile0,
    events := [] }

/-- The full table `filled 100 100` with thread 0 of the process at address 1
running. -/
def fullTable : Kernel :=
  { filled 100 100 with t_proc := fun t => if t = 0 then some 1 else none }

/-- The record of a parent with pid 1 and thread 0, whose children list has a
node for the process at address 3 and a node for the process at address 2. -/
def waitingParent : proc :=
  { proc0 with p_numthreads := 1, p_thread_list := [{ addr := 10, t := 0 }],
               p_children_list := [{ addr := 13, p := 3 }, { addr := 12, p := 2 }],
               p_pid := 1, p_sem := some 0 }

/-- The record of a child with pid 2 that still runs its thread 1. -/
def runningChild : proc :=
  { proc0 with p_numthreads := 1, p_thread_list := [{ addr := 11, t := 1 }],
               p_father_proc := some 1, p_pid := 2, p_sem := some 0 }

/-- The record of a child with pid 3 that has exited with status 7. -/
def exitedChild : proc :=
  { proc0 with p_father_proc := some 1, p_terminated := 1, p_pid := 3, p_status := 7,
               p_sem := some 1 }

/-- A parent at address 1 (`waitingParent`, running thread 0) with two
children: `runningChild` at address 2 and `exitedChild` at address 3. -/
def twoChildren : Kernel :=
  { boot with
    processTable :=
      { active := 1, proc := fun i => if 1 ≤ i ∧ i ≤ 3 then some i else none, last_i := 3 },
    t_proc := fun t => if t = 0 then some 1 else if t = 1 then some 2 else none,
    procs := fun a =>
      if a = 1 then some waitingParent else if a = 2 then some runningChild
      else if a = 3 then some exitedChild else none,
    nodes := fun a => 10 ≤ a ∧ a ≤ 13 }

/-- The state `twoChildren` when thread 1, of the child with pid 2, runs. -/
def childExits : Kernel := { twoChildren with curthread := 1 }

/-- Collaborator results for `sys_read` and `sys_write` without failure: 16
bytes are transferred. -/
def ioEnvOk : IoEnv :=
  { kmalloc := true, copyin_err := false, vop_result := 0, uio_offset := 16, uio_resid := 0,
    copyout_err := false }

/-- Collaborator results for `sys_lseek` on a seekable file of 64 bytes. -/
def seekEnvOk : SeekEnv := { seekable := true, stat_err := 0, st_size := 64 }

/-- Collaborator results for `sys_waitpid` without failure. -/
def waitEnvOk : WaitEnv := { copyin_err := false, copyout_err := false }

/-- What a test of `sys_fork` observes in the parent at address 1 and the
child at address 2: the return value, `*retval`, slot 3 of the child, slots 3
and 0 of the parent, the reference counts of the parent's file (entry 0 of
`systemFileTable`) and of the child's console record at 30, and slot 2 of the
process table. -/
def forkObservation (o : Outcome (RetVal × Option Int × Kernel)) :
    Option (RetVal × Option Int × Option (Option OfPtr) × Option (Option OfPtr) ×
      Option (Option OfPtr) × Int × Option Int × Option Nat) :=
  o.val?.map (fun x =>
    (x.1, x.2.1, (x.2.2.procs 2).map (fun r => r.fileTable 3),
      (x.2.2.procs 1).map (fun r => r.fileTable 3), (x.2.2.procs 1).map (fun r => r.fileTable 0),
      (x.2.2.systemFileTable 0).countRef, (x.2.2.ofheap 30).map (fun r => r.countRef),
      x.2.2.processTable.proc 2))

/-- Conditions under which `proc_destroy` of a process without children
returns: the record at `p` is live and is not the kernel process, it has no
child and no attached thread, a pid of the table and a semaphore, and its
parent, when it has one, is another live process whose children list has a
live node for it. -/
structure LeafDestroyable (s : Kernel) (p : Nat) (r : proc) : Prop where
  live : s.procs p = some r
  not_kproc : s.kproc ≠ some p
  no_children : r.p_children_list = []
  no_threads : r.p_numthreads = 0
  pid_range : 0 < r.p_pid ∧ r.p_pid ≤ (MAX_PROC : Int)
  sem : r.p_sem ≠ none
  father : r.p_father_proc = none ∨
    ∃ fp fr node rest, r.p_father_proc = some fp ∧ fp ≠ p ∧ s.procs fp = some fr ∧
      unlink_child p fr.p_children_list = some (node, rest) ∧ s.nodes node.addr = true

/-- Conditions, in the state in which a process calls `sys__exit`, under which
the `proc_destroy` of a later `proc_wait` returns: the process is not the
kernel process, the calling thread is its only thread, it has a pid of the
table and no child, and its parent, when it has one, is another live process
whose children list has a live node for it (not the thread node that
`sys__exit` releases). -/
structure LeafAtExit (s : Kernel) (p : Nat) (r : proc) : Prop where
  not_kproc : s.kproc ≠ some p
  one_thread : r.p_numthreads = 1
  pid_range : 0 < r.p_pid ∧ r.p_pid ≤ (MAX_PROC : Int)
  no_children : r.p_children_list = []
  father : r.p_father_proc = none ∨
    ∃ fp fr node rest, r.p_father_proc = some fp ∧ fp ≠ p ∧ s.procs fp = some fr ∧
      unlink_child p fr.p_children_list = some (node, rest) ∧ s.nodes node.addr = true ∧
      ∀ tn trest, unlink_thread s.curthread r.p_thread_list = some (tn, trest) →
        tn.addr ≠ node.addr

/-- Collaborator results for `proc_create` without failure: the record is
placed at address `a`. -/
def createEnvOk (a : Nat) : CreateEnv := { kmalloc := some a, kstrdup := true, sem_create := true }

/-- What a test observes after `proc_bootstrap` and the creation of a first
process at address 2: the address of `kproc`, the content of slot 1 of the
process table, `last_i`, the `p_pid` of `kproc`, and the `p_pid` of the first
process. -/
def bootObservation (o : Outcome Kernel) :
    Option (Option Nat × Option Nat × Nat × Option Int × Option Int) :=
  match o with
  | .ok t =>
    some (t.kproc, t.processTable.proc 1, t.processTable.last_i,
      (t.procs 1).map (fun r => r.p_pid),
      match proc_create (createEnvOk 2) "init" t with
      | .ok (_, u) => (u.procs 2).map (fun r => r.p_pid)
      | _ => none)
  | _ => none

/-- The record at `p` is live with `n` attached threads and pid `k`; when
`g` holds, no other live record has the pid `k`, and slot `k` of the process
table holds `x`. -/
structure Pinned (g : Prop) (p n : Nat) (k : Int) (x : Option Nat) (s : Kernel) : Prop where
  live : ∃ r, s.procs p = some r ∧ r.p_numthreads = n ∧ r.p_pid = k
  unique : g → ∀ q rq, q ≠ p → s.procs q = some rq → rq.p_pid ≠ k
  slot : g → s.processTable.proc k.toNat = x

/-- Collaborator results for `sys_open` without failure: the vnode is 9 and
the file has 64 bytes. -/
def openEnvOk : OpenEnv :=
  { kmalloc := true, copyinstr := 0, vfs_open := 0, v := 9, stat_err := 0, st_size := 64,
    lock_create := true }

/-- The state `oneProcess` with every entry of `systemFileTable` in use. -/
def fullRegistry : Kernel := { oneProcess with systemFileTable := fun _ => shFile }

/-- The state `oneProcess` with every descriptor of the process in use. -/
def fullDescriptors : Kernel :=
  { oneProcess with
    procs := fun a => if a = 1 then some { shProc with fileTable := fun _ => some (.sys 0) } else none }

/-- What the caller of `sys_open` observes: the return value, the value stored
in `*errp`, and the descriptor slots 3 and 4 of the process at address 1. -/
def openObservation (o : Outcome (RetVal × Option Errno × Kernel)) :
    Option (RetVal × Option Errno × Option (Option OfPtr) × Option (Option OfPtr)) :=
  o.val?.map (fun x =>
    (x.1, x.2.1, (x.2.2.procs 1).map (fun r => r.fileTable 3),
      (x.2.2.procs 1).map (fun r => r.fileTable 4)))

/-- Collaborator results for `sys_waitpid` when `copyin` of `statusp` fails. -/
def waitEnvBadStatus : WaitEnv := { copyin_err := true, copyout_err := false }

/-- The state `oneProcess` with a second process record at address 2, all of
whose descriptor slots are empty. -/
def withEmptyChild : Kernel :=
  { oneProcess with
    procs := fun a => if a = 1 then some shProc else if a = 2 then some proc0 else none }

/-- The thread-list invariant: the thread count of every live process is the
number of nodes of its thread list, and a thread attached to it has exactly
one node in that list. -/
def thread_list_invariant (s : Kernel) : Prop :=
  ∀ p r, s.procs p = some r →
    r.p_numthreads = r.p_thread_list.length ∧
    ∀ t, s.t_proc t = some p → (r.p_thread_list.filter (fun n => n.t = t)).length = 1

/-- A parent at address 1 with pid 1 and a child at address 2 with pid 2,
linked by the node at 12; neither has an attached thread. -/
def idleFamily : Kernel :=
  { boot with
    processTable :=
      { active := 1, proc := fun i => if 1 ≤ i ∧ i ≤ 2 then some i else none, last_i := 2 },
    procs := fun a =>
      if a = 1 then
        some { proc0 with p_children_list := [{ addr := 12, p := 2 }], p_pid := 1, p_sem := some 0 }
      else if a = 2 then some { proc0 with p_father_proc := some 1, p_pid := 2, p_sem := some 1 }
      else none,
    nodes := fun a => a = 12 }

/-- The record of a process with pid 1 and two attached threads, 0 and 1. -/
def twoThreadsProc : proc :=
  { proc0 with p_numthreads := 2,
               p_thread_list := [{ addr := 11, t := 1 }, { addr := 10, t := 0 }],
               p_pid := 1, p_sem := some 0 }

/-- A process at address 1, `twoThreadsProc`, of whose two threads thread 0
runs. -/
def twoThreads : Kernel :=
  { boot with
    processTable := { active := 1, proc := fun i => if i = 1 then some 1 else none, last_i := 1 },
    t_proc := fun t => if t = 0 ∨ t = 1 then some 1 else none,
    procs := fun a => if a = 1 then some twoThreadsProc else none,
    nodes := fun a => a = 10 ∨ a = 11 }

/-- Collaborator results for `sys_read` and `sys_write` when the vnode
operation fails with error 5. -/
def ioEnvVopFails : IoEnv :=
  { kmalloc := true, copyin_err := false, vop_result := 5, uio_offset := 0, uio_resid := 16,
    copyout_err := false }

/-- Collaborator results for `sys_read` when `copyout` to the user buffer
fails. -/
def ioEnvCopyoutFails : IoEnv :=
  { kmalloc := true, copyin_err := false, vop_result := 0, uio_offset := 16, uio_resid := 0,
    copyout_err := true }

/-- What the caller of `sys_read` or `sys_write` on descriptor 3 of
`oneProcess` observes: the return value, the value stored in `*err`, and the
lock of the record behind the descriptor, entry 0 of `systemFileTable`. -/
def ioObservation (o : Outcome (Int × Option Errno × Kernel)) :
    Option (Int × Option Errno × LockRef) :=
  o.val?.map (fun x => (x.1, x.2.1, (x.2.2.systemFileTable 0).lock))

/-- Whether the outcome is the sleep of the caller. -/
def Outcome.isSleeps {α : Type} : Outcome α → Bool
  | .sleeps => true
  | _ => false

/-- What is left of entry 0 of `systemFileTable` after a call: its vnode, its
reference count and its lock. -/
def registryEntry0 (o : Outcome (RetVal × Kernel)) : Option (RetVal × Option Nat × Int × LockRef) :=
  o.val?.map (fun x =>
    (x.1, (x.2.systemFileTable 0).vn, (x.2.systemFileTable 0).countRef,
      (x.2.systemFileTable 0).lock))

/-- A registry in which every entry has been opened and closed: the reference
count is 0, the lock is destroyed and the `vn` field still holds the vnode.
The process at address 1 has its three console descriptors only. -/
def closedRegistry : Kernel :=
  { oneProcess with
    procs := fun a =>
      if a = 1 then
        some { shProc with fileTable := fun fd =>
          if fd = 0 then some (.heap 20) else if fd = 1 then some (.heap 21)
          else if fd = 2 then some (.heap 22) else none }
      else none,
    systemFileTable := fun _ => { shFile with countRef := 0, lock := .destroyed } }

/-! ## Parent and child links -/

/-- The processes that the nodes of the children list of a record reference,
in list order. -/
def children_of (r : proc) : List Nat := r.p_children_list.map (fun n => n.p)

/-- The parent/child links of a state: for the address of every live record,
its `p_father_proc` and the processes of its children list. -/
def linkView (s : Kernel) (a : Nat) : Option (Option Nat × List Nat) :=
  (s.procs a).map (fun r => (r.p_father_proc, children_of r))

/-- Well-formed links: for live `c` and `p`, the children list of `p` has one
node for `c` when the parent of `c` is `p` and none otherwise; a parent is
live; a process that a children list references is live. -/
structure LinksWellFormed (v : Nat → Option (Option Nat × List Nat)) : Prop where
  link : ∀ c p fc kc fp kp, v c = some (fc, kc) → v p = some (fp, kp) →
    kp.count c = if fc = some p then 1 else 0
  father_live : ∀ c fc kc p, v c = some (fc, kc) → fc = some p → ∃ x, v p = some x
  child_live : ∀ p fp kp c, v p = some (fp, kp) → c ∈ kp → ∃ x, v c = some x

/-- The parent/child link invariant of a kernel state. -/
def LinkInv (s : Kernel) : Prop := LinksWellFormed (linkView s)

/-- A state change that keeps the list nodes and, for every address, whether
it holds a live record and the parent and the children list of that record. -/
def KeepsLinks (s t : Kernel) : Prop :=
  t.nodes = s.nodes ∧
    ∀ a, (t.procs a).map (fun r => (r.p_father_proc, r.p_children_list)) =
      (s.procs a).map (fun r => (r.p_father_proc, r.p_children_list))

/-- The parent/child link invariant as the specification states it: for live
processes `c` and `p`, the parent of `c` is `p` exactly when the children list
of `p` has exactly one node that references `c`. -/
def link_invariant (s : Kernel) : Prop :=
  ∀ c p rc rp, s.procs c = some rc → s.procs p = some rp →
    (rc.p_father_proc = some p ↔ (rp.p_children_list.filter (fun n => n.p = c)).length = 1)

/-! ## Theorems -/

/-! ### Outcomes and kernel memory -/

namespace Outcome

@[simp] theorem bind_ok {α β : Type} (a : α) (f : α → Outcome β) :
    (Outcome.ok a >>= f) = f a := rfl

@[simp] theorem bind_panic {α β : Type} (f : α → Outcome β) :
    ((Outcome.panic : Outcome α) >>= f) = Outcome.panic := rfl

@[simp] theorem bind_fault {α β : Type} (f : α → Outcome β) :
    ((Outcome.fault : Outcome α) >>= f) = Outcome.fault := rfl

@[simp] theorem bind_sleeps {α β : Type} (f : α → Outcome β) :
    ((Outcome.sleeps : Outcome α) >>= f) = Outcome.sleeps := rfl

@[simp] theorem bind_diverges {α β : Type} (f : α → Outcome β) :
    ((Outcome.diverges : Outcome α) >>= f) = Outcome.diverges := rfl

@[simp] theorem pure_eq {α : Type} (a : α) : (pure a : Outcome α) = Outcome.ok a := rfl

@[simp] theorem bind_def {α β : Type} (x : Outcome α) (f : α → Outcome β) :
    Outcome.bind x f = (x >>= f) := rfl

theorem bind_eq_ok {α β : Type} {x : Outcome α} {f : α → Outcome β} {b : β} :
    (x >>= f) = Outcome.ok b ↔ ∃ a, x = Outcome.ok a ∧ f a = Outcome.ok b := by
  cases x <;> simp

end Outcome

/-- A read of a process record returns exactly when the record is live. -/
theorem Kernel.getProc_eq_ok {s : Kernel} {p : Nat} {r : proc} :
    s.getProc p = .ok r ↔ s.procs p = some r := by
  unfold Kernel.getProc
  cases h : s.procs p <;> simp

/-- A write of a process record returns exactly when the record is live. -/
theorem Kernel.modProc_eq_ok {s t : Kernel} {p : Nat} {f : proc → proc} :
    s.modProc p f = .ok t ↔
      ∃ r, s.procs p = some r ∧
        t = { s with procs := Function.update s.procs p (some (f r)) } := by
  unfold Kernel.modProc
  cases h : s.procs p <;> simp [eq_comm]

namespace Kernel

@[simp] theorem getOf_setOf_same (s : Kernel) (f : OfPtr) (r : openfile) :
    (s.setOf f r).getOf f = .ok r := by
  cases f <;> simp [setOf, getOf]

theorem getOf_setOf_ne (s : Kernel) (f g : OfPtr) (r : openfile) (h : g ≠ f) :
    (s.setOf f r).getOf g = s.getOf g := by
  cases f <;> cases g <;> simp [setOf, getOf]
  · rename_i i j
    have : j ≠ i := fun e => h (by rw [e])
    rw [Function.update_noteq this]
  · rename_i i j
    have : j ≠ i := fun e => h (by rw [e])
    rw [Function.update_noteq this]

@[simp] theorem setOf_setOf (s : Kernel) (f : OfPtr) (r u : openfile) :
    (s.setOf f r).setOf f u = s.setOf f u := by
  cases f <;> simp [setOf]

@[simp] theorem setOf_procs (s : Kernel) (f : OfPtr) (r : openfile) :
    (s.setOf f r).procs = s.procs := by
  cases f <;> rfl

@[simp] theorem setOf_events (s : Kernel) (f : OfPtr) (r : openfile) :
    (s.setOf f r).events = s.events := by
  cases f <;> rfl

@[simp] theorem setOf_t_proc (s : Kernel) (f : OfPtr) (r : openfile) :
    (s.setOf f r).t_proc = s.t_proc := by
  cases f <;> rfl

@[simp] theorem setOf_curthread (s : Kernel) (f : OfPtr) (r : openfile) :
    (s.setOf f r).curthread = s.curthread := by
  cases f <;> rfl

@[simp] theorem setOf_curproc (s : Kernel) (f : OfPtr) (r : openfile) :
    (s.setOf f r).curproc = s.curproc := by
  cases f <;> rfl

@[simp] theorem setOf_processTable (s : Kernel) (f : OfPtr) (r : openfile) :
    (s.setOf f r).processTable = s.processTable := by
  cases f <;> rfl

theorem modOf_of_getOf {s : Kernel} {f : OfPtr} {o : openfile} (h : s.getOf f = .ok o)
    (g : openfile → openfile) : s.modOf f g = .ok (s.setOf f (g o)) := by
  simp [modOf, h]

@[simp] theorem getOf_emit (s : Kernel) (e : Event) (f : OfPtr) :
    (s.emit e).getOf f = s.getOf f := by
  cases f <;> rfl

@[simp] theorem getOf_procs_update (s : Kernel) (h : Nat → Option proc) (f : OfPtr) :
    ({ s with procs := h } : Kernel).getOf f = s.getOf f := by
  cases f <;> rfl

end Kernel

/-! ### The process table -/

/-- A normal exit of the allocation loop either leaves the state as it was or
has stored the record in one empty slot `j` of `1..MAX_PROC`. -/
theorem proc_init_waitpid_loop_ok (p : Nat) : ∀ (fuel i : Nat) (s t : Kernel),
    proc_init_waitpid_loop p fuel i s = .ok t → 1 ≤ i → i ≤ MAX_PROC →
    t = s ∨ ∃ j r, 1 ≤ j ∧ j ≤ MAX_PROC ∧ s.processTable.proc j = none ∧
      s.procs p = some r ∧
      t = { s with
            processTable := { s.processTable with
              proc := Function.update s.processTable.proc j (some p), last_i := j },
            procs := Function.update s.procs p (some { r with p_pid := (j : Int) }) } := by
  intro fuel
  induction fuel with
  | zero => intro i s t h; simp [proc_init_waitpid_loop] at h
  | succ n ih =>
    intro i s t h h1 h2
    unfold proc_init_waitpid_loop at h
    by_cases hl : i = s.processTable.last_i
    · simp [hl] at h; exact Or.inl h.symm
    · by_cases he : s.processTable.proc i = none
      · simp only [hl, he, ne_eq, not_false_eq_true, if_true] at h
        rw [Kernel.modProc_eq_ok] at h
        obtain ⟨r, hr, ht⟩ := h
        exact Or.inr ⟨i, r, h1, h2, he, hr, ht⟩
      · simp only [hl, he, ne_eq, not_false_eq_true, if_true, if_false] at h
        apply ih _ s t h
        · split <;> simp only [MAX_PROC] at * <;> omega
        · split <;> simp only [MAX_PROC] at * <;> omega

/-- A normal return of `proc_init_waitpid` has stored the record in one empty slot
`j` of `1..MAX_PROC`, set `last_i` and `p_pid` to `j`, and changed nothing else
but `p_status` and `p_sem` of the record. -/
theorem proc_init_waitpid_ok {sem : Option Nat} {p : Nat} {s t : Kernel}
    (h : proc_init_waitpid sem p s = .ok t) :
    ∃ j r, 1 ≤ j ∧ j ≤ MAX_PROC ∧ s.processTable.proc j = none ∧ s.procs p = some r ∧
      t = { s with
            processTable := { s.processTable with
              proc := Function.update s.processTable.proc j (some p), last_i := j },
            procs := Function.update s.procs p
              (some { r with p_pid := (j : Int), p_status := 0, p_sem := sem }) } := by
  unfold proc_init_waitpid at h
  simp only [Outcome.bind_eq_ok] at h
  obtain ⟨s1, hs1, s2, hloop, r2, hr2, hfin⟩ := h
  rw [Kernel.modProc_eq_ok] at hs1
  obtain ⟨r, hr, rfl⟩ := hs1
  rw [Kernel.getProc_eq_ok] at hr2
  have hcases := proc_init_waitpid_loop_ok p _ _ _ _ hloop
    (by split <;> simp only [MAX_PROC] at * <;> omega)
    (by split <;> simp only [MAX_PROC] at * <;> omega)
  rcases hcases with rfl | ⟨j, r1, hj1, hj2, hnone, hr1, rfl⟩
  · simp at hr2
    subst hr2
    simp at hfin
  · simp at hr2 hr1 hnone
    subst hr1
    subst hr2
    split at hfin
    · simp at hfin
    · rw [Kernel.modProc_eq_ok] at hfin
      obtain ⟨r3, hr3, rfl⟩ := hfin
      simp at hr3
      subst hr3
      exact ⟨j, r, hj1, hj2, hnone, hr, by simp⟩

/-- A normal return of `proc_end_waitpid` has emptied the slot `p_pid` of the
record and destroyed its semaphore. -/
theorem proc_end_waitpid_ok {p : Nat} {s t : Kernel} (h : proc_end_waitpid p s = .ok t) :
    ∃ r, s.procs p = some r ∧ 0 < r.p_pid ∧ r.p_pid ≤ (MAX_PROC : Int) ∧
      t = { s with
            processTable := { s.processTable with
              proc := Function.update s.processTable.proc r.p_pid.toNat none },
            procs := Function.update s.procs p (some { r with p_sem := none }) } := by
  unfold proc_end_waitpid at h
  simp only [Outcome.bind_eq_ok] at h
  obtain ⟨r, hr, h⟩ := h
  rw [Kernel.getProc_eq_ok] at hr
  split at h
  · rename_i hrange
    split at h
    · rw [Kernel.modProc_eq_ok] at h
      obtain ⟨r1, hr1, rfl⟩ := h
      simp only [hr, Option.some.injEq] at hr1
      subst hr1
      exact ⟨r, hr, hrange.1, hrange.2, rfl⟩
    · simp at h
  · simp at h

/-- An allocation for an unregistered record keeps the table invariant. -/
theorem slots_hold_own_pid_alloc {sem : Option Nat} {p : Nat} {s t : Kernel}
    (hinv : slots_hold_own_pid s) (hp : unregistered s p)
    (h : proc_init_waitpid sem p s = .ok t) : slots_hold_own_pid t := by
  obtain ⟨j, r, hj1, hj2, _, hr, rfl⟩ := proc_init_waitpid_ok h
  intro i q hq
  simp only at hq
  by_cases hij : i = j
  · subst hij
    simp at hq
    subst hq
    exact ⟨hj1, hj2, _, Function.update_same _ _ _, rfl⟩
  · rw [Function.update_noteq hij] at hq
    obtain ⟨h1, h2, rq, hrq, hpid⟩ := hinv i q hq
    have hne : q ≠ p := fun e => hp i h2 (e ▸ hq)
    exact ⟨h1, h2, rq, by simp [Function.update_noteq hne, hrq], hpid⟩

/-- A release keeps the table invariant. -/
theorem slots_hold_own_pid_release {p : Nat} {s t : Kernel}
    (hinv : slots_hold_own_pid s) (h : proc_end_waitpid p s = .ok t) :
    slots_hold_own_pid t := by
  obtain ⟨r, hr, _, _, rfl⟩ := proc_end_waitpid_ok h
  intro i q hq
  simp only at hq
  by_cases hik : i = r.p_pid.toNat
  · rw [hik] at hq; simp at hq
  · rw [Function.update_noteq hik] at hq
    obtain ⟨h1, h2, rq, hrq, hpid⟩ := hinv i q hq
    by_cases hqp : q = p
    · subst hqp
      rw [hr] at hrq
      cases hrq
      exact ⟨h1, h2, _, Function.update_same _ _ _, hpid⟩
    · exact ⟨h1, h2, rq, by simp [Function.update_noteq hqp, hrq], hpid⟩

/-- The table invariant holds in every reachable state. -/
theorem slots_hold_own_pid_of_reach {s : Kernel} (h : TableReach s) : slots_hold_own_pid s := by
  induction h with
  | empty s h _ => intro i p hp; simp [h i] at hp
  | alloc s t sem p _ hp h ih => exact slots_hold_own_pid_alloc ih hp h
  | release s t p _ h ih => exact slots_hold_own_pid_release ih h
  | frame s t _ htable hpid ih =>
    intro i p hp
    rw [htable] at hp
    obtain ⟨h1, h2, r, hr, hi⟩ := ih i p hp
    obtain ⟨u, hu, hup⟩ := hpid i p r hp hr
    exact ⟨h1, h2, u, hu, hup.trans hi⟩

/-- One iteration of the allocation loop on an empty slot other than `last_i`. -/
theorem proc_init_waitpid_loop_found (p fuel i : Nat) (s : Kernel)
    (hl : i ≠ s.processTable.last_i) (he : s.processTable.proc i = none) :
    proc_init_waitpid_loop p (fuel + 1) i s =
      { s with processTable :=
          { s.processTable with
              proc := Function.update s.processTable.proc i (some p), last_i := i } }.modProc
        p (fun r => { r with p_pid := (i : Int) }) := by
  rw [proc_init_waitpid_loop]
  simp [hl, he]

/-- The allocation that follows `n` allocations from boot takes slot `n + 1`. -/
theorem filled_alloc (n m : Nat) (hn : n < MAX_PROC) (hm : n < m) :
    proc_init_waitpid (some 0) (n + 1) (filled n m) = .ok (filled (n + 1) m) := by
  simp only [MAX_PROC] at hn
  have h1 : (filled n m).procs (n + 1) = some proc0 := by
    simp [filled]; omega
  unfold proc_init_waitpid
  simp only [Kernel.modProc, h1, Outcome.bind_ok]
  have hi : (if (filled n m).processTable.last_i + 1 > MAX_PROC then 1
      else (filled n m).processTable.last_i + 1) = n + 1 := by
    simp only [filled, MAX_PROC]; split <;> omega
  rw [hi, proc_init_waitpid_loop_found _ _ _ _ (by simp [filled]) (by simp [filled])]
  simp only [Kernel.modProc, Kernel.getProc, Function.update_same, Outcome.bind_ok]
  have hne : ¬ ((n : Int) + 1 = 0) := by omega
  simp only [Nat.cast_add, Nat.cast_one, hne, if_false, Function.update_idem]
  simp only [filled, boot, proc0]
  congr 2
  · congr 1
    funext i
    by_cases hi1 : i = n + 1
    · subst hi1; simp
    · rw [Function.update_noteq hi1]
      have : (i ≤ n) ↔ (i ≤ n + 1) := by omega
      simp [this]
  · funext a
    by_cases ha : a = n + 1
    · subst ha; simp; omega
    · rw [Function.update_noteq ha]
      have : (a ≤ n) ↔ (a ≤ n + 1) := by omega
      simp [this]

/-- The state after `n` allocations from boot is reachable. -/
theorem filled_reach (n m : Nat) (hn : n ≤ MAX_PROC) (hm : n ≤ m) : TableReach (filled n m) := by
  induction n with
  | zero => exact TableReach.empty _ (by intro i; simp [filled]; omega) rfl
  | succ k ih =>
    refine TableReach.alloc (filled k m) _ (some 0) (k + 1) (ih (by omega) (by omega)) ?_
      (filled_alloc k m (by omega) (by omega))
    intro i _
    simp only [filled]
    split
    · simp; omega
    · simp

/-- Releasing pid 100 in the full table gives `releasedLast`. -/
theorem releasedLast_eq : proc_end_waitpid 100 (filled 100 101) = .ok releasedLast := by
  rfl

/-- In a reachable state, `proc_search_pid` returns the registered record for
every pid from 1 to `MAX_PROC - 1`. -/
theorem proc_search_pid_registered (s : Kernel) (h : TableReach s) (i p : Nat)
    (hi : i < MAX_PROC) (hp : s.processTable.proc i = some p) :
    proc_search_pid (i : Int) s = .ok (some p) := by
  obtain ⟨_, _, r, hr, hpid⟩ := slots_hold_own_pid_of_reach h i p hp
  simp only [MAX_PROC] at hi
  unfold proc_search_pid
  have h1 : ¬ ((i : Int) > (MAX_PROC : Int)) := by simp only [MAX_PROC]; omega
  have h2 : (i : Int) ≥ 0 ∧ (i : Int) < (MAX_PROC : Int) := by simp only [MAX_PROC]; omega
  have h3 : ¬ 100 < i := by omega
  simp [h1, h2, hp, Kernel.getProc, hr, hpid, h3, hi]

/-! ### Exit, wait and destruction -/

/-- The node that `proc_remove_proc` unlinks is the first node of the list
that references the process; the nodes before and after it stay, in their
order. -/
theorem unlink_child_spec (this : Nat) :
    ∀ (l : List child_node) (n : child_node) (rest : List child_node),
      unlink_child this l = some (n, rest) →
      ∃ pre post, l = pre ++ n :: post ∧ rest = pre ++ post ∧ n.p = this ∧
        ∀ c ∈ pre, c.p ≠ this := by
  intro l
  induction l with
  | nil => intro n rest h; simp [unlink_child] at h
  | cons c cs ih =>
    intro n rest h
    unfold unlink_child at h
    by_cases hc : c.p = this
    · simp only [hc, if_true, Option.some.injEq, Prod.mk.injEq] at h
      obtain ⟨rfl, rfl⟩ := h
      exact ⟨[], _, rfl, rfl, hc, by simp⟩
    · simp only [hc, if_false] at h
      cases hu : unlink_child this cs with
      | none => simp [hu] at h
      | some x =>
        obtain ⟨m, r⟩ := x
        simp only [hu, Option.some.injEq, Prod.mk.injEq] at h
        obtain ⟨rfl, rfl⟩ := h
        obtain ⟨pre, post, h1, h2, h3, h4⟩ := ih m r hu
        refine ⟨c :: pre, post, by simp [h1], by simp [h2], h3, ?_⟩
        intro d hd
        rcases List.mem_cons.mp hd with rfl | hd
        · exact hc
        · exact h4 d hd

set_option maxHeartbeats 1000000 in
/-- The state in which `proc_destroy` of a process without children leaves the
kernel. -/
theorem proc_destroy_leaf_state (fuel : Nat) (s : Kernel) (p : Nat) (r : proc)
    (h : LeafDestroyable s p r) :
    ∃ t, proc_destroy (fuel + 1) (some p) s = .ok t ∧
      t.processTable = { s.processTable with
        proc := Function.update s.processTable.proc r.p_pid.toNat none } ∧
      t.events =
        (match r.p_addrspace with
          | some a => if s.curproc = some p then [.as_destroy a, .as_deactivate]
                      else [.as_destroy a]
          | none => []) ++
        (match r.p_cwd with
          | some v => [.vop_decref v]
          | none => []) ++ s.events ∧
      (r.p_father_proc = none → t.procs = Function.update s.procs p none ∧ t.nodes = s.nodes) ∧
      (∀ fp fr node rest, r.p_father_proc = some fp → s.procs fp = some fr →
        unlink_child p fr.p_children_list = some (node, rest) →
        t.procs = Function.update
          (Function.update s.procs fp (some { fr with p_children_list := rest })) p none ∧
        t.nodes = Function.update s.nodes node.addr false) ∧
      t.kproc = s.kproc ∧ t.curthread = s.curthread ∧ t.t_proc = s.t_proc ∧
      t.ofheap = s.ofheap ∧ t.systemFileTable = s.systemFileTable := by
  obtain ⟨hlive, hk, hch, hth, hpid, hsem, hfa⟩ := h
  have hk2 : ¬ (some p = s.kproc) := fun e => hk e.symm
  obtain ⟨n, hn⟩ := Option.ne_none_iff_exists'.mp hsem
  have hp1 : 0 < r.p_pid := hpid.1
  have hp2 : r.p_pid ≤ 100 := hpid.2
  unfold proc_destroy
  rcases hfa with hf | ⟨fp, fr, node, rest, hf, hne, hfr, hun, hnode⟩
  · by_cases hcp : s.t_proc s.curthread = some p
    · cases hc : r.p_cwd <;> cases ha : r.p_addrspace <;>
        simp [hk2, Kernel.getProc, Kernel.modProc, Kernel.emit, hlive, hc, ha, hcp, Kernel.curproc,
          hch, proc_destroy_loop, hf, hth, proc_end_waitpid, hp1, hp2, hn]
    · have hcp2 : ¬ (some p = s.t_proc s.curthread) := fun e => hcp e.symm
      cases hc : r.p_cwd <;> cases ha : r.p_addrspace <;>
        simp [hk2, Kernel.getProc, Kernel.modProc, Kernel.emit, hlive, hc, ha, hcp, hcp2,
          Kernel.curproc, hch, proc_destroy_loop, hf, hth, proc_end_waitpid, hp1, hp2, hn]
  · have hne2 : ¬ (p = fp) := fun e => hne e.symm
    by_cases hcp : s.t_proc s.curthread = some p
    · cases hc : r.p_cwd <;> cases ha : r.p_addrspace <;>
        simp [hk2, Kernel.getProc, Kernel.modProc, Kernel.emit, hlive, hc, ha, hcp, Kernel.curproc,
          hch, proc_destroy_loop, hf, hth, proc_end_waitpid, hp1, hp2, hn,
          proc_remove_proc, Function.update_apply, hne, hne2, hfr, hun, Kernel.kfreeNode, hnode] <;>
        (intro fp1 fr1 node1 rest1 e1 e2 e3
         subst e1
         rw [hfr] at e2
         cases e2
         rw [hun] at e3
         cases e3
         refine ⟨?_, rfl⟩
         funext a
         by_cases hap : a = p
         · subst hap; simp
         · simp [Function.update_apply, hap])
    · have hcp2 : ¬ (some p = s.t_proc s.curthread) := fun e => hcp e.symm
      cases hc : r.p_cwd <;> cases ha : r.p_addrspace <;>
        simp [hk2, Kernel.getProc, Kernel.modProc, Kernel.emit, hlive, hc, ha, hcp, hcp2,
          Kernel.curproc, hch, proc_destroy_loop, hf, hth, proc_end_waitpid, hp1, hp2, hn,
          proc_remove_proc, Function.update_apply, hne, hne2, hfr, hun, Kernel.kfreeNode, hnode] <;>
        (intro fp1 fr1 node1 rest1 e1 e2 e3
         subst e1
         rw [hfr] at e2
         cases e2
         rw [hun] at e3
         cases e3
         refine ⟨?_, rfl⟩
         funext a
         by_cases hap : a = p
         · subst hap; simp
         · simp [Function.update_apply, hap])

/-- `proc_destroy` of a process without children returns, with the record
released and its slot of the process table emptied. -/
theorem proc_destroy_leaf (fuel : Nat) (s : Kernel) (p : Nat) (r : proc)
    (h : LeafDestroyable s p r) :
    ∃ t, proc_destroy (fuel + 1) (some p) s = .ok t ∧ t.procs p = none ∧
      t.processTable.proc = Function.update s.processTable.proc r.p_pid.toNat none := by
  obtain ⟨t, ht, htab, _, hnone, hsome, _⟩ := proc_destroy_leaf_state fuel s p r h
  refine ⟨t, ht, ?_, by rw [htab]⟩
  rcases h.father with hf | ⟨fp, fr, node, rest, hf, _, hfr, hun, _⟩
  · rw [(hnone hf).1, Function.update_same]
  · rw [(hsome fp fr node rest hf hfr hun).1, Function.update_same]

/-- The value `status & 0xff` lies in `0..255`. -/
theorem land_0xff_range (status : Int) : 0 ≤ Int.land status 0xff ∧ Int.land status 0xff ≤ 255 := by
  cases status with
  | ofNat m =>
    have h : Int.land (Int.ofNat m) 0xff = ((m &&& 255 : Nat) : Int) := rfl
    rw [h]
    have := @Nat.and_le_right m 255
    omega
  | negSucc m =>
    have h : Int.land (Int.negSucc m) 0xff = ((Nat.ldiff 255 m : Nat) : Int) := rfl
    rw [h]
    have hlt : Nat.ldiff 255 m < 2 ^ 8 := by
      apply Nat.lt_pow_two_of_testBit
      intro j hj
      rw [Nat.testBit_ldiff]
      have : Nat.testBit 255 j = false := by
        apply Nat.testBit_lt_two_pow
        calc 255 < 2 ^ 8 := by decide
          _ ≤ 2 ^ j := Nat.pow_le_pow_right (by decide) hj
      simp [this]
    omega

/-- The state in which `sys__exit` leaves the kernel. -/
theorem sys__exit_ok (status : Int) (s : Kernel) (p : Nat) (r : proc) (n : Nat)
    (hcur : s.curproc = some p) (hlive : s.procs p = some r) (hth : 0 < r.p_numthreads)
    (hsem : r.p_sem = some n)
    (hnode : ∀ node rest, unlink_thread s.curthread r.p_thread_list = some (node, rest) →
      s.nodes node.addr = true) :
    ∃ s1, sys__exit status s = .ok s1 ∧
      s1.procs = Function.update s.procs p (some
        { r with p_status := Int.land status 0xff, p_terminated := 1,
                 p_numthreads := r.p_numthreads - 1,
                 p_thread_list := (match unlink_thread s.curthread r.p_thread_list with
                   | some (_, rest) => rest
                   | none => r.p_thread_list),
                 p_sem := some (n + 1) }) ∧
      s1.nodes = (match unlink_thread s.curthread r.p_thread_list with
        | some (tn, _) => Function.update s.nodes tn.addr false
        | none => s.nodes) ∧
      s1.kproc = s.kproc ∧ s1.processTable = s.processTable ∧ s1.curthread = s.curthread ∧
      s1.t_proc = Function.update s.t_proc s.curthread none := by
  have hcur2 : s.t_proc s.curthread = some p := hcur
  cases hu : unlink_thread s.curthread r.p_thread_list with
  | none =>
    simp [sys__exit, hcur, Kernel.modProc, hlive, proc_remthread, hcur2, Kernel.getProc, hth, hu,
      proc_signal_end, V, hsem]
  | some x =>
    obtain ⟨tn, rest⟩ := x
    have := hnode tn rest hu
    simp [sys__exit, hcur, Kernel.modProc, hlive, proc_remthread, hcur2, Kernel.getProc, hth, hu,
      proc_signal_end, V, hsem, Kernel.kfreeNode, this]

/-- The semaphore operation `P` on a positive count. -/
theorem P_ok (s : Kernel) (p : Nat) (r : proc) (n : Nat) (hlive : s.procs p = some r)
    (hsem : r.p_sem = some (n + 1)) :
    P p s = .ok { s with procs := Function.update s.procs p (some { r with p_sem := some n }) } := by
  simp [P, Kernel.getProc, hlive, hsem, Kernel.modProc]

/-- Function `proc_wait` on a pointer that is not `NULL`. -/
theorem proc_wait_some (fuel p : Nat) (s : Kernel) :
    proc_wait fuel (some p) s =
      if some p = s.kproc then .panic
      else P p s >>= fun s1 => s1.getProc p >>= fun r =>
        proc_destroy fuel (some p) s1 >>= fun s2 => .ok (r.p_status, s2) := rfl

/-! ### File calls -/

/-- For a descriptor outside `[0, OPEN_MAX)`, `sys_read`, `sys_close` and
`sys_lseek` return `EBADF` and leave the state as it was; `sys_write` does so
for a descriptor outside `[0, OPEN_MAX]`. -/
theorem bad_fd_rejected (K : Consts) (io : IoEnv) (sk : SeekEnv) (fd size pos whence : Int)
    (s : Kernel) (cp : Nat) (hcur : s.curproc = some cp)
    (hfd : fd < 0 ∨ fd ≥ (K.OPEN_MAX : Int)) :
    sys_read K io fd size s = .ok (-1, some .EBADF, s) ∧
      sys_close K fd s = .ok (.errno .EBADF, s) ∧
      sys_lseek K sk fd pos whence s = .ok (.errno .EBADF, none, s) ∧
      (fd ≠ (K.OPEN_MAX : Int) → sys_write K io fd size s = .ok (-1, some .EBADF, s)) := by
  refine ⟨?_, ?_, ?_, ?_⟩
  · simp [sys_read, hfd]
  · simp [sys_close, hfd]
  · simp [sys_lseek, hcur, hfd]
  · intro hne
    have : fd < 0 ∨ fd > (K.OPEN_MAX : Int) := by omega
    simp [sys_write, this]

/-- Whatever the value of `OPEN_MAX`, `sys_write` on the descriptor `OPEN_MAX`
passes the range check and reads past the end of the descriptor table. -/
theorem sys_write_open_max (K : Consts) (io : IoEnv) (size : Int) (s : Kernel) (cp : Nat)
    (hcur : s.curproc = some cp) :
    sys_write K io (K.OPEN_MAX : Int) size s = .fault := by
  have h : ¬ ((K.OPEN_MAX : Int) < 0 ∨ (K.OPEN_MAX : Int) > (K.OPEN_MAX : Int)) := by omega
  simp [sys_write, h, hcur, Kernel.ftRead]

/-- What `sys_close` does on a descriptor whose slot references a live record
with a free lock and a vnode. -/
theorem sys_close_ok (K : Consts) (fd : Int) (s : Kernel) (cp : Nat) (r : proc) (f : OfPtr)
    (o : openfile) (v : Nat)
    (hcur : s.curproc = some cp) (hrec : s.procs cp = some r)
    (hfd : 0 ≤ fd ∧ fd < (K.OPEN_MAX : Int)) (hslot : r.fileTable fd.toNat = some f)
    (hof : s.getOf f = .ok o) (hlock : o.lock = .free) (hvn : o.vn = some v) :
    ∃ t, sys_close K fd s = .ok (.num 0, t) ∧
      t.procs = Function.update s.procs cp
        (some { r with fileTable := Function.update r.fileTable fd.toNat none }) ∧
      t.getOf f = .ok { o with countRef := o.countRef - 1,
                               lock := if o.countRef - 1 = 0 then .destroyed else .free } ∧
      (∀ g, g ≠ f → t.getOf g = s.getOf g) ∧
      t.events = (if o.countRef - 1 = 0 then [.lock_destroy f, .vfs_close v] else []) ++ s.events ∧
      t.t_proc = s.t_proc ∧ t.processTable = s.processTable := by
  have hnot : ¬ (fd < 0 ∨ fd ≥ (K.OPEN_MAX : Int)) := by omega
  cases f with
  | sys i =>
    have ho : s.systemFileTable i = o := by simpa [Kernel.getOf] using hof
    by_cases hz : o.countRef - 1 = 0
    · simp [sys_close, hnot, hcur, Kernel.ftRead, hfd, Kernel.getProc, hrec, hslot, lock_acquire,
        Kernel.getOf, Kernel.setOf, ho, hlock, Kernel.modOf, Kernel.ftWrite, Kernel.modProc, hz,
        hvn, lock_release, lock_destroy, Kernel.emit]
      intro g hg
      cases g with
      | sys j =>
        have hj : j ≠ i := fun e => hg (by rw [e])
        simp only [Function.update_noteq hj]
      | heap b => rfl
    · simp [sys_close, hnot, hcur, Kernel.ftRead, hfd, Kernel.getProc, hrec, hslot, lock_acquire,
        Kernel.getOf, Kernel.setOf, ho, hlock, Kernel.modOf, Kernel.ftWrite, Kernel.modProc, hz,
        hvn, lock_release, lock_destroy, Kernel.emit]
      intro g hg
      cases g with
      | sys j =>
        have hj : j ≠ i := fun e => hg (by rw [e])
        simp only [Function.update_noteq hj]
      | heap b => rfl
  | heap a =>
    have ho : s.ofheap a = some o := by
      simp only [Kernel.getOf] at hof
      cases h : s.ofheap a <;> simp_all
    by_cases hz : o.countRef - 1 = 0
    · simp [sys_close, hnot, hcur, Kernel.ftRead, hfd, Kernel.getProc, hrec, hslot, lock_acquire,
        Kernel.getOf, Kernel.setOf, ho, hlock, Kernel.modOf, Kernel.ftWrite, Kernel.modProc, hz,
        hvn, lock_release, lock_destroy, Kernel.emit]
      intro g hg
      cases g with
      | sys j => rfl
      | heap b =>
        have hb : b ≠ a := fun e => hg (by rw [e])
        simp only [Function.update_noteq hb]
    · simp [sys_close, hnot, hcur, Kernel.ftRead, hfd, Kernel.getProc, hrec, hslot, lock_acquire,
        Kernel.getOf, Kernel.setOf, ho, hlock, Kernel.modOf, Kernel.ftWrite, Kernel.modProc, hz,
        hvn, lock_release, lock_destroy, Kernel.emit]
      intro g hg
      cases g with
      | sys j => rfl
      | heap b =>
        have hb : b ≠ a := fun e => hg (by rw [e])
        simp only [Function.update_noteq hb]

/-! ### Lookups and the allocation scan -/

/-- For a pid above `MAX_PROC`, `proc_search_pid` returns `NULL` and
`check_is_child` returns -1. -/
theorem proc_search_pid_above (pid : Int) (s : Kernel) (h : pid > (MAX_PROC : Int)) :
    proc_search_pid pid s = .ok none ∧ check_is_child pid s = .ok (-1) := by
  have h1 : proc_search_pid pid s = .ok none := by simp only [proc_search_pid, h, if_true]
  exact ⟨h1, by simp [check_is_child, h1]⟩

/-- For a pid from 0 to `MAX_PROC - 1` whose slot is empty, `proc_search_pid`
reads `p_pid` through the `NULL` found in the slot, and so does
`check_is_child`; for a negative pid the assertion of `proc_search_pid`
fails. -/
theorem proc_search_pid_empty_slot (pid : Int) (s : Kernel) :
    (0 ≤ pid → pid < (MAX_PROC : Int) → s.processTable.proc pid.toNat = none →
      proc_search_pid pid s = .fault ∧ check_is_child pid s = .fault) ∧
    (pid < 0 → proc_search_pid pid s = .panic ∧ check_is_child pid s = .panic) := by
  constructor
  · intro h0 h1 hs
    have h2 : ¬ (pid > (MAX_PROC : Int)) := by omega
    have h : proc_search_pid pid s = .fault := by
      simp only [proc_search_pid, h2, if_false, ge_iff_le, h0, h1, and_self, if_true, hs]
    exact ⟨h, by simp [check_is_child, h]⟩
  · intro hneg
    have h2 : ¬ (pid > (MAX_PROC : Int)) := by simp only [MAX_PROC]; omega
    have h3 : ¬ (pid ≥ 0 ∧ pid < (MAX_PROC : Int)) := by omega
    have h : proc_search_pid pid s = .panic := by
      simp only [proc_search_pid, h2, if_false, h3]
    exact ⟨h, by simp [check_is_child, h]⟩

/-- The scan of `proc_verify_pid` reads the process table only. -/
theorem proc_verify_pid_loop_congr (s u : Kernel) (h : u.processTable = s.processTable) :
    ∀ fuel i, proc_verify_pid_loop u fuel i = proc_verify_pid_loop s fuel i := by
  intro fuel
  induction fuel with
  | zero => intro i; rfl
  | succ n ih =>
    intro i
    simp only [proc_verify_pid_loop, h, ih]

/-- The scan of `proc_verify_pid` exits with a pid or runs out of fuel. -/
theorem proc_verify_pid_loop_cases (s : Kernel) :
    ∀ fuel i, proc_verify_pid_loop s fuel i = .diverges ∨
      ∃ j, proc_verify_pid_loop s fuel i = .ok j := by
  intro fuel
  induction fuel with
  | zero => intro i; exact Or.inl rfl
  | succ n ih =>
    intro i
    unfold proc_verify_pid_loop
    split
    · split
      · exact Or.inr ⟨i, rfl⟩
      · exact ih _
    · exact Or.inr ⟨0, rfl⟩

/-- The allocation loop is the scan of `proc_verify_pid` followed by the
assignment of the slot that the scan has found. -/
theorem proc_init_waitpid_loop_eq_scan (p : Nat) (s : Kernel) :
    ∀ fuel i, 1 ≤ i →
      proc_init_waitpid_loop p fuel i s =
        (proc_verify_pid_loop s fuel i >>= fun j =>
          if j = 0 then .ok s
          else
            { s with processTable :=
                { s.processTable with
                    proc := Function.update s.processTable.proc j (some p), last_i := j } }.modProc
              p (fun r => { r with p_pid := (j : Int) })) := by
  intro fuel
  induction fuel with
  | zero => intro i _; rfl
  | succ n ih =>
    intro i hi
    unfold proc_init_waitpid_loop proc_verify_pid_loop
    by_cases hl : i = s.processTable.last_i
    · simp [hl]
    · by_cases he : s.processTable.proc i = none
      · have hi0 : i ≠ 0 := by omega
        simp [hl, he, hi0]
      · simp only [ne_eq, hl, not_false_eq_true, if_true, he, if_false]
        exact ih _ (by split <;> omega)

/-- More fuel does not change an exit of the scan. -/
theorem proc_verify_pid_loop_mono (s : Kernel) :
    ∀ fuel i j, proc_verify_pid_loop s fuel i = .ok j →
      ∀ k, proc_verify_pid_loop s (fuel + k) i = .ok j := by
  intro fuel
  induction fuel with
  | zero => intro i j h; simp [proc_verify_pid_loop] at h
  | succ n ih =>
    intro i j h k
    have e : n + 1 + k = (n + k) + 1 := by omega
    rw [e]
    unfold proc_verify_pid_loop at h ⊢
    by_cases hl : i = s.processTable.last_i
    · simpa [hl] using h
    · by_cases he : s.processTable.proc i = none
      · simpa [hl, he] using h
      · simp only [ne_eq, hl, not_false_eq_true, if_true, he, if_false] at h ⊢
        exact ih _ _ h k

/-- A scan that runs out of fuel has met neither `last_i` nor an empty slot at
any of the indices it has visited. -/
theorem proc_verify_pid_loop_diverges (s : Kernel) :
    ∀ fuel i, 1 ≤ i → i ≤ MAX_PROC → proc_verify_pid_loop s fuel i = .diverges →
      ∀ k, k < fuel →
        (i - 1 + k) % MAX_PROC + 1 ≠ s.processTable.last_i ∧
          s.processTable.proc ((i - 1 + k) % MAX_PROC + 1) ≠ none := by
  intro fuel
  induction fuel with
  | zero => intro i _ _ _ k hk; omega
  | succ n ih =>
    intro i h1 h2 h k hk
    simp only [MAX_PROC] at h2 ⊢
    unfold proc_verify_pid_loop at h
    by_cases hl : i = s.processTable.last_i
    · simp [hl] at h
    · by_cases he : s.processTable.proc i = none
      · simp [hl, he] at h
      · simp only [ne_eq, hl, not_false_eq_true, if_true, he, if_false] at h
        cases k with
        | zero =>
          have e : (i - 1 + 0) % 100 + 1 = i := by omega
          rw [e]
          exact ⟨hl, he⟩
        | succ m =>
          have hnext := ih (if i + 1 > MAX_PROC then 1 else i + 1)
            (by split <;> omega) (by simp only [MAX_PROC]; split <;> omega) h m (by omega)
          simp only [MAX_PROC] at hnext
          have e : ((if i + 1 > 100 then 1 else i + 1) - 1 + m) % 100 + 1 =
              (i - 1 + (m + 1)) % 100 + 1 := by
            split <;> omega
          rw [e] at hnext
          exact hnext

/-- When no index of `1..MAX_PROC` is `last_i` or an empty slot, the scan does
not exit, whatever the fuel. -/
theorem proc_verify_pid_loop_never_exits (s : Kernel)
    (hall : ∀ j, 1 ≤ j → j ≤ MAX_PROC →
      j ≠ s.processTable.last_i ∧ s.processTable.proc j ≠ none) :
    ∀ fuel i, 1 ≤ i → i ≤ MAX_PROC → proc_verify_pid_loop s fuel i = .diverges := by
  intro fuel
  induction fuel with
  | zero => intro i _ _; rfl
  | succ n ih =>
    intro i h1 h2
    obtain ⟨hl, he⟩ := hall i h1 h2
    unfold proc_verify_pid_loop
    simp only [ne_eq, hl, not_false_eq_true, if_true, he, if_false]
    exact ih _ (by split <;> omega) (by simp only [MAX_PROC] at h2 ⊢; split <;> omega)

/-- The fuel `MAX_PROC + 1` of the scan is enough: with any larger fuel the
scan gives the same result, so a scan that has not exited with this fuel is a
loop that never exits. -/
theorem proc_verify_pid_loop_fuel (s : Kernel) (i k : Nat) (h1 : 1 ≤ i) (h2 : i ≤ MAX_PROC) :
    proc_verify_pid_loop s (MAX_PROC + 1 + k) i = proc_verify_pid_loop s (MAX_PROC + 1) i := by
  rcases proc_verify_pid_loop_cases s (MAX_PROC + 1) i with hd | ⟨j, hj⟩
  · rw [hd]
    apply proc_verify_pid_loop_never_exits s _ _ _ h1 h2
    intro j hj1 hj2
    have hvis := proc_verify_pid_loop_diverges s _ i h1 h2 hd ((j + MAX_PROC - i) % MAX_PROC)
      (by simp only [MAX_PROC]; omega)
    simp only [MAX_PROC] at hvis h2 hj2
    have e : (i - 1 + (j + 100 - i) % 100) % 100 + 1 = j := by omega
    rw [e] at hvis
    exact hvis
  · rw [hj]
    exact proc_verify_pid_loop_mono s _ _ _ hj k

/-- The fuel `MAX_PROC + 1` of the allocation loop is enough: with any larger
fuel the loop gives the same result. -/
theorem proc_init_waitpid_loop_fuel (p : Nat) (s : Kernel) (i k : Nat) (h1 : 1 ≤ i)
    (h2 : i ≤ MAX_PROC) :
    proc_init_waitpid_loop p (MAX_PROC + 1 + k) i s =
      proc_init_waitpid_loop p (MAX_PROC + 1) i s := by
  rw [proc_init_waitpid_loop_eq_scan p s _ i h1, proc_init_waitpid_loop_eq_scan p s _ i h1,
    proc_verify_pid_loop_fuel s i k h1 h2]

/-! ### The structure of `proc_destroy` -/

/-- Sequencing is associative. -/
theorem Outcome.bind_assoc {α β γ : Type} (x : Outcome α) (f : α → Outcome β) (g : β → Outcome γ) :
    (x >>= f >>= g) = (x >>= fun a => f a >>= g) := by
  cases x <;> rfl

/-- Sequencing respects equality of continuations. -/
theorem Outcome.bind_congr {α β : Type} (x : Outcome α) (f g : α → Outcome β) (h : ∀ a, f a = g a) :
    (x >>= f) = (x >>= g) := by
  cases x <;> first | rfl | exact h _

/-- Function `proc_destroy` is `proc_destroy_before_check` followed by the
assertion on the thread count, `proc_end_waitpid` and the release of the
record. -/
theorem proc_destroy_eq_before_check (fuel p : Nat) (s : Kernel) :
    proc_destroy (fuel + 1) (some p) s =
      if some p = s.kproc then .panic
      else proc_destroy_before_check fuel p s >>= fun u => u.getProc p >>= fun r =>
        if r.p_numthreads ≠ 0 then .panic
        else proc_end_waitpid p u >>= fun v =>
          .ok { v with procs := Function.update v.procs p none } := by
  unfold proc_destroy proc_destroy_before_check
  by_cases hk : some p = s.kproc
  · simp [hk]
  · simp only [hk, if_false]
    cases hp : s.procs p with
    | none => simp [Kernel.getProc, hp]
    | some r =>
      simp only [Kernel.getProc, hp, Outcome.bind_ok]
      have tail : ∀ s2 : Kernel,
          (proc_destroy_loop (proc_destroy fuel) p r.p_children_list s2 >>= fun s =>
            (match s.procs p with
              | some r => Outcome.ok r
              | none => Outcome.fault) >>= fun r =>
            match r.p_father_proc with
              | some f => proc_remove_proc (some p) (some f) s >>= fun x =>
                  if x.1 ≠ 0 then
                    (Outcome.panic : Outcome Kernel) >>= fun y =>
                      (match y.procs p with
                        | some r => Outcome.ok r
                        | none => Outcome.fault) >>= fun r =>
                      if r.p_numthreads ≠ 0 then Outcome.panic
                      else proc_end_waitpid p y >>= fun v =>
                        Outcome.ok { v with procs := Function.update v.procs p none }
                  else
                      (match x.2.procs p with
                        | some r => Outcome.ok r
                        | none => Outcome.fault) >>= fun r =>
                      if r.p_numthreads ≠ 0 then Outcome.panic
                      else proc_end_waitpid p x.2 >>= fun v =>
                        Outcome.ok { v with procs := Function.update v.procs p none }
              | none =>
                      (match s.procs p with
                        | some r => Outcome.ok r
                        | none => Outcome.fault) >>= fun r =>
                      if r.p_numthreads ≠ 0 then Outcome.panic
                      else proc_end_waitpid p s >>= fun v =>
                        Outcome.ok { v with procs := Function.update v.procs p none }) =
          ((proc_destroy_loop (proc_destroy fuel) p r.p_children_list s2 >>= fun s =>
            (match s.procs p with
              | some r => Outcome.ok r
              | none => Outcome.fault) >>= fun r =>
            match r.p_father_proc with
              | some f => proc_remove_proc (some p) (some f) s >>= fun x =>
                  if x.1 ≠ 0 then Outcome.panic else Outcome.ok x.2
              | none => Outcome.ok s) >>= fun u =>
            (match u.procs p with
              | some r => Outcome.ok r
              | none => Outcome.fault) >>= fun r =>
            if r.p_numthreads ≠ 0 then Outcome.panic
            else proc_end_waitpid p u >>= fun v =>
              Outcome.ok { v with procs := Function.update v.procs p none }) := by
        intro s2
        rw [Outcome.bind_assoc]
        apply Outcome.bind_congr
        intro s3
        rw [Outcome.bind_assoc]
        apply Outcome.bind_congr
        intro r3
        cases r3.p_father_proc with
        | none => rfl
        | some f =>
          simp only []
          rw [Outcome.bind_assoc]
          apply Outcome.bind_congr
          intro x
          by_cases hx : x.1 = 0
          · simp [hx]
          · simp [hx]
      rcases hc : r.p_cwd with _ | v <;> rcases ha : r.p_addrspace with _ | a
      · simp only [Outcome.bind_ok]
        exact tail _
      · simp only [Outcome.bind_ok, Kernel.modProc, hp]
        by_cases hcp : some p = s.curproc
        · simp only [if_pos hcp, Outcome.bind_ok]
          exact tail _
        · simp only [if_neg hcp, Outcome.bind_ok]
          exact tail _
      · simp only [Outcome.bind_ok, Kernel.modProc, Kernel.emit, hp]
        exact tail _
      · simp only [Outcome.bind_ok, Kernel.modProc, Kernel.emit, hp, Function.update_same,
          Kernel.curproc]
        by_cases hcp : some p = s.t_proc s.curthread
        · simp only [if_pos hcp, Outcome.bind_ok]
          exact tail _
        · simp only [if_neg hcp, Outcome.bind_ok]
          exact tail _

/-- The part of `proc_destroy` before the assertion, as a sequence of steps. -/
theorem proc_destroy_before_check_eq (fuel p : Nat) (s : Kernel) :
    proc_destroy_before_check fuel p s =
      s.getProc p >>= fun r =>
      (match r.p_cwd with
        | some v => (s.emit (.vop_decref v)).modProc p (fun r => { r with p_cwd := none })
        | none => .ok s) >>= fun s1 =>
      (match r.p_addrspace with
        | some a => s1.modProc p (fun r => { r with p_addrspace := none }) >>= fun s2 =>
            .ok (if some p = s1.curproc then (s2.emit .as_deactivate).emit (.as_destroy a)
                 else s2.emit (.as_destroy a))
        | none => .ok s1) >>= fun s2 =>
      proc_destroy_loop (proc_destroy fuel) p r.p_children_list s2 >>= fun s3 =>
      s3.getProc p >>= fun r3 =>
      match r3.p_father_proc with
        | some f => proc_remove_proc (some p) (some f) s3 >>= fun x =>
            if x.1 ≠ 0 then .panic else .ok x.2
        | none => .ok s3 := by
  unfold proc_destroy_before_check
  cases hg : s.getProc p with
  | ok r =>
    simp only [Outcome.bind_ok]
    rcases hc : r.p_cwd with _ | v <;> rcases ha : r.p_addrspace with _ | a
    · rfl
    · simp only [Outcome.bind_ok]
      by_cases hcp : some p = s.curproc
      · simp only [if_pos hcp, Outcome.bind_assoc, Outcome.bind_ok]
      · simp only [if_neg hcp, Outcome.bind_assoc, Outcome.bind_ok]
    · simp only []
      cases (s.emit (Event.vop_decref v)).modProc p fun r => { r with p_cwd := none } <;> rfl
    · simp only []
      cases hm : (s.emit (Event.vop_decref v)).modProc p fun r => { r with p_cwd := none } with
      | ok s1 =>
        simp only [Outcome.bind_ok]
        by_cases hcp : some p = s1.curproc
        · simp only [if_pos hcp, Outcome.bind_assoc, Outcome.bind_ok]
        · simp only [if_neg hcp, Outcome.bind_assoc, Outcome.bind_ok]
      | _ => rfl
  | _ => rfl

/-- A state change that keeps the process table and, for every record, its
liveness, thread count and pid, keeps `Pinned`. -/
theorem Pinned.of_same {g : Prop} {p n : Nat} {k : Int} {x : Option Nat} {s t : Kernel}
    (h : Pinned g p n k x s) (htab : t.processTable = s.processTable)
    (hrec : ∀ a, (t.procs a).map (fun r => (r.p_numthreads, r.p_pid)) =
      (s.procs a).map (fun r => (r.p_numthreads, r.p_pid))) : Pinned g p n k x t := by
  obtain ⟨⟨r, hr, hn, hk⟩, hu, hs⟩ := h
  refine ⟨?_, ?_, fun hg => by rw [htab]; exact hs hg⟩
  · have := hrec p
    rw [hr] at this
    cases ht : t.procs p with
    | none => simp [ht] at this
    | some r2 =>
      simp [ht] at this
      exact ⟨r2, rfl, by rw [this.1, hn], by rw [this.2, hk]⟩
  · intro hg q rq hq hrq
    have := hrec q
    rw [hrq] at this
    cases hs : s.procs q with
    | none => simp [hs] at this
    | some r2 =>
      simp [hs] at this
      rw [this.2]
      exact hu hg q r2 hq hs

/-- A write of fields other than the thread count and the pid keeps `Pinned`. -/
theorem Pinned.modProc {g : Prop} {p n : Nat} {k : Int} {x : Option Nat} {s t : Kernel} {q : Nat}
    {f : proc → proc} (h : Pinned g p n k x s) (hm : s.modProc q f = .ok t)
    (hf : ∀ r, (f r).p_numthreads = r.p_numthreads ∧ (f r).p_pid = r.p_pid) :
    Pinned g p n k x t := by
  rw [Kernel.modProc_eq_ok] at hm
  obtain ⟨r, hr, rfl⟩ := hm
  refine h.of_same rfl ?_
  intro a
  by_cases ha : a = q
  · subst ha
    simp [hr, hf r]
  · simp [Function.update_noteq ha]

/-- The release of a list node keeps `Pinned`. -/
theorem Pinned.kfreeNode {g : Prop} {p n : Nat} {k : Int} {x : Option Nat} {s t : Kernel} {a : Nat}
    (h : Pinned g p n k x s) (hm : s.kfreeNode a = .ok t) : Pinned g p n k x t := by
  unfold Kernel.kfreeNode at hm
  split at hm
  · cases hm
    exact h.of_same rfl (fun _ => rfl)
  · simp at hm

/-- Function `proc_remove_proc` keeps `Pinned`. -/
theorem Pinned.proc_remove_proc {g : Prop} {p n : Nat} {k : Int} {x : Option Nat} {s t : Kernel}
    {this father : Option Nat} {rc : Int} (h : Pinned g p n k x s)
    (hm : proc_remove_proc this father s = .ok (rc, t)) : Pinned g p n k x t := by
  unfold OS161.proc_remove_proc at hm
  split at hm
  · simp only [Outcome.bind_eq_ok] at hm
    obtain ⟨fr, _, hm⟩ := hm
    split at hm
    · simp only [Outcome.bind_eq_ok] at hm
      obtain ⟨s1, h1, s2, h2, h3⟩ := hm
      cases h3
      exact (h.modProc h1 (fun _ => ⟨rfl, rfl⟩)).kfreeNode h2
    · cases hm
      exact h
  · cases hm
    exact h

/-- The children loop of `proc_destroy` keeps `Pinned` when the recursive call
does. -/
theorem Pinned.proc_destroy_loop {g : Prop} {p n : Nat} {k : Int} {x : Option Nat}
    (destroy : Option Nat → Kernel → Outcome Kernel)
    (hd : ∀ q s t, Pinned g p n k x s → destroy (some q) s = .ok t → Pinned g p n k x t) (q : Nat) :
    ∀ (l : List child_node) (s t : Kernel), Pinned g p n k x s →
      OS161.proc_destroy_loop destroy q l s = .ok t → Pinned g p n k x t := by
  intro l
  induction l with
  | nil =>
    intro s t h hm
    simp only [OS161.proc_destroy_loop] at hm
    cases hm
    exact h
  | cons c cs ih =>
    intro s t h hm
    simp only [OS161.proc_destroy_loop, Outcome.bind_eq_ok] at hm
    obtain ⟨s1, h1, s2, h2, s3, h3, h4⟩ := hm
    exact ih s3 t (((hd _ _ _ h h1).modProc h2 (fun _ => ⟨rfl, rfl⟩)).kfreeNode h3) h4

/-- The part of `proc_destroy` before the assertion keeps `Pinned` when the
recursive call does. -/
theorem Pinned.proc_destroy_before_check {g : Prop} {p n : Nat} {k : Int} {x : Option Nat} (fuel : Nat)
    (hd : ∀ q s t, Pinned g p n k x s → proc_destroy fuel (some q) s = .ok t → Pinned g p n k x t)
    (q : Nat) (s t : Kernel) (h : Pinned g p n k x s)
    (hm : OS161.proc_destroy_before_check fuel q s = .ok t) : Pinned g p n k x t := by
  rw [proc_destroy_before_check_eq] at hm
  simp only [Outcome.bind_eq_ok] at hm
  obtain ⟨r, _, s1, h1, s2, h2, s3, h3, r3, _, h5⟩ := hm
  have p1 : Pinned g p n k x s1 := by
    split at h1
    · exact Pinned.modProc (s := s.emit _) (h.of_same rfl (fun _ => rfl)) h1 (fun _ => ⟨rfl, rfl⟩)
    · cases h1
      exact h
  have p2 : Pinned g p n k x s2 := by
    split at h2
    · simp only [Outcome.bind_eq_ok] at h2
      obtain ⟨u, hu, h2⟩ := h2
      cases h2
      split
      · exact (p1.modProc hu (fun _ => ⟨rfl, rfl⟩)).of_same rfl (fun _ => rfl)
      · exact (p1.modProc hu (fun _ => ⟨rfl, rfl⟩)).of_same rfl (fun _ => rfl)
    · cases h2
      exact p1
  have p3 : Pinned g p n k x s3 := Pinned.proc_destroy_loop _ hd q _ _ _ p2 h3
  split at h5
  · simp only [Outcome.bind_eq_ok] at h5
    obtain ⟨⟨rc, u⟩, hu, h5⟩ := h5
    split at h5
    · simp at h5
    · cases h5
      exact p3.proc_remove_proc hu
  · cases h5
    exact p3

/-- A call of `proc_destroy` that returns was not for a process with attached
threads, and keeps every such process in place: its record, its thread count,
its pid and its slot of the process table. -/
theorem proc_destroy_pinned {g : Prop} {p n : Nat} {k : Int} {x : Option Nat} (hn : n ≠ 0) :
    ∀ (fuel q : Nat) (s t : Kernel), Pinned g p n k x s →
      proc_destroy fuel (some q) s = .ok t → q ≠ p ∧ Pinned g p n k x t := by
  intro fuel
  induction fuel with
  | zero => intro q s t _ hm; simp [proc_destroy] at hm
  | succ fuel ih =>
    intro q s t h hm
    rw [proc_destroy_eq_before_check] at hm
    split at hm
    · simp at hm
    · simp only [Outcome.bind_eq_ok] at hm
      obtain ⟨u, hu, r, hr, hm⟩ := hm
      have pu : Pinned g p n k x u :=
        Pinned.proc_destroy_before_check fuel (fun q s t hs ht => (ih q s t hs ht).2) q s u h hu
      rw [Kernel.getProc_eq_ok] at hr
      split at hm
      · simp at hm
      · rename_i hz
        simp only [Outcome.bind_eq_ok] at hm
        obtain ⟨v, hv, hm⟩ := hm
        cases hm
        obtain ⟨r2, hr2, hp1, hp2, rfl⟩ := proc_end_waitpid_ok hv
        rw [hr] at hr2
        cases hr2
        obtain ⟨⟨rp, hrp, hnp, hkp⟩, hun, hsl⟩ := pu
        have hqp : q ≠ p := by
          rintro rfl
          rw [hr] at hrp
          cases hrp
          simp only [ne_eq, Decidable.not_not] at hz
          omega
        refine ⟨hqp, ⟨rp, ?_, hnp, hkp⟩, ?_, ?_⟩
        · simp [Function.update_noteq hqp.symm, hrp]
        · intro hg a ra ha hra
          by_cases haq : a = q
          · subst haq
            simp at hra
          · simp [Function.update_noteq haq] at hra
            exact hun hg a ra ha hra
        · intro hg
          have hne : r.p_pid ≠ k := hun hg q r hqp hr
          have : k.toNat ≠ r.p_pid.toNat := by omega
          simp [Function.update_noteq this, hsl hg]

/-! ### Opening a file -/

/-- What the registry loop of `sys_open` returns: the first entry from `i`
whose `vn` is `NULL`, claimed for `v`, or nothing when the `n` entries from
`i` are all in use. -/
theorem sys_open_registry_loop_spec (v : Nat) : ∀ (n i : Nat) (s : Kernel),
    (∃ k, i ≤ k ∧ k < i + n ∧ (s.systemFileTable k).vn = none ∧
      (∀ j, i ≤ j → j < k → (s.systemFileTable j).vn ≠ none) ∧
      sys_open_registry_loop v n i s =
        (some (.sys k),
          s.setOf (.sys k) { s.systemFileTable k with vn := some v, offset := 0 })) ∨
    ((∀ j, i ≤ j → j < i + n → (s.systemFileTable j).vn ≠ none) ∧
      sys_open_registry_loop v n i s = (none, s)) := by
  intro n
  induction n with
  | zero =>
    intro i s
    exact Or.inr ⟨fun j h1 h2 => by omega, rfl⟩
  | succ n ih =>
    intro i s
    unfold sys_open_registry_loop
    by_cases hv : (s.systemFileTable i).vn = none
    · exact Or.inl ⟨i, le_refl _, by omega, hv, fun j h1 h2 => by omega, by simp [hv]⟩
    · rcases ih (i + 1) s with ⟨k, h1, h2, h3, h4, h5⟩ | ⟨h1, h2⟩
      · refine Or.inl ⟨k, by omega, by omega, h3, ?_, by simp [hv, h5]⟩
        intro j hj1 hj2
        by_cases hji : j = i
        · subst hji; exact hv
        · exact h4 j (by omega) hj2
      · refine Or.inr ⟨?_, by simp [hv, h2]⟩
        intro j hj1 hj2
        by_cases hji : j = i
        · subst hji; exact hv
        · exact h1 j (by omega) (by omega)

/-- What the descriptor loop of `sys_open` returns: the first empty slot from
`fd`, now holding `of`, or `fd + n` when it found none in `n` iterations. -/
theorem sys_open_fd_loop_spec (K : Consts) (f : OfPtr) :
    ∀ (n fd : Nat) (s : Kernel) (fd1 : Nat) (t : Kernel),
      sys_open_fd_loop K f n fd s = .ok (fd1, t) →
      (fd1 = fd + n ∧ t = s) ∨
      ∃ cp r, s.curproc = some cp ∧ s.procs cp = some r ∧ fd ≤ fd1 ∧ fd1 < fd + n ∧ fd1 < K.OPEN_MAX ∧
        r.fileTable fd1 = none ∧ (∀ j, fd ≤ j → j < fd1 → r.fileTable j ≠ none) ∧
        t = { s with procs := Function.update s.procs cp (some
                { r with fileTable := Function.update r.fileTable fd1 (some f) }) } := by
  intro n
  induction n with
  | zero =>
    intro fd s fd1 t h
    simp only [sys_open_fd_loop, Outcome.ok.injEq, Prod.mk.injEq] at h
    exact Or.inl ⟨by omega, h.2.symm⟩
  | succ n ih =>
    intro fd s fd1 t h
    unfold sys_open_fd_loop at h
    simp only [Outcome.bind_eq_ok] at h
    obtain ⟨e, he, h⟩ := h
    unfold Kernel.curFtRead at he
    cases hcp : s.curproc with
    | none => simp [hcp] at he
    | some cp =>
    simp only [hcp] at he
    unfold Kernel.ftRead at he
    split at he
    · rename_i hr
      simp only [Outcome.bind_eq_ok] at he
      obtain ⟨r, hr1, he⟩ := he
      rw [Kernel.getProc_eq_ok] at hr1
      simp only [Int.toNat_ofNat, Outcome.ok.injEq] at he
      split at h
      · rename_i hnone
        simp only [Outcome.bind_eq_ok] at h
        obtain ⟨s1, hs1, h⟩ := h
        simp only [Outcome.ok.injEq, Prod.mk.injEq] at h
        obtain ⟨rfl, rfl⟩ := h
        unfold Kernel.curFtWrite at hs1
        simp only [hcp] at hs1
        unfold Kernel.ftWrite at hs1
        simp only [hr, and_self, if_true] at hs1
        rw [Kernel.modProc_eq_ok] at hs1
        obtain ⟨r2, hr2, rfl⟩ := hs1
        rw [hr1] at hr2
        cases hr2
        refine Or.inr ⟨cp, r, rfl, hr1, le_refl _, by omega, by omega, ?_, fun j h1 h2 => by omega, ?_⟩
        · rw [← hnone, ← he]
        · simp
      · rename_i hsome
        rcases ih (fd + 1) s fd1 t h with ⟨h1, h2⟩ | ⟨cp2, r2, h0, h1, h2, h3, h4, h5, h6, h7⟩
        · exact Or.inl ⟨by omega, h2⟩
        · rw [hcp] at h0
          cases h0
          rw [hr1] at h1
          cases h1
          refine Or.inr ⟨cp, r, rfl, hr1, by omega, by omega, h4, h5, ?_, h7⟩
          intro j hj1 hj2
          by_cases hjf : j = fd
          · subst hjf
            rw [← he] at hsome
            exact hsome
          · exact h6 j (by omega) hj2
    · simp at he

/-- A write of fields of an entry of `systemFileTable`. -/
theorem Kernel.modOf_sys (s : Kernel) (i : Nat) (g : openfile → openfile) :
    s.modOf (.sys i) g =
      .ok { s with systemFileTable := Function.update s.systemFileTable i (g (s.systemFileTable i)) } := by
  rfl

/-- What `sys_open_lock` does when it returns a descriptor. -/
theorem sys_open_lock_num (K : Consts) (env : OpenEnv) (i fd : Nat) (s t : Kernel) (n : Int)
    (e : Option Errno) (hn : 0 ≤ n)
    (h : sys_open_lock K env (.sys i) fd s = .ok (.num n, e, t)) :
    n = fd ∧ e = some (.code 0) ∧
      t.systemFileTable = Function.update s.systemFileTable i
        { s.systemFileTable i with lock := .free, countRef := 1 } ∧
      t.procs = s.procs ∧ t.ofheap = s.ofheap := by
  unfold sys_open_lock at h
  split at h
  · simp only [Kernel.modOf_sys, Outcome.bind_ok, Outcome.bind_eq_ok] at h
    obtain ⟨s1, _, h⟩ := h
    simp only [Outcome.ok.injEq, Prod.mk.injEq, RetVal.num.injEq] at h
    omega
  · simp only [Kernel.modOf_sys, Outcome.bind_ok, Outcome.ok.injEq, Prod.mk.injEq,
      RetVal.num.injEq, Function.update_same, Function.update_idem] at h
    obtain ⟨h1, h2, h3⟩ := h
    subst h3
    exact ⟨h1.symm, h2.symm, rfl, rfl, rfl⟩

/-- What `sys_open_mode` does when it returns a descriptor. -/
theorem sys_open_mode_num (K : Consts) (env : OpenEnv) (i fd : Nat) (openflags : Int)
    (s t : Kernel) (n : Int) (e : Option Errno) (hn : 0 ≤ n)
    (h : sys_open_mode K env (.sys i) fd openflags s = .ok (.num n, e, t)) :
    n = fd ∧ e = some (.code 0) ∧
      t.systemFileTable = Function.update s.systemFileTable i
        { s.systemFileTable i with
          mode_open := Int.land openflags K.O_ACCMODE, lock := .free, countRef := 1 } ∧
      t.procs = s.procs ∧ t.ofheap = s.ofheap := by
  unfold sys_open_mode at h
  split at h
  · rename_i hm
    simp only [Kernel.modOf_sys, Outcome.bind_ok] at h
    obtain ⟨h1, h2, h3, h4, h5⟩ := sys_open_lock_num K env i fd _ t n e hn h
    refine ⟨h1, h2, ?_, h4, h5⟩
    rw [h3, hm]
    simp
  · split at h
    · rename_i hm
      simp only [Kernel.modOf_sys, Outcome.bind_ok] at h
      obtain ⟨h1, h2, h3, h4, h5⟩ := sys_open_lock_num K env i fd _ t n e hn h
      refine ⟨h1, h2, ?_, h4, h5⟩
      rw [h3, hm]
      simp
    · split at h
      · rename_i hm
        simp only [Kernel.modOf_sys, Outcome.bind_ok] at h
        obtain ⟨h1, h2, h3, h4, h5⟩ := sys_open_lock_num K env i fd _ t n e hn h
        refine ⟨h1, h2, ?_, h4, h5⟩
        rw [h3, hm]
        simp
      · simp only [Outcome.bind_eq_ok] at h
        obtain ⟨s1, _, h⟩ := h
        simp at h

/-! ### Creation of a process -/

/-- The state in which `proc_create` leaves the kernel when it returns a
process: the new record is at the address that `kmalloc` gave, registered in a
slot `j` that was empty, with every field at its initial value. -/
theorem proc_create_ok {env : CreateEnv} {name : String} {s t : Kernel} {a : Nat}
    (h : proc_create env name s = .ok (some a, t)) :
    env.kmalloc = some a ∧ ∃ j, 1 ≤ j ∧ j ≤ MAX_PROC ∧ s.processTable.proc j = none ∧
      t = { s with
            processTable := { s.processTable with
              proc := Function.update s.processTable.proc j (some a), last_i := j },
            procs := Function.update s.procs a (some
              { p_name := name, p_numthreads := 0, p_thread_list := [], p_children_list := [],
                p_father_proc := none, p_addrspace := none, p_cwd := none, p_terminated := 0,
                p_pid := (j : Int), p_status := 0,
                p_sem := if env.sem_create then some 0 else none,
                fileTable := fun _ => none }) } := by
  unfold proc_create at h
  split at h
  · simp at h
  · rename_i b hb
    split at h
    · simp at h
    · simp only [Outcome.bind_eq_ok] at h
      obtain ⟨s1, h1, s2, h2, h3⟩ := h
      simp only [Outcome.ok.injEq, Prod.mk.injEq, Option.some.injEq] at h3
      obtain ⟨rfl, rfl⟩ := h3
      obtain ⟨j, r, hj1, hj2, hnone, hr, rfl⟩ := proc_init_waitpid_ok h1
      simp only [Function.update_same, Option.some.injEq] at hr
      subst hr
      rw [Kernel.modProc_eq_ok] at h2
      obtain ⟨r2, hr2, rfl⟩ := h2
      simp only [Function.update_same, Option.some.injEq] at hr2
      subst hr2
      refine ⟨hb, j, hj1, hj2, hnone, ?_⟩
      simp

/-- The state in which `std_init` leaves the kernel when it does not return
-1: slot `fd` of the process references the record that `kmalloc` gave, which
holds the console vnode, offset 0, the mode, a free lock and one reference. -/
theorem std_init_ok {K : Consts} {env : StdEnv} {p : Nat} {fd mode rc : Int} {s t : Kernel}
    (h : std_init K env p fd mode s = .ok (rc, t)) (hrc : rc ≠ -1) :
    ∃ a v r, env.kmalloc = some a ∧ env.vfs_open = some v ∧ s.procs p = some r ∧
      0 ≤ fd ∧ fd < (K.OPEN_MAX : Int) ∧
      t.procs = Function.update s.procs p (some
        { r with fileTable := Function.update r.fileTable fd.toNat (some (.heap a)) }) ∧
      t.ofheap = Function.update s.ofheap a (some
        { vn := some v, offset := 0, mode_open := mode, lock := .free, countRef := 1 }) ∧
      t.processTable = s.processTable ∧ t.t_proc = s.t_proc ∧ t.curthread = s.curthread ∧
      t.systemFileTable = s.systemFileTable ∧ t.nodes = s.nodes ∧ t.kproc = s.kproc := by
  unfold std_init at h
  split at h
  · simp only [Outcome.ok.injEq, Prod.mk.injEq] at h
    exact absurd h.1.symm hrc
  · simp only [Outcome.bind_eq_ok] at h
    obtain ⟨s1, h1, h⟩ := h
    unfold Kernel.ftWrite at h1
    split at h1
    · rename_i hfd
      rw [Kernel.modProc_eq_ok] at h1
      obtain ⟨r, hr, rfl⟩ := h1
      cases hk : env.kmalloc with
      | none =>
        simp only [hk, Outcome.ok.injEq, Prod.mk.injEq] at h
        exact absurd h.1.symm hrc
      | some a =>
        simp only [hk] at h
        cases hv : env.vfs_open with
        | none =>
          simp only [hv, Outcome.ok.injEq, Prod.mk.injEq] at h
          exact absurd h.1.symm hrc
        | some v =>
          simp only [hv, Kernel.modOf, Kernel.getOf_setOf_same, Kernel.setOf_setOf,
            Outcome.bind_ok] at h
          split at h
          · simp only [Outcome.ok.injEq, Prod.mk.injEq] at h
            exact absurd h.1.symm hrc
          · simp only [Outcome.ok.injEq, Prod.mk.injEq] at h
            obtain ⟨_, rfl⟩ := h
            exact ⟨a, v, r, rfl, rfl, hr, hfd.1, hfd.2, by simp [Kernel.setOf],
              by simp [Kernel.setOf], rfl, rfl, rfl, rfl, rfl, rfl⟩
    · simp at h1

/-! ### Seeking -/

/-- An exit of the scan with a pid: the slot is empty, it is not `last_i`, and
every index that the circular order from `i` meets before it is occupied. -/
theorem proc_verify_pid_loop_first (s : Kernel) :
    ∀ fuel i j, 1 ≤ i → i ≤ MAX_PROC → proc_verify_pid_loop s fuel i = .ok j → j ≠ 0 →
      1 ≤ j ∧ j ≤ MAX_PROC ∧ s.processTable.proc j = none ∧ j ≠ s.processTable.last_i ∧
      ∀ m, 1 ≤ m → m ≤ MAX_PROC → (if i ≤ j then i ≤ m ∧ m < j else (i ≤ m ∨ m < j)) →
        s.processTable.proc m ≠ none := by
  intro fuel
  induction fuel with
  | zero => intro i j _ _ h; simp [proc_verify_pid_loop] at h
  | succ n ih =>
    intro i j h1 h2 h hj
    simp only [MAX_PROC] at h2 ⊢
    unfold proc_verify_pid_loop at h
    by_cases hl : i = s.processTable.last_i
    · simp [hl] at h
      omega
    · by_cases he : s.processTable.proc i = none
      · simp only [ne_eq, hl, not_false_eq_true, if_true, he, Outcome.ok.injEq] at h
        subst h
        refine ⟨h1, h2, he, hl, ?_⟩
        intro m _ _ hm
        simp only [le_refl, if_true] at hm
        omega
      · simp only [ne_eq, hl, not_false_eq_true, if_true, he, if_false] at h
        obtain ⟨a1, a2, a3, a4, a5⟩ := ih (if i + 1 > MAX_PROC then 1 else i + 1) j
          (by split <;> omega) (by simp only [MAX_PROC]; split <;> omega) h hj
        simp only [MAX_PROC] at a2 a5
        have hji : j ≠ i := by
          rintro rfl
          exact he a3
        refine ⟨a1, a2, a3, a4, ?_⟩
        intro m hm1 hm2 hm
        by_cases hmi : m = i
        · subst hmi
          exact he
        · apply a5 m hm1 hm2
          split_ifs at hm ⊢ <;> simp only [MAX_PROC] at * <;> omega

/-! ### Copy of a descriptor table -/

/-- What the loop of `proc_file_table_copy` does in `n` iterations from `fd`:
the slots `fd, ..., fd + n - 1` of the destination become those of the
source, the slots of the source keep their values, and the reference count of
every record grows by the number of those source slots that reference it. -/
theorem proc_file_table_copy_loop_spec (K : Consts) (psrc pdest : Nat)
    (src : Nat → Option OfPtr) :
    ∀ (n fd : Nat) (s : Kernel) (a b : proc), fd + n ≤ K.OPEN_MAX →
      s.procs psrc = some a → s.procs pdest = some b → (∀ i, a.fileTable i = src i) →
      (∀ i f, fd ≤ i → i < fd + n → src i = some f → ∃ o, s.getOf f = .ok o) →
      ∃ t a1 b1, proc_file_table_copy_loop K psrc pdest n fd s = .ok t ∧
        t.procs psrc = some a1 ∧ t.procs pdest = some b1 ∧
        (∀ i, a1.fileTable i = src i) ∧
        (∀ i, b1.fileTable i = if fd ≤ i ∧ i < fd + n then src i else b.fileTable i) ∧
        (∀ q, q ≠ pdest → t.procs q = s.procs q) ∧
        (∀ f o, s.getOf f = .ok o → t.getOf f = .ok { o with countRef := o.countRef +
          (((List.range' fd n).filter (fun i => src i = some f)).length : Int) }) := by
  intro n
  induction n with
  | zero =>
    intro fd s a b _ ha hb hsrc _
    refine ⟨s, a, b, rfl, ha, hb, hsrc, ?_, fun _ _ => rfl, ?_⟩
    · intro i
      have : ¬ (fd ≤ i ∧ i < fd) := by omega
      simp [this]
    · intro f o ho
      simp [ho]
  | succ n ih =>
    intro fd s a b hle ha hb hsrc hlive
    have hfd : (0 : Int) ≤ (fd : Int) ∧ (fd : Int) < (K.OPEN_MAX : Int) := by omega
    have hread : s.ftRead K psrc fd = .ok (src fd) := by
      simp [Kernel.ftRead, hfd, Kernel.getProc, ha, hsrc]
    obtain ⟨s1, hs1⟩ : ∃ s1 : Kernel, s1 =
        { s with
          procs := Function.update s.procs pdest
                     (some { b with fileTable := Function.update b.fileTable fd (src fd) }) } :=
      ⟨_, rfl⟩
    have hwrite : s.ftWrite K pdest fd (src fd) = .ok s1 := by
      rw [hs1]
      simp [Kernel.ftWrite, hfd, Kernel.modProc, hb]
    have hp1 : s1.procs = Function.update s.procs pdest
        (some { b with fileTable := Function.update b.fileTable fd (src fd) }) := by
      rw [hs1]
    have hg1 : ∀ g, s1.getOf g = s.getOf g := by
      intro g
      rw [hs1]
      simp
    have hinc : ∃ s2, (match src fd with
          | some f => openfileIncrRefCount (some f) s1
          | none => Outcome.ok s1) = .ok s2 ∧
        s2.procs = s1.procs ∧
        (∀ g o, s.getOf g = .ok o → s2.getOf g = .ok { o with countRef := o.countRef +
          (if src fd = some g then 1 else 0) }) := by
      cases hf : src fd with
      | none =>
        refine ⟨s1, rfl, rfl, ?_⟩
        intro g o ho
        simp [hg1, ho]
      | some f =>
        obtain ⟨o, ho⟩ := hlive fd f (le_refl _) (by omega) hf
        have hmod := Kernel.modOf_of_getOf (s := s1) (f := f) (o := o) (by rw [hg1, ho])
          (fun r => { r with countRef := r.countRef + 1 })
        refine ⟨_, hmod, by simp, ?_⟩
        intro g og hg
        by_cases hgf : g = f
        · subst hgf
          rw [ho] at hg
          cases hg
          simp
        · have hne : ¬ (f = g) := fun e => hgf e.symm
          rw [Kernel.getOf_setOf_ne _ _ _ _ hgf, hg1, hg]
          simp [hne]
    obtain ⟨s2, hs2, hp2, hg2⟩ := hinc
    rw [hp1] at hp2
    have ha2 : ∃ a2, s2.procs psrc = some a2 ∧ ∀ i, a2.fileTable i = src i := by
      rw [hp2]
      by_cases hpd : psrc = pdest
      · subst hpd
        refine ⟨_, Function.update_same _ _ _, ?_⟩
        intro i
        rw [ha] at hb
        cases hb
        by_cases hi : i = fd
        · subst hi; simp
        · simp [Function.update_noteq hi, hsrc]
      · exact ⟨a, by rw [Function.update_noteq hpd, ha], hsrc⟩
    obtain ⟨a2, ha2, hsrc2⟩ := ha2
    have hb2 : s2.procs pdest =
        some { b with fileTable := Function.update b.fileTable fd (src fd) } := by
      rw [hp2, Function.update_same]
    have hlive2 : ∀ i f, fd + 1 ≤ i → i < fd + 1 + n → src i = some f →
        ∃ o, s2.getOf f = .ok o := by
      intro i f h1 h2 hf
      obtain ⟨o, ho⟩ := hlive i f (by omega) (by omega) hf
      exact ⟨_, hg2 f o ho⟩
    obtain ⟨t, a1, b1, ht, hta, htb, hfa, hfb, hq, hcount⟩ :=
      ih (fd + 1) s2 a2 _ (by omega) ha2 hb2 hsrc2 hlive2
    refine ⟨t, a1, b1, ?_, hta, htb, hfa, ?_, ?_, ?_⟩
    · unfold proc_file_table_copy_loop
      simp only [Nat.cast_add, Nat.cast_one, hread, Outcome.bind_ok, hwrite]
      cases hf : src fd with
      | none =>
        simp only [hf, Outcome.ok.injEq] at hs2
        simp only [Outcome.bind_ok]
        rw [hs2]
        exact ht
      | some f =>
        simp only [hf] at hs2
        simp only [hs2, Outcome.bind_ok]
        exact ht
    · intro i
      rw [hfb i]
      by_cases hi : i = fd
      · subst hi
        have h1 : ¬ (i + 1 ≤ i ∧ i < i + 1 + n) := by omega
        have h2 : i ≤ i ∧ i < i + (n + 1) := by omega
        simp [h1, h2]
      · by_cases hr : fd + 1 ≤ i ∧ i < fd + 1 + n
        · have h2 : fd ≤ i ∧ i < fd + (n + 1) := by omega
          simp [hr, h2]
        · have h2 : ¬ (fd ≤ i ∧ i < fd + (n + 1)) := by omega
          simp [hr, h2, Function.update_noteq hi]
    · intro q hqd
      rw [hq q hqd, hp2, Function.update_noteq hqd]
    · intro f o ho
      rw [hcount f _ (hg2 f o ho)]
      have hl : List.range' fd (n + 1) = fd :: List.range' (fd + 1) n := rfl
      rw [hl, List.filter_cons]
      by_cases hf : src fd = some f
      · simp [hf]
        omega
      · simp [hf]

/-! ### Parent and child links -/

/-- Adding a record without parent and without children at an address that
holds no live record keeps the links well formed. -/
theorem LinksWellFormed.add_leaf {v : Nat → Option (Option Nat × List Nat)} {a : Nat}
    (h : LinksWellFormed v) (ha : v a = none) :
    LinksWellFormed (Function.update v a (some (none, []))) := by
  have hkid : ∀ p fp kp, v p = some (fp, kp) → a ∉ kp := by
    intro p fp kp hp hmem
    obtain ⟨x, hx⟩ := h.child_live p fp kp a hp hmem
    rw [ha] at hx
    cases hx
  have hfa : ∀ c fc kc, v c = some (fc, kc) → fc ≠ some a := by
    intro c fc kc hc hf
    obtain ⟨x, hx⟩ := h.father_live c fc kc a hc hf
    rw [ha] at hx
    cases hx
  have hlive : ∀ x y, v x = some y → ∃ z, Function.update v a (some (none, [])) x = some z := by
    intro x y hx
    by_cases hxa : a = x
    · subst hxa; exact ⟨_, Function.update_same _ _ _⟩
    · rw [Function.update_noteq (Ne.symm hxa)]; exact ⟨y, hx⟩
  refine ⟨?_, ?_, ?_⟩
  · intro c p fc kc fp kp hc hp
    by_cases hpa : a = p
    · subst hpa
      rw [Function.update_same] at hp
      cases hp
      by_cases hca : a = c
      · subst hca
        rw [Function.update_same] at hc
        cases hc
        simp
      · rw [Function.update_noteq (Ne.symm hca)] at hc
        have := hfa c fc kc hc
        simp [this]
    · rw [Function.update_noteq (Ne.symm hpa)] at hp
      by_cases hca : a = c
      · subst hca
        rw [Function.update_same] at hc
        cases hc
        simp [List.count_eq_zero_of_not_mem (hkid p fp kp hp)]
      · rw [Function.update_noteq (Ne.symm hca)] at hc
        exact h.link c p fc kc fp kp hc hp
  · intro c fc kc p hc hf
    by_cases hca : a = c
    · subst hca
      rw [Function.update_same] at hc
      cases hc
      cases hf
    · rw [Function.update_noteq (Ne.symm hca)] at hc
      obtain ⟨x, hx⟩ := h.father_live c fc kc p hc hf
      exact hlive p x hx
  · intro p fp kp c hp hmem
    by_cases hpa : a = p
    · subst hpa
      rw [Function.update_same] at hp
      cases hp
      cases hmem
    · rw [Function.update_noteq (Ne.symm hpa)] at hp
      obtain ⟨x, hx⟩ := h.child_live p fp kp c hp hmem
      exact hlive c x hx

/-- Linking a record without parent and without children to a parent, with a
new node at the head of the children list of the parent, keeps the links well
formed. -/
theorem LinksWellFormed.add_link {v : Nat → Option (Option Nat × List Nat)} {np cp : Nat}
    {f : Option Nat} {k : List Nat} (h : LinksWellFormed v) (hnp : v np = some (none, []))
    (hcp : v cp = some (f, k)) (hne : np ≠ cp) :
    LinksWellFormed
      (Function.update (Function.update v cp (some (f, np :: k))) np (some (some cp, []))) := by
  have hcount0 : ∀ p fp kp, v p = some (fp, kp) → kp.count np = 0 := by
    intro p fp kp hp
    have := h.link np p none [] fp kp hnp hp
    simpa using this
  have hfa : ∀ c fc kc, v c = some (fc, kc) → fc ≠ some np := by
    intro c fc kc hc hf
    have := h.link c np fc kc none [] hc hnp
    simp [hf] at this
  have hlive : ∀ x y, v x = some y →
      ∃ z, Function.update (Function.update v cp (some (f, np :: k))) np (some (some cp, [])) x =
        some z := by
    intro x y hx
    by_cases hxn : np = x
    · subst hxn; exact ⟨_, Function.update_same _ _ _⟩
    · rw [Function.update_noteq (Ne.symm hxn)]
      by_cases hxc : cp = x
      · subst hxc; exact ⟨_, Function.update_same _ _ _⟩
      · rw [Function.update_noteq (Ne.symm hxc)]; exact ⟨y, hx⟩
  have hne2 : ¬ (cp = np) := fun e => hne e.symm
  refine ⟨?_, ?_, ?_⟩
  · intro c p fc kc fp kp hc hp
    by_cases hpn : np = p
    · subst hpn
      rw [Function.update_same] at hp
      cases hp
      by_cases hcn : np = c
      · subst hcn
        rw [Function.update_same] at hc
        cases hc
        simp [hne2]
      · rw [Function.update_noteq (Ne.symm hcn)] at hc
        by_cases hcc : cp = c
        · subst hcc
          rw [Function.update_same] at hc
          cases hc
          have := hfa cp f k hcp
          simp [this]
        · rw [Function.update_noteq (Ne.symm hcc)] at hc
          have := hfa c fc kc hc
          simp [this]
    · rw [Function.update_noteq (Ne.symm hpn)] at hp
      by_cases hpc : cp = p
      · subst hpc
        rw [Function.update_same] at hp
        cases hp
        by_cases hcn : np = c
        · subst hcn
          rw [Function.update_same] at hc
          cases hc
          simp [hcount0 cp f k hcp]
        · rw [Function.update_noteq (Ne.symm hcn)] at hc
          by_cases hcc : cp = c
          · subst hcc
            rw [Function.update_same] at hc
            cases hc
            have := h.link cp cp f k f k hcp hcp
            simp [List.count_cons, hcn, this]
          · rw [Function.update_noteq (Ne.symm hcc)] at hc
            have := h.link c cp fc kc f k hc hcp
            simp [List.count_cons, hcn, this]
      · rw [Function.update_noteq (Ne.symm hpc)] at hp
        by_cases hcn : np = c
        · subst hcn
          rw [Function.update_same] at hc
          cases hc
          simp [hcount0 p fp kp hp, hpc]
        · rw [Function.update_noteq (Ne.symm hcn)] at hc
          by_cases hcc : cp = c
          · subst hcc
            rw [Function.update_same] at hc
            cases hc
            exact h.link cp p f k fp kp hcp hp
          · rw [Function.update_noteq (Ne.symm hcc)] at hc
            exact h.link c p fc kc fp kp hc hp
  · intro c fc kc p hc hf
    by_cases hcn : np = c
    · subst hcn
      rw [Function.update_same] at hc
      cases hc
      cases hf
      exact hlive cp _ hcp
    · rw [Function.update_noteq (Ne.symm hcn)] at hc
      by_cases hcc : cp = c
      · subst hcc
        rw [Function.update_same] at hc
        cases hc
        obtain ⟨x, hx⟩ := h.father_live cp f k p hcp hf
        exact hlive p x hx
      · rw [Function.update_noteq (Ne.symm hcc)] at hc
        obtain ⟨x, hx⟩ := h.father_live c fc kc p hc hf
        exact hlive p x hx
  · intro p fp kp c hp hmem
    by_cases hpn : np = p
    · subst hpn
      rw [Function.update_same] at hp
      cases hp
      cases hmem
    · rw [Function.update_noteq (Ne.symm hpn)] at hp
      by_cases hpc : cp = p
      · subst hpc
        rw [Function.update_same] at hp
        cases hp
        rcases List.mem_cons.mp hmem with rfl | hmem
        · exact hlive c _ hnp
        · obtain ⟨x, hx⟩ := h.child_live cp f k c hcp hmem
          exact hlive c x hx
      · rw [Function.update_noteq (Ne.symm hpc)] at hp
        obtain ⟨x, hx⟩ := h.child_live p fp kp c hp hmem
        exact hlive c x hx

/-- Removing a record without parent and without children keeps the links
well formed. -/
theorem LinksWellFormed.remove_orphan {v : Nat → Option (Option Nat × List Nat)} {q : Nat}
    (h : LinksWellFormed v) (hq : v q = some (none, [])) :
    LinksWellFormed (Function.update v q none) := by
  have hnokid : ∀ p fp kp, v p = some (fp, kp) → q ∉ kp := by
    intro p fp kp hp
    have := h.link q p none [] fp kp hq hp
    simp only [if_false] at this
    exact List.count_eq_zero.mp this
  have hnofa : ∀ c fc kc, v c = some (fc, kc) → fc ≠ some q := by
    intro c fc kc hc hf
    have := h.link c q fc kc none [] hc hq
    simp [hf] at this
  have hold : ∀ x y, Function.update v q none x = some y → q ≠ x ∧ v x = some y := by
    intro x y hx
    by_cases hxq : q = x
    · subst hxq
      rw [Function.update_same] at hx
      cases hx
    · rw [Function.update_noteq (Ne.symm hxq)] at hx
      exact ⟨hxq, hx⟩
  have hnew : ∀ x y, q ≠ x → v x = some y → Function.update v q none x = some y := by
    intro x y hxq hx
    rw [Function.update_noteq (Ne.symm hxq)]
    exact hx
  refine ⟨?_, ?_, ?_⟩
  · intro c p fc kc fp kp hc hp
    exact h.link c p fc kc fp kp (hold _ _ hc).2 (hold _ _ hp).2
  · intro c fc kc p hc hf
    obtain ⟨_, hc2⟩ := hold _ _ hc
    obtain ⟨x, hx⟩ := h.father_live c fc kc p hc2 hf
    have hpq : q ≠ p := by
      rintro rfl
      exact hnofa c fc kc hc2 hf
    exact ⟨x, hnew p x hpq hx⟩
  · intro p fp kp c hp hmem
    obtain ⟨_, hp2⟩ := hold _ _ hp
    obtain ⟨x, hx⟩ := h.child_live p fp kp c hp2 hmem
    have hcq : q ≠ c := by
      rintro rfl
      exact hnokid p fp kp hp2 hmem
    exact ⟨x, hnew c x hcq hx⟩

/-- Removing a record without children, together with the first node for it
in the children list of its parent, keeps the links well formed. -/
theorem LinksWellFormed.remove_child {v : Nat → Option (Option Nat × List Nat)} {q f : Nat}
    {ff : Option Nat} {kf : List Nat} (h : LinksWellFormed v) (hq : v q = some (some f, []))
    (hf : v f = some (ff, kf)) :
    LinksWellFormed (Function.update (Function.update v f (some (ff, kf.erase q))) q none) := by
  have hfq : f ≠ q := by
    rintro rfl
    rw [hq] at hf
    cases hf
    have := h.link f f (some f) [] (some f) [] hq hq
    simp at this
  have hnofa : ∀ c fc kc, v c = some (fc, kc) → fc ≠ some q := by
    intro c fc kc hc hfc
    have := h.link c q fc kc (some f) [] hc hq
    simp [hfc] at this
  have hcountf : kf.count q = 1 := by
    have := h.link q f (some f) [] ff kf hq hf
    simpa using this
  have hnokid : ∀ p fp kp, f ≠ p → v p = some (fp, kp) → q ∉ kp := by
    intro p fp kp hfp hp
    have := h.link q p (some f) [] fp kp hq hp
    have hne : ¬ (some f = some p) := fun e => hfp (Option.some.inj e)
    simp only [hne, if_false] at this
    exact List.count_eq_zero.mp this
  have hnokidf : q ∉ kf.erase q := by
    apply List.count_eq_zero.mp
    rw [List.count_erase_self, hcountf]
  have hnew : ∀ x y, q ≠ x → v x = some y →
      ∃ z, Function.update (Function.update v f (some (ff, kf.erase q))) q none x = some z := by
    intro x y hxq hx
    rw [Function.update_noteq (Ne.symm hxq)]
    by_cases hxf : f = x
    · subst hxf; exact ⟨_, Function.update_same _ _ _⟩
    · rw [Function.update_noteq (Ne.symm hxf)]; exact ⟨y, hx⟩
  have hold : ∀ x fx kx,
      Function.update (Function.update v f (some (ff, kf.erase q))) q none x = some (fx, kx) →
      q ≠ x ∧ ((f ≠ x ∧ v x = some (fx, kx)) ∨ (f = x ∧ fx = ff ∧ kx = kf.erase q)) := by
    intro x fx kx hx
    by_cases hxq : q = x
    · subst hxq
      rw [Function.update_same] at hx
      cases hx
    · rw [Function.update_noteq (Ne.symm hxq)] at hx
      refine ⟨hxq, ?_⟩
      by_cases hxf : f = x
      · subst hxf
        rw [Function.update_same] at hx
        cases hx
        exact Or.inr ⟨rfl, rfl, rfl⟩
      · rw [Function.update_noteq (Ne.symm hxf)] at hx
        exact Or.inl ⟨hxf, hx⟩
  refine ⟨?_, ?_, ?_⟩
  · intro c p fc kc fp kp hc hp
    obtain ⟨hcq, hc2⟩ := hold _ _ _ hc
    obtain ⟨hpq, hp2⟩ := hold _ _ _ hp
    have hfc : ∃ kc0, v c = some (fc, kc0) := by
      rcases hc2 with ⟨_, hc2⟩ | ⟨rfl, rfl, _⟩
      · exact ⟨_, hc2⟩
      · exact ⟨_, hf⟩
    obtain ⟨kc0, hc0⟩ := hfc
    rcases hp2 with ⟨_, hp2⟩ | ⟨rfl, rfl, rfl⟩
    · exact h.link c p fc kc0 fp kp hc0 hp2
    · rw [List.count_erase_of_ne (Ne.symm hcq)]
      exact h.link c f fc kc0 fp kf hc0 hf
  · intro c fc kc p hc hfc
    obtain ⟨hcq, hc2⟩ := hold _ _ _ hc
    have hfc0 : ∃ kc0, v c = some (fc, kc0) := by
      rcases hc2 with ⟨_, hc2⟩ | ⟨rfl, rfl, _⟩
      · exact ⟨_, hc2⟩
      · exact ⟨_, hf⟩
    obtain ⟨kc0, hc0⟩ := hfc0
    obtain ⟨x, hx⟩ := h.father_live c fc kc0 p hc0 hfc
    have hpq : q ≠ p := by
      rintro rfl
      exact hnofa c fc kc0 hc0 hfc
    exact hnew p x hpq hx
  · intro p fp kp c hp hmem
    obtain ⟨hpq, hp2⟩ := hold _ _ _ hp
    rcases hp2 with ⟨hfp, hp2⟩ | ⟨rfl, rfl, rfl⟩
    · obtain ⟨x, hx⟩ := h.child_live p fp kp c hp2 hmem
      have hcq : q ≠ c := by
        rintro rfl
        exact hnokid p fp kp hfp hp2 hmem
      exact hnew c x hcq hx
    · obtain ⟨x, hx⟩ := h.child_live f fp kf c hf (List.mem_of_mem_erase hmem)
      have hcq : q ≠ c := by
        rintro rfl
        exact hnokidf hmem
      exact hnew c x hcq hx

/-- No change keeps the links. -/
theorem KeepsLinks.refl (s : Kernel) : KeepsLinks s s := ⟨rfl, fun _ => rfl⟩

/-- Two changes that keep the links, one after the other, keep them. -/
theorem KeepsLinks.trans {s t u : Kernel} (h1 : KeepsLinks s t) (h2 : KeepsLinks t u) :
    KeepsLinks s u :=
  ⟨h2.1.trans h1.1, fun a => (h2.2 a).trans (h1.2 a)⟩

/-- A change of fields other than the process records and the nodes keeps the
links. -/
theorem KeepsLinks.of_eq {s t : Kernel} (hp : t.procs = s.procs) (hn : t.nodes = s.nodes) :
    KeepsLinks s t :=
  ⟨hn, fun a => by rw [hp]⟩

/-- A change that keeps the links keeps the link view. -/
theorem KeepsLinks.view {s t : Kernel} (h : KeepsLinks s t) : linkView t = linkView s := by
  funext a
  have := h.2 a
  unfold linkView children_of
  cases ht : t.procs a <;> cases hs : s.procs a <;> simp [ht, hs] at this ⊢
  obtain ⟨h1, h2⟩ := this
  rw [h1, h2]
  exact ⟨rfl, rfl⟩

/-- A change that keeps the links keeps every live record live, with its
parent and its children list. -/
theorem KeepsLinks.record {s t : Kernel} (h : KeepsLinks s t) {a : Nat} {ra : proc}
    (ha : s.procs a = some ra) :
    ∃ rb, t.procs a = some rb ∧ rb.p_father_proc = ra.p_father_proc ∧
      rb.p_children_list = ra.p_children_list := by
  have := h.2 a
  rw [ha] at this
  cases ht : t.procs a with
  | none => simp [ht] at this
  | some rb =>
    simp [ht] at this
    exact ⟨rb, rfl, this.1, this.2⟩

/-- A change that keeps the links: a record live afterwards was live before,
with its parent and its children list. -/
theorem KeepsLinks.record_back {s t : Kernel} (h : KeepsLinks s t) {a : Nat} {rb : proc}
    (hb : t.procs a = some rb) :
    ∃ ra, s.procs a = some ra ∧ rb.p_father_proc = ra.p_father_proc ∧
      rb.p_children_list = ra.p_children_list := by
  have := h.2 a
  rw [hb] at this
  cases hs : s.procs a with
  | none => simp [hs] at this
  | some ra =>
    simp [hs] at this
    exact ⟨ra, rfl, this.1, this.2⟩

/-- A write of fields of a record other than its parent and its children list
keeps the links. -/
theorem KeepsLinks.of_modProc {s t : Kernel} {q : Nat} {f : proc → proc}
    (hm : s.modProc q f = .ok t)
    (hf : ∀ r, (f r).p_father_proc = r.p_father_proc ∧
      (f r).p_children_list = r.p_children_list) : KeepsLinks s t := by
  rw [Kernel.modProc_eq_ok] at hm
  obtain ⟨r, hr, rfl⟩ := hm
  refine ⟨rfl, ?_⟩
  intro a
  by_cases ha : a = q
  · subst ha
    simp [hr, hf r]
  · simp [Function.update_noteq ha]

/-- A write of an open-file record keeps the links. -/
theorem KeepsLinks.of_setOf (s : Kernel) (f : OfPtr) (o : openfile) : KeepsLinks s (s.setOf f o) := by
  cases f <;> exact ⟨rfl, fun _ => rfl⟩

/-- A write of fields of an open-file record keeps the links. -/
theorem KeepsLinks.of_modOf {s t : Kernel} {f : OfPtr} {g : openfile → openfile}
    (hm : s.modOf f g = .ok t) : KeepsLinks s t := by
  unfold Kernel.modOf at hm
  split at hm
  · cases hm
    exact KeepsLinks.of_setOf _ _ _
  · cases hm

/-- A write of a descriptor slot keeps the links. -/
theorem KeepsLinks.of_ftWrite {K : Consts} {s t : Kernel} {p : Nat} {fd : Int} {f : Option OfPtr}
    (hm : s.ftWrite K p fd f = .ok t) : KeepsLinks s t := by
  unfold Kernel.ftWrite at hm
  split at hm
  · exact KeepsLinks.of_modProc hm (fun _ => ⟨rfl, rfl⟩)
  · cases hm

/-- Function `std_init` keeps the links, whatever it returns. -/
theorem KeepsLinks.of_std_init {K : Consts} {env : StdEnv} {p : Nat} {fd mode rc : Int}
    {s t : Kernel} (h : std_init K env p fd mode s = .ok (rc, t)) : KeepsLinks s t := by
  unfold OS161.std_init at h
  split at h
  · cases h
    exact KeepsLinks.refl _
  · simp only [Outcome.bind_eq_ok] at h
    obtain ⟨s1, h1, h⟩ := h
    have k1 := KeepsLinks.of_ftWrite h1
    split at h
    · cases h
      exact k1
    · rename_i a _
      have k2 : KeepsLinks s1 (s1.setOf (.heap a)
          { vn := none, offset := 0, mode_open := 0, lock := .null, countRef := 0 }) :=
        KeepsLinks.of_setOf _ _ _
      split at h
      · cases h
        exact (k1.trans k2).trans (KeepsLinks.of_eq rfl rfl)
      · simp only [Outcome.bind_eq_ok] at h
        obtain ⟨s2, h2, h⟩ := h
        have k3 := KeepsLinks.of_modOf h2
        split at h
        · cases h
          exact ((k1.trans k2).trans k3).trans (KeepsLinks.of_eq rfl rfl)
        · simp only [Outcome.bind_eq_ok] at h
          obtain ⟨s3, h3, h⟩ := h
          cases h
          exact ((k1.trans k2).trans k3).trans (KeepsLinks.of_modOf h3)

/-- The loop of `proc_file_table_copy` keeps the links. -/
theorem KeepsLinks.of_proc_file_table_copy_loop (K : Consts) (psrc pdest : Nat) :
    ∀ (n fd : Nat) (s t : Kernel),
      OS161.proc_file_table_copy_loop K psrc pdest n fd s = .ok t → KeepsLinks s t := by
  intro n
  induction n with
  | zero =>
    intro fd s t h
    simp only [OS161.proc_file_table_copy_loop, Outcome.ok.injEq] at h
    subst h
    exact KeepsLinks.refl _
  | succ n ih =>
    intro fd s t h
    unfold OS161.proc_file_table_copy_loop at h
    simp only [Outcome.bind_eq_ok] at h
    obtain ⟨e, _, s1, h1, h⟩ := h
    have k1 := KeepsLinks.of_ftWrite h1
    cases e with
    | none =>
      simp only [Outcome.bind_ok] at h
      exact k1.trans (ih _ _ _ h)
    | some f =>
      simp only [Outcome.bind_eq_ok] at h
      obtain ⟨s2, h2, h3⟩ := h
      exact (k1.trans (KeepsLinks.of_modOf h2)).trans (ih _ _ _ h3)

/-- Function `proc_addthread` keeps the children lists and the parents; it
adds a thread node. -/
theorem proc_addthread_view {kmalloc : Option Nat} {p t : Nat} {rc : Int} {s u : Kernel}
    (h : proc_addthread kmalloc p t s = .ok (rc, u)) : linkView u = linkView s := by
  unfold proc_addthread at h
  split at h
  · cases h
  · simp only [Outcome.bind_eq_ok] at h
    obtain ⟨s1, h1, h⟩ := h
    have k1 := (KeepsLinks.of_modProc h1 (fun _ => ⟨rfl, rfl⟩)).view
    split at h
    · cases h
    · simp only [Outcome.bind_eq_ok] at h
      obtain ⟨s2, h2, h⟩ := h
      cases h
      rw [Kernel.modProc_eq_ok] at h2
      obtain ⟨r, hr, rfl⟩ := h2
      rw [← k1]
      funext a
      unfold linkView children_of
      by_cases ha : a = p
      · subst ha
        simp at hr
        simp [hr]
      · simp [Function.update_noteq ha]

/-- The processes of the list that `proc_remove_proc` leaves are those of the
list it found, less the first occurrence of the process. -/
theorem unlink_child_erase (this : Nat) :
    ∀ (l : List child_node) (n : child_node) (rest : List child_node),
      unlink_child this l = some (n, rest) →
      rest.map (fun n => n.p) = (l.map (fun n => n.p)).erase this := by
  intro l
  induction l with
  | nil => intro n rest h; simp [unlink_child] at h
  | cons c cs ih =>
    intro n rest h
    unfold unlink_child at h
    by_cases hc : c.p = this
    · simp only [hc, if_true, Option.some.injEq, Prod.mk.injEq] at h
      obtain ⟨_, rfl⟩ := h
      simp [hc]
    · simp only [hc, if_false] at h
      cases hu : unlink_child this cs with
      | none => simp [hu] at h
      | some x =>
        obtain ⟨m, r⟩ := x
        simp only [hu, Option.some.injEq, Prod.mk.injEq] at h
        obtain ⟨_, rfl⟩ := h
        have := ih m r hu
        simp only [List.map_cons, this]
        rw [List.erase_cons_tail]
        simpa using hc

/-- What `proc_remove_proc` has done when it returns 0. -/
theorem proc_remove_proc_zero {q f : Nat} {s u : Kernel} {rc : Int}
    (h : proc_remove_proc (some q) (some f) s = .ok (rc, u)) (hrc : rc = 0) :
    ∃ fr node rest, s.procs f = some fr ∧
      unlink_child q fr.p_children_list = some (node, rest) ∧ s.nodes node.addr = true ∧
      u.procs = Function.update s.procs f (some { fr with p_children_list := rest }) ∧
      u.nodes = Function.update s.nodes node.addr false := by
  unfold proc_remove_proc at h
  simp only [Outcome.bind_eq_ok] at h
  obtain ⟨fr, hfr, h⟩ := h
  rw [Kernel.getProc_eq_ok] at hfr
  cases hu : unlink_child q fr.p_children_list with
  | none =>
    simp only [hu, Outcome.ok.injEq, Prod.mk.injEq] at h
    omega
  | some x =>
    obtain ⟨node, rest⟩ := x
    simp only [hu, Outcome.bind_eq_ok] at h
    obtain ⟨s1, h1, s2, h2, h3⟩ := h
    simp only [Outcome.ok.injEq, Prod.mk.injEq] at h3
    obtain ⟨_, rfl⟩ := h3
    rw [Kernel.modProc_eq_ok] at h1
    obtain ⟨r1, hr1, rfl⟩ := h1
    rw [hfr] at hr1
    cases hr1
    unfold Kernel.kfreeNode at h2
    split at h2
    · rename_i hn
      cases h2
      exact ⟨fr, node, rest, hfr, hu, hn, rfl, rfl⟩
    · cases h2

/-- The link view at the address of a live record. -/
theorem linkView_of {s : Kernel} {a : Nat} {r : proc} (h : s.procs a = some r) :
    linkView s a = some (r.p_father_proc, children_of r) := by
  simp [linkView, h]

/-- The link view after a change of the process records at one address. -/
theorem linkView_update (s t : Kernel) (a : Nat) (x : Option proc)
    (h : t.procs = Function.update s.procs a x) :
    linkView t = Function.update (linkView s) a
      (x.map (fun r => (r.p_father_proc, children_of r))) := by
  funext b
  unfold linkView
  rw [h]
  by_cases hb : b = a
  · subst hb
    simp
  · simp [Function.update_noteq hb]

/-- Under the link invariant a call of `proc_destroy` that returns was for a
process without children, it keeps the invariant, and it has released the
node for the process in the children list of the parent. -/
theorem proc_destroy_links : ∀ (fuel q : Nat) (s t : Kernel), LinkInv s →
    proc_destroy fuel (some q) s = .ok t →
    LinkInv t ∧ ∃ r, s.procs q = some r ∧ r.p_children_list = [] ∧
      ∀ f, r.p_father_proc = some f → ∃ fr node rest, s.procs f = some fr ∧
        unlink_child q fr.p_children_list = some (node, rest) ∧ t.nodes node.addr = false := by
  intro fuel
  induction fuel with
  | zero => intro q s t _ h; simp [proc_destroy] at h
  | succ fuel ih =>
    intro q s t hinv h
    rw [proc_destroy_eq_before_check] at h
    split at h
    · simp at h
    simp only [Outcome.bind_eq_ok] at h
    obtain ⟨u, hu, r1, hr1, h⟩ := h
    split at h
    · simp at h
    simp only [Outcome.bind_eq_ok] at h
    obtain ⟨v, hv, h⟩ := h
    simp only [Outcome.ok.injEq] at h
    rw [proc_destroy_before_check_eq] at hu
    simp only [Outcome.bind_eq_ok] at hu
    obtain ⟨r, hr, s1, h1, s2, h2, s3, h3, r3, hr3, h5⟩ := hu
    rw [Kernel.getProc_eq_ok] at hr hr3
    have k1 : KeepsLinks s s1 := by
      split at h1
      · exact (KeepsLinks.of_eq rfl rfl : KeepsLinks s (s.emit _)).trans
          (KeepsLinks.of_modProc h1 (fun _ => ⟨rfl, rfl⟩))
      · cases h1
        exact KeepsLinks.refl _
    have k2 : KeepsLinks s1 s2 := by
      split at h2
      · simp only [Outcome.bind_eq_ok] at h2
        obtain ⟨x, hx, h2⟩ := h2
        simp only [Outcome.ok.injEq] at h2
        subst h2
        refine (KeepsLinks.of_modProc hx (fun _ => ⟨rfl, rfl⟩)).trans ?_
        split
        · exact KeepsLinks.of_eq rfl rfl
        · exact KeepsLinks.of_eq rfl rfl
      · cases h2
        exact KeepsLinks.refl _
    have k12 := k1.trans k2
    obtain ⟨r2, hr2, hf2, hl2⟩ := k12.record hr
    have hinv2 : LinkInv s2 := by
      unfold LinkInv
      rw [k12.view]
      exact hinv
    have hnil : r.p_children_list = [] := by
      cases hl : r.p_children_list with
      | nil => rfl
      | cons c1 rest =>
        exfalso
        rw [hl] at h3
        simp only [proc_destroy_loop, Outcome.bind_eq_ok] at h3
        obtain ⟨s3a, ha, s4, h4, s5, h5a, _⟩ := h3
        obtain ⟨_, rc, hrc, _, hnode⟩ := ih c1.p s2 s3a hinv2 ha
        have hkids : children_of r2 = c1.p :: rest.map (fun n => n.p) := by
          unfold children_of
          rw [hl2, hl]
          rfl
        have hlink := hinv2.link c1.p q rc.p_father_proc (children_of rc) r2.p_father_proc
          (children_of r2) (linkView_of hrc) (linkView_of hr2)
        rw [hkids, List.count_cons_self] at hlink
        have hfa : rc.p_father_proc = some q := by
          by_contra hne
          simp [hne] at hlink
        obtain ⟨fr, node, rest2, hfr, hun, hfalse⟩ := hnode q hfa
        rw [hr2] at hfr
        cases hfr
        rw [hl2, hl] at hun
        simp only [unlink_child, if_true, Option.some.injEq, Prod.mk.injEq] at hun
        obtain ⟨rfl, _⟩ := hun
        rw [Kernel.modProc_eq_ok] at h4
        obtain ⟨_, _, rfl⟩ := h4
        unfold Kernel.kfreeNode at h5a
        simp only at h5a
        rw [hfalse] at h5a
        simp at h5a
    rw [hnil] at h3
    simp only [proc_destroy_loop, Outcome.ok.injEq] at h3
    subst h3
    rw [hr2] at hr3
    cases hr3
    have hvq : linkView s q = some (r.p_father_proc, []) := by
      rw [linkView_of hr]
      unfold children_of
      rw [hnil]
      rfl
    obtain ⟨rv, hrv, _, _, hvdef⟩ := proc_end_waitpid_ok hv
    have htp : t.procs = Function.update u.procs q none := by
      rw [← h, hvdef]
      simp
    have htn : t.nodes = u.nodes := by
      rw [← h, hvdef]
    cases hfa : r.p_father_proc with
    | none =>
      rw [hf2, hfa] at h5
      simp only [Outcome.ok.injEq] at h5
      subst h5
      refine ⟨?_, r, hr, hnil, fun f hf => by rw [hfa] at hf; cases hf⟩
      unfold LinkInv
      rw [linkView_update s2 t q none htp, k12.view]
      rw [hfa] at hvq
      exact hinv.remove_orphan hvq
    | some f =>
      rw [hf2, hfa] at h5
      simp only [Outcome.bind_eq_ok] at h5
      obtain ⟨⟨rc, w⟩, hw, h5⟩ := h5
      split at h5
      · simp at h5
      · rename_i hrc0
        simp only [Outcome.ok.injEq] at h5
        subst h5
        obtain ⟨fr, node, rest, hfr, hun, _, hwp, hwn⟩ :=
          proc_remove_proc_zero hw (by simpa using hrc0)
        obtain ⟨fr0, hfr0, hff0, hfl0⟩ := k12.record_back hfr
        refine ⟨?_, r, hr, hnil, ?_⟩
        · unfold LinkInv
          rw [linkView_update w t q none htp, linkView_update s2 w f _ hwp, k12.view]
          rw [hfa] at hvq
          have hvf : linkView s f = some (fr0.p_father_proc, children_of fr0) := linkView_of hfr0
          have := hinv.remove_child hvq hvf
          simp only [Option.map_some', Option.map_none']
          have e : children_of { fr with p_children_list := rest } =
              (children_of fr0).erase q := by
            unfold children_of
            simp only
            rw [unlink_child_erase q _ _ _ hun, hfl0]
          rw [e, hff0]
          exact this
        · intro f2 hf2eq
          rw [hfa] at hf2eq
          cases hf2eq
          rw [hfl0] at hun
          refine ⟨fr0, node, rest, hfr0, hun, ?_⟩
          rw [htn, hwn]
          simp

/-- The links after `proc_create`: as before when it returns `NULL`, and with
one more record, without parent and without children, at the address that
`kmalloc` gave when it returns a process. -/
theorem proc_create_view {env : CreateEnv} {name : String} {s t : Kernel} {newp : Option Nat}
    (h : proc_create env name s = .ok (newp, t)) :
    (newp = none ∧ linkView t = linkView s) ∨
    (∃ a, newp = some a ∧ env.kmalloc = some a ∧
      linkView t = Function.update (linkView s) a (some (none, []))) := by
  cases newp with
  | some a =>
    obtain ⟨hk, j, _, _, _, rfl⟩ := proc_create_ok h
    refine Or.inr ⟨a, rfl, hk, ?_⟩
    rw [linkView_update s _ a _ rfl]
    rfl
  | none =>
    refine Or.inl ⟨rfl, ?_⟩
    unfold proc_create at h
    split at h
    · cases h
      rfl
    · split at h
      · cases h
        rfl
      · simp only [Outcome.bind_eq_ok] at h
        obtain ⟨s1, _, s2, _, h⟩ := h
        simp at h

/-- The links after `proc_create_runprogram`: as before, or with one more
record, without parent and without children, at the address that `kmalloc`
gave; a process that it returns is that record. -/
theorem proc_create_runprogram_view {K : Consts} {env : RunEnv} {name : String} {s t : Kernel}
    {newp : Option Nat} (h : proc_create_runprogram K env name s = .ok (newp, t)) :
    (newp = none ∧ linkView t = linkView s) ∨
    (∃ a, env.create.kmalloc = some a ∧ (newp = none ∨ newp = some a) ∧
      linkView t = Function.update (linkView s) a (some (none, []))) := by
  unfold proc_create_runprogram at h
  simp only [Outcome.bind_eq_ok] at h
  obtain ⟨⟨np0, s1⟩, hc, h⟩ := h
  rcases proc_create_view hc with ⟨rfl, hv⟩ | ⟨a, rfl, hk, hv⟩
  · simp only [Outcome.ok.injEq, Prod.mk.injEq] at h
    obtain ⟨rfl, rfl⟩ := h
    exact Or.inl ⟨rfl, hv⟩
  · simp only [Outcome.bind_eq_ok] at h
    obtain ⟨s2, h2, ⟨r0, s3⟩, hi0, h⟩ := h
    have k2 := KeepsLinks.of_modProc h2 (fun _ => ⟨rfl, rfl⟩)
    have k3 := KeepsLinks.of_std_init hi0
    simp only at h
    split at h
    · simp only [Outcome.ok.injEq, Prod.mk.injEq] at h
      obtain ⟨rfl, rfl⟩ := h
      exact Or.inr ⟨a, hk, Or.inl rfl, by rw [(k2.trans k3).view, hv]⟩
    · simp only [Outcome.bind_eq_ok] at h
      obtain ⟨⟨r1, s4⟩, hi1, h⟩ := h
      have k4 := KeepsLinks.of_std_init hi1
      simp only at h
      split at h
      · simp only [Outcome.ok.injEq, Prod.mk.injEq] at h
        obtain ⟨rfl, rfl⟩ := h
        exact Or.inr ⟨a, hk, Or.inl rfl, by rw [((k2.trans k3).trans k4).view, hv]⟩
      · simp only [Outcome.bind_eq_ok] at h
        obtain ⟨⟨r2, s5⟩, hi2, h⟩ := h
        have k5 := KeepsLinks.of_std_init hi2
        simp only at h
        split at h
        · simp only [Outcome.ok.injEq, Prod.mk.injEq] at h
          obtain ⟨rfl, rfl⟩ := h
          exact Or.inr ⟨a, hk, Or.inl rfl,
            by rw [(((k2.trans k3).trans k4).trans k5).view, hv]⟩
        · split at h
          · simp at h
          · simp only [Outcome.bind_eq_ok] at h
            obtain ⟨cr, _, h⟩ := h
            split at h
            · simp only [Outcome.bind_eq_ok] at h
              obtain ⟨s6, h6, h⟩ := h
              simp only [Outcome.ok.injEq, Prod.mk.injEq] at h
              obtain ⟨rfl, rfl⟩ := h
              have k6 : KeepsLinks s5 s6 :=
                (KeepsLinks.of_eq rfl rfl : KeepsLinks s5 (s5.emit _)).trans
                  (KeepsLinks.of_modProc h6 (fun _ => ⟨rfl, rfl⟩))
              exact Or.inr ⟨a, hk, Or.inr rfl,
                by rw [((((k2.trans k3).trans k4).trans k5).trans k6).view, hv]⟩
            · simp only [Outcome.ok.injEq, Prod.mk.injEq] at h
              obtain ⟨rfl, rfl⟩ := h
              exact Or.inr ⟨a, hk, Or.inr rfl,
                by rw [(((k2.trans k3).trans k4).trans k5).view, hv]⟩

/-- Function `sys_fork` keeps the link invariant on every return, when the
address that `kmalloc` gives for the new record holds no live record. -/
theorem sys_fork_links (K : Consts) (env : ForkEnv) (fuel : Nat) (s t : Kernel) (rv : RetVal)
    (pid : Option Int) (hinv : LinkInv s)
    (hfresh : ∀ a, env.run.create.kmalloc = some a → s.procs a = none)
    (h : sys_fork K env fuel s = .ok (rv, pid, t)) : LinkInv t := by
  unfold sys_fork at h
  split at h
  · cases h
  rename_i cp hcp
  simp only [Outcome.bind_eq_ok] at h
  obtain ⟨v, _, h⟩ := h
  split at h
  · simp only [Outcome.ok.injEq, Prod.mk.injEq] at h
    obtain ⟨_, _, rfl⟩ := h
    exact hinv
  simp only [Outcome.bind_eq_ok] at h
  obtain ⟨cr, hcr, ⟨newp, s1⟩, hrun, h⟩ := h
  rw [Kernel.getProc_eq_ok] at hcr
  simp only at h
  have hinv1 : LinkInv s1 := by
    rcases proc_create_runprogram_view hrun with ⟨_, hv⟩ | ⟨a, hk, _, hv⟩
    · unfold LinkInv
      rw [hv]
      exact hinv
    · unfold LinkInv
      rw [hv]
      exact LinksWellFormed.add_leaf hinv (by simp [linkView, hfresh a hk])
  cases newp with
  | none =>
    simp only [Outcome.ok.injEq, Prod.mk.injEq] at h
    obtain ⟨_, _, rfl⟩ := h
    exact hinv1
  | some np =>
    have hv1 : linkView s1 = Function.update (linkView s) np (some (none, [])) ∧
        s.procs np = none := by
      rcases proc_create_runprogram_view hrun with ⟨hn, _⟩ | ⟨a, hk, hn, hv⟩
      · cases hn
      · rcases hn with hn | hn
        · cases hn
        · cases hn
          exact ⟨hv, hfresh np hk⟩
    obtain ⟨hv1, hdead⟩ := hv1
    have hne : np ≠ cp := by
      rintro rfl
      rw [hdead] at hcr
      cases hcr
    have tail : ∀ y : Kernel, KeepsLinks s1 y →
        ((do
          let r ← y.getProc np
          if r.p_addrspace = none then do
            let s ← proc_destroy fuel (some np) y
            .ok (.errno .ENOMEM, none, s)
          else do
            let s ← proc_file_table_copy K np cp y
            if !env.kmalloc_tf then do
              let s ← proc_destroy fuel (some np) s
              .ok (.errno .ENOMEM, none, s)
            else
              match env.kmalloc_child with
              | none => .ok (.errno .ENOMEM, none, s)
              | some a => do
                let s := { s with nodes := Function.update s.nodes a true }
                let s ← s.modProc cp
                  (fun r => { r with p_children_list := { addr := a, p := np } :: r.p_children_list })
                let s ← s.modProc np (fun r => { r with p_father_proc := some cp })
                match env.thread_fork with
                | none => do
                  let s ← proc_destroy fuel (some np) s
                  .ok (.errno .ENOMEM, none, s)
                | some t => do
                  let (_, s) ← proc_addthread env.kmalloc_tnode np t s
                  let r ← s.getProc np
                  .ok (.num 0, some r.p_pid, s)) :
            Outcome (RetVal × Option Int × Kernel)) = .ok (rv, pid, t) → LinkInv t := by
      intro y ky hy
      have hinvy : LinkInv y := by
        unfold LinkInv
        rw [ky.view]
        exact hinv1
      simp only [Outcome.bind_eq_ok] at hy
      obtain ⟨r, _, hy⟩ := hy
      split at hy
      · simp only [Outcome.bind_eq_ok] at hy
        obtain ⟨s2, h2, hy⟩ := hy
        simp only [Outcome.ok.injEq, Prod.mk.injEq] at hy
        obtain ⟨_, _, rfl⟩ := hy
        exact (proc_destroy_links fuel np y s2 hinvy h2).1
      · simp only [Outcome.bind_eq_ok] at hy
        obtain ⟨s2, h2, hy⟩ := hy
        have k2 : KeepsLinks y s2 := KeepsLinks.of_proc_file_table_copy_loop K np cp _ _ _ _ h2
        have hinv2 : LinkInv s2 := by
          unfold LinkInv
          rw [k2.view]
          exact hinvy
        split at hy
        · simp only [Outcome.bind_eq_ok] at hy
          obtain ⟨s3, h3, hy⟩ := hy
          simp only [Outcome.ok.injEq, Prod.mk.injEq] at hy
          obtain ⟨_, _, rfl⟩ := hy
          exact (proc_destroy_links fuel np s2 s3 hinv2 h3).1
        · split at hy
          · simp only [Outcome.ok.injEq, Prod.mk.injEq] at hy
            obtain ⟨_, _, rfl⟩ := hy
            exact hinv2
          · rename_i a _
            simp only [Outcome.bind_eq_ok] at hy
            obtain ⟨s3, h3, s4, h4, hy⟩ := hy
            rw [Kernel.modProc_eq_ok] at h3
            obtain ⟨rcp, hrcp, rfl⟩ := h3
            rw [Kernel.modProc_eq_ok] at h4
            obtain ⟨rnp, hrnp, rfl⟩ := h4
            simp only at hrcp hrnp
            rw [Function.update_noteq hne] at hrnp
            have hv2 : linkView s2 = Function.update (linkView s) np (some (none, [])) := by
              rw [(ky.trans k2).view, hv1]
            have hvnp : linkView s2 np = some (none, []) := by
              rw [hv2, Function.update_same]
            have hnp2 : rnp.p_father_proc = none ∧ children_of rnp = [] := by
              rw [linkView_of hrnp] at hvnp
              simp only [Option.some.injEq, Prod.mk.injEq] at hvnp
              exact hvnp
            have hinv4 : LinksWellFormed
                (Function.update (Function.update (linkView s2) cp
                  (some (rcp.p_father_proc, np :: children_of rcp))) np (some (some cp, []))) :=
              LinksWellFormed.add_link hinv2 hvnp (linkView_of hrcp) hne
            have hview4 : ∀ u : Kernel,
                u.procs = Function.update (Function.update s2.procs cp
                  (some { rcp with p_children_list := { addr := a, p := np } :: rcp.p_children_list }))
                  np (some { rnp with p_father_proc := some cp }) →
                LinkInv u := by
              intro u hu
              unfold LinkInv
              have e : linkView u = Function.update (Function.update (linkView s2) cp
                  (some (rcp.p_father_proc, np :: children_of rcp))) np (some (some cp, [])) := by
                funext b
                unfold linkView
                rw [hu]
                by_cases hb : b = np
                · subst hb
                  simp [children_of] at hnp2 ⊢
                  exact hnp2.2
                · rw [Function.update_noteq hb, Function.update_noteq hb]
                  by_cases hbc : b = cp
                  · subst hbc
                    simp [children_of]
                  · rw [Function.update_noteq hbc, Function.update_noteq hbc]
              rw [e]
              exact hinv4
            split at hy
            · simp only [Outcome.bind_eq_ok] at hy
              obtain ⟨s5, h5, hy⟩ := hy
              simp only [Outcome.ok.injEq, Prod.mk.injEq] at hy
              obtain ⟨_, _, rfl⟩ := hy
              exact (proc_destroy_links fuel np _ s5 (hview4 _ rfl) h5).1
            · simp only [Outcome.bind_eq_ok] at hy
              obtain ⟨⟨rc, s5⟩, h5, r5, _, hy⟩ := hy
              simp only [Outcome.ok.injEq, Prod.mk.injEq] at hy
              obtain ⟨_, _, rfl⟩ := hy
              unfold LinkInv
              rw [proc_addthread_view h5]
              exact hview4 _ rfl
    cases has : env.as_copy with
    | some a =>
      simp only [has, Outcome.bind_eq_ok] at h
      obtain ⟨y, hy, h⟩ := h
      exact tail y (KeepsLinks.of_modProc hy (fun _ => ⟨rfl, rfl⟩)) (by
        simp only [Outcome.bind_eq_ok]
        exact h)
    | none =>
      simp only [has, Outcome.bind_ok] at h
      exact tail s1 (KeepsLinks.refl _) h

/-- The number of nodes of a children list that reference a process. -/
theorem children_of_count (c : Nat) (r : proc) :
    (children_of r).count c = (r.p_children_list.filter (fun n => n.p = c)).length := by
  unfold children_of
  induction r.p_children_list with
  | nil => rfl
  | cons n l ih =>
    by_cases h : n.p = c
    · simp [List.filter_cons, h, ih]
    · have h2 : ¬ (c = n.p) := fun e => h e.symm
      simp [List.filter_cons, List.count_cons, h, ih]

/-- Well-formed links give the invariant of the specification. -/
theorem LinkInv.link_invariant {s : Kernel} (h : LinkInv s) : link_invariant s := by
  intro c p rc rp hc hp
  have := h.link c p rc.p_father_proc (children_of rc) rp.p_father_proc (children_of rp)
    (linkView_of hc) (linkView_of hp)
  rw [children_of_count] at this
  rw [this]
  by_cases hf : rc.p_father_proc = some p
  · simp [hf]
  · simp [hf]

/-- The links of `oneProcess` are well formed. -/
theorem LinkInv_oneProcess : LinkInv oneProcess := by
  have hboot : LinksWellFormed (fun _ => none : Nat → Option (Option Nat × List Nat)) :=
    ⟨fun _ _ _ _ _ _ h => (by cases h), fun _ _ _ _ h => (by cases h),
      fun _ _ _ _ h => (by cases h)⟩
  have e : linkView oneProcess =
      Function.update (fun _ => none : Nat → Option (Option Nat × List Nat)) 1
        (some (none, [])) := by
    funext a
    by_cases ha : a = 1
    · subst ha
      rfl
    · rw [Function.update_noteq ha]
      simp [linkView, oneProcess, ha]
  unfold LinkInv
  rw [e]
  exact hboot.add_leaf rfl

/-! ### The claims -/

set_option maxRecDepth 100000

/-- C1: in every state reached from the empty process table by allocations
(`proc_init_waitpid`, each for a record that is in no slot) and releases
(`proc_end_waitpid`), every non-empty slot `i` with `1 ≤ i ≤ MAX_PROC` holds a
live record whose `p_pid` is `i`; a successful allocation writes one slot of
`1..MAX_PROC`, which was empty, and no other; and two slots whose records have
the same `p_pid` are one slot holding one record. -/
theorem pid_table_invariant (s : Kernel) (h : TableReach s) :
    (∀ i p, 1 ≤ i → i ≤ MAX_PROC → s.processTable.proc i = some p →
      ∃ r, s.procs p = some r ∧ r.p_pid = (i : Int)) ∧
    (∀ sem p t, proc_init_waitpid sem p s = .ok t →
      ∃ i, 1 ≤ i ∧ i ≤ MAX_PROC ∧ s.processTable.proc i = none ∧
        t.processTable.proc = Function.update s.processTable.proc i (some p)) ∧
    (∀ i j p q rp rq, s.processTable.proc i = some p → s.processTable.proc j = some q →
      s.procs p = some rp → s.procs q = some rq → rp.p_pid = rq.p_pid → i = j ∧ p = q) := by
  have hinv := slots_hold_own_pid_of_reach h
  refine ⟨?_, ?_, ?_⟩
  · intro i p _ _ hp
    exact (hinv i p hp).2.2
  · intro sem p t ht
    obtain ⟨j, r, hj1, hj2, hnone, _, rfl⟩ := proc_init_waitpid_ok ht
    exact ⟨j, hj1, hj2, hnone, rfl⟩
  · intro i j p q rp rq hp hq hrp hrq hpid
    obtain ⟨_, _, r1, hr1, hi⟩ := hinv i p hp
    obtain ⟨_, _, r2, hr2, hj⟩ := hinv j q hq
    rw [hrp] at hr1
    rw [hrq] at hr2
    cases hr1
    cases hr2
    have hij : i = j := by omega
    subst hij
    rw [hp] at hq
    exact ⟨rfl, Option.some.inj hq⟩

/-- Witness of C1: the state after two allocations is reachable and its slot 2
holds a record whose `p_pid` is 2. -/
theorem pid_table_invariant_witness :
    TableReach (filled 2 3) ∧ ∃ r, (filled 2 3).procs 2 = some r ∧ r.p_pid = 2 :=
  ⟨filled_reach 2 3 (by decide) (by decide),
    (pid_table_invariant (filled 2 3) (filled_reach 2 3 (by decide) (by decide))).1 2 2
      (by decide) (by decide) (by decide)⟩

/-- C2 (the code at the failing input): the parent holds an open file in slot
3.  After a successful `sys_fork` slot 3 of the child is empty, slot 3 of the
parent is empty too, slot 0 of the parent holds the console record of the
child, the reference count of the parent's file is still 1 and that of the
child's console record is 2: `proc_file_table_copy(newp, curproc)` copies the
table of the child into the parent. -/
theorem sys_fork_copies_child_table_into_parent :
    (oneProcess.procs 1).map (fun r => (r.fileTable 3, r.fileTable 0)) =
        some (some (.sys 0), some (.heap 20)) ∧
      forkObservation (sys_fork os161Consts forkEnvOk 1 oneProcess) =
        some (.num 0, some 2, some none, some none, some (some (.heap 30)), 1, some 2, some 2) :=
  ⟨by rfl, by rfl⟩

/-- C3: for every `status`, `sys__exit(status)` on a process `p` (live, with a
semaphore, the calling thread attached) leaves `p` with `p_terminated = 1` and
`p_status = status & 0xff`, a value in `0..255`; whenever a subsequent
`proc_wait(p)` returns, it returns that value; and it does return when `p` is a
single-threaded process without children (`LeafAtExit`). -/
theorem exit_status_roundtrip (status : Int) (s : Kernel) (p : Nat) (r : proc)
    (hcur : s.curproc = some p) (hlive : s.procs p = some r) (hth : 0 < r.p_numthreads)
    (hsem : r.p_sem ≠ none)
    (hnode : ∀ node rest, unlink_thread s.curthread r.p_thread_list = some (node, rest) →
      s.nodes node.addr = true) :
    ∃ s1 r1, sys__exit status s = .ok s1 ∧ s1.procs p = some r1 ∧
      r1.p_terminated = 1 ∧ r1.p_status = Int.land status 0xff ∧
      0 ≤ r1.p_status ∧ r1.p_status ≤ 255 ∧
      (∀ fuel v s2, proc_wait fuel (some p) s1 = .ok (v, s2) → v = Int.land status 0xff) ∧
      (LeafAtExit s p r → ∀ fuel, ∃ s2,
        proc_wait (fuel + 1) (some p) s1 = .ok (Int.land status 0xff, s2)) := by
  obtain ⟨n, hn⟩ := Option.ne_none_iff_exists'.mp hsem
  obtain ⟨s1, hexit, hprocs, hnodes, hk, htab, hct, htp⟩ :=
    sys__exit_ok status s p r n hcur hlive hth hn hnode
  have hr1 := congrFun hprocs p
  rw [Function.update_same] at hr1
  refine ⟨s1, _, hexit, hr1, rfl, rfl, (land_0xff_range status).1, (land_0xff_range status).2,
    ?_, ?_⟩
  · intro fuel v s2 hw
    rw [proc_wait_some, P_ok s1 p _ n hr1 rfl] at hw
    by_cases hkp : some p = s1.kproc
    · simp [hkp] at hw
    · simp only [hkp, if_false, Outcome.bind_ok, Kernel.getProc, Function.update_same] at hw
      rw [Outcome.bind_eq_ok] at hw
      obtain ⟨t, _, ht⟩ := hw
      cases ht
      rfl
  · intro hleaf fuel
    obtain ⟨hnk, hone, hpid, hch, hfa⟩ := hleaf
    have hkp : ¬ (some p = s1.kproc) := by
      rw [hk]; exact fun e => hnk e.symm
    have hleaf2 : LeafDestroyable
        { s1 with procs := Function.update s1.procs p (some
          { r with p_status := Int.land status 0xff, p_terminated := 1,
                   p_numthreads := r.p_numthreads - 1,
                   p_thread_list := (match unlink_thread s.curthread r.p_thread_list with
                     | some (_, rest) => rest
                     | none => r.p_thread_list),
                   p_sem := some n }) } p
        { r with p_status := Int.land status 0xff, p_terminated := 1,
                 p_numthreads := r.p_numthreads - 1,
                 p_thread_list := (match unlink_thread s.curthread r.p_thread_list with
                   | some (_, rest) => rest
                   | none => r.p_thread_list),
                 p_sem := some n } := by
      refine ⟨Function.update_same _ _ _, ?_, hch, ?_, hpid, by simp, ?_⟩
      · show s1.kproc ≠ some p
        rw [hk]; exact hnk
      · show r.p_numthreads - 1 = 0
        omega
      · rcases hfa with hf | ⟨fp, fr, node, rest, hf, hne, hfr, hun, hnl, hdis⟩
        · exact Or.inl hf
        · refine Or.inr ⟨fp, fr, node, rest, hf, hne, ?_, hun, ?_⟩
          · show Function.update s1.procs p _ fp = some fr
            rw [Function.update_noteq hne, hprocs, Function.update_noteq hne, hfr]
          · show s1.nodes node.addr = true
            rw [hnodes]
            cases hu : unlink_thread s.curthread r.p_thread_list with
            | none => exact hnl
            | some x =>
              obtain ⟨tn, trest⟩ := x
              have hd := hdis tn trest hu
              simp only
              rw [Function.update_noteq (fun e => hd e.symm), hnl]
    obtain ⟨t, ht, _, _⟩ := proc_destroy_leaf fuel _ p _ hleaf2
    refine ⟨t, ?_⟩
    rw [proc_wait_some, P_ok s1 p _ n hr1 rfl]
    simp only [hkp, if_false, Outcome.bind_ok, Kernel.getProc, Function.update_same]
    rw [ht]
    rfl

/-- Witness of C3: the child with pid 2 exits with status 300 and `proc_wait` on
it returns 44, that is 300 & 0xff. -/
theorem exit_status_roundtrip_witness :
    ∃ s1 s2, sys__exit 300 childExits = .ok s1 ∧ proc_wait 1 (some 2) s1 = .ok (44, s2) := by
  obtain ⟨s1, _, h1, _, _, _, _, _, _, hB⟩ :=
    exit_status_roundtrip 300 childExits 2 runningChild rfl rfl (by decide) (by decide)
      (by
        intro node rest h
        simp only [childExits, twoChildren, runningChild, proc0, unlink_thread, if_true,
          Option.some.injEq, Prod.mk.injEq] at h
        obtain ⟨rfl, _⟩ := h
        rfl)
  have hleaf : LeafAtExit childExits 2 runningChild :=
    ⟨by decide, rfl, by decide, rfl,
      Or.inr ⟨1, waitingParent, { addr := 12, p := 2 }, [{ addr := 13, p := 3 }], rfl, by decide,
        rfl, rfl, rfl, by
          intro tn trest h
          simp only [childExits, twoChildren, runningChild, proc0, unlink_thread, if_true,
            Option.some.injEq, Prod.mk.injEq] at h
          obtain ⟨rfl, _⟩ := h
          decide⟩⟩
  obtain ⟨s2, h2⟩ := hB hleaf 0
  exact ⟨s1, s2, h1, h2⟩

/-- C4 (the code at the failing input): for `fd = OPEN_MAX`, `sys_read`,
`sys_close` and `sys_lseek` return `EBADF` with the state unchanged, but
`sys_write` passes its check `fd > OPEN_MAX` and reads `fileTable[OPEN_MAX]`,
one entry past the end of the descriptor table. -/
theorem sys_write_indexes_past_table :
    sys_read os161Consts ioEnvOk 128 16 oneProcess = .ok (-1, some .EBADF, oneProcess) ∧
      sys_close os161Consts 128 oneProcess = .ok (.errno .EBADF, oneProcess) ∧
      sys_lseek os161Consts seekEnvOk 128 0 0 oneProcess = .ok (.errno .EBADF, none, oneProcess) ∧
      oneProcess.ftRead os161Consts 1 128 = .fault ∧
      sys_write os161Consts ioEnvOk 128 16 oneProcess = .fault :=
  ⟨by rfl, by rfl, by rfl, by rfl, by rfl⟩

/-- C5 (the code at the failing input): the caller has a running child with pid
2 and an exited child with pid 3.  `check_is_terminated` finds the exited child,
but `sys_waitpid(2, WNOHANG)` then calls `proc_wait` on the process with pid 2,
which has not terminated, and the caller goes to sleep on its semaphore. -/
theorem sys_waitpid_wnohang_sleeps :
    check_is_child 2 twoChildren = .ok 1 ∧
      (twoChildren.procs 2).map (fun r => (r.p_terminated, r.p_sem)) = some (0, some 0) ∧
      check_is_terminated twoChildren.curproc twoChildren = .ok (some 3) ∧
      proc_wait 2 (some 2) twoChildren = .sleeps ∧
      sys_waitpid os161Consts waitEnvOk 2 2 none os161Consts.WNOHANG twoChildren = .sleeps :=
  ⟨by rfl, by rfl, by rfl, by rfl, by rfl⟩

/-- C6 (the code at the failing input): after 100 allocations have filled the
table and `proc_end_waitpid` has released pid 100, slot 100 is empty, yet
`proc_init_waitpid` for a new record reaches its table-full panic: its scan
stops at `last_i` without looking at slot `last_i`. -/
theorem proc_init_waitpid_skips_last_i :
    TableReach releasedLast ∧ releasedLast.processTable.proc 100 = none ∧
      unregistered releasedLast 101 ∧
      proc_init_waitpid (some 0) 101 releasedLast = .panic :=
  ⟨TableReach.release _ _ 100 (filled_reach 100 101 (by decide) (by decide)) releasedLast_eq,
    by rfl, by decide, by rfl⟩

/-- C7: when `proc_verify_pid` finds no pid, `sys_fork` returns `ENPROC`, stores
nothing in `*retval`, and leaves the whole kernel state as it was: the process
table with `last_i`, every process record (so the children list and the
descriptor table of the caller), every open-file record, and no new record. -/
theorem sys_fork_no_pid (K : Consts) (env : ForkEnv) (fuel : Nat) (s : Kernel) (cp : Nat)
    (hcur : s.curproc = some cp) (h : proc_verify_pid s = .ok (-1)) :
    sys_fork K env fuel s = .ok (.errno .ENPROC, none, s) := by
  simp [sys_fork, hcur, h]

/-- Witness of C7: with the table full, `sys_fork` returns `ENPROC` and leaves the
state as it was. -/
theorem sys_fork_no_pid_witness :
    fullTable.curproc = some 1 ∧ proc_verify_pid fullTable = .ok (-1) ∧
      sys_fork os161Consts forkEnvOk 1 fullTable = .ok (.errno .ENPROC, none, fullTable) :=
  ⟨rfl, by rfl, sys_fork_no_pid os161Consts forkEnvOk 1 fullTable 1 rfl (by rfl)⟩

/-- C8 (the code at the failing inputs): when the `kmalloc` of the child node
fails, and when `std_init` fails in `proc_create_runprogram`, `sys_fork` returns
`ENOMEM` while slot 2 of the process table, empty before the call, still holds
the record of the would-be child. -/
theorem sys_fork_failure_keeps_child_slot :
    oneProcess.processTable.proc 2 = none ∧
      forkObservation (sys_fork os161Consts { forkEnvOk with kmalloc_child := none } 1 oneProcess) =
        some (.errno .ENOMEM, none, some none, some none, some (some (.heap 30)), 1, some 2,
          some 2) ∧
      forkObservation (sys_fork os161Consts
          { forkEnvOk with run := { forkEnvOk.run with std0 := { stdEnvOk 30 100 with kstrdup := false } } }
          1 oneProcess) =
        some (.errno .ENOMEM, none, some none, some (some (.sys 0)), some (some (.heap 20)), 1,
          none, some 2) :=
  ⟨by rfl, by rfl, by rfl⟩

/-- C9: for a valid descriptor whose slot references a live open-file record
(lock free, vnode present), `sys_close` returns 0, empties that slot, leaves
every other slot of the caller and every other process record unchanged,
lowers the reference count of the record by exactly 1 and changes no other
record, and calls `vfs_close` on the vnode (once) if and only if the count has
reached 0.  So when the count is 2 and a second descriptor (another slot, or
a slot of another process, whose thread is `th2`) references the same record,
the first close makes no call of `vfs_close` and the second makes exactly
one. -/
theorem sys_close_spec (K : Consts) (fd : Int) (s : Kernel) (cp : Nat) (r : proc) (f : OfPtr)
    (o : openfile) (v : Nat)
    (hcur : s.curproc = some cp) (hrec : s.procs cp = some r)
    (hfd : 0 ≤ fd ∧ fd < (K.OPEN_MAX : Int)) (hslot : r.fileTable fd.toNat = some f)
    (hof : s.getOf f = .ok o) (hlock : o.lock = .free) (hvn : o.vn = some v) :
    (∃ t, sys_close K fd s = .ok (.num 0, t) ∧
      (∃ u, t.procs cp = some u ∧ u.fileTable fd.toNat = none ∧
        ∀ k, k ≠ fd.toNat → u.fileTable k = r.fileTable k) ∧
      (∀ q, q ≠ cp → t.procs q = s.procs q) ∧
      (∃ o', t.getOf f = .ok o' ∧ o'.countRef = o.countRef - 1 ∧ o'.vn = o.vn ∧
        o'.offset = o.offset ∧ o'.mode_open = o.mode_open) ∧
      (∀ g, g ≠ f → t.getOf g = s.getOf g) ∧
      t.events =
        (if o.countRef - 1 = 0 then [.lock_destroy f, .vfs_close v] else []) ++ s.events) ∧
    (∀ (th2 cp2 : Nat) (r2 : proc) (fd2 : Int), o.countRef = 2 →
      s.t_proc th2 = some cp2 → s.procs cp2 = some r2 →
      0 ≤ fd2 ∧ fd2 < (K.OPEN_MAX : Int) → r2.fileTable fd2.toNat = some f →
      (cp2 ≠ cp ∨ fd2 ≠ fd) →
      ∃ t1 t2, sys_close K fd s = .ok (.num 0, t1) ∧ t1.events = s.events ∧
        sys_close K fd2 { t1 with curthread := th2 } = .ok (.num 0, t2) ∧
        t2.events = [.lock_destroy f, .vfs_close v] ++ s.events) := by
  obtain ⟨t, ht, hprocs, hget, hother, hev, htp, _⟩ :=
    sys_close_ok K fd s cp r f o v hcur hrec hfd hslot hof hlock hvn
  refine ⟨⟨t, ht, ⟨_, by rw [hprocs, Function.update_same], by simp, ?_⟩, ?_,
    ⟨_, hget, rfl, rfl, rfl, rfl⟩, hother, hev⟩, ?_⟩
  · intro k hk
    simp [Function.update_noteq hk]
  · intro q hq
    rw [hprocs, Function.update_noteq hq]
  · intro th2 cp2 r2 fd2 hcnt htp2 hrec2 hfd2 hslot2 hne
    have hz : ¬ (o.countRef - 1 = 0) := by omega
    simp only [hz, if_false, List.nil_append] at hev hget
    have hget2 : ({ t with curthread := th2 } : Kernel).getOf f =
        .ok { o with countRef := o.countRef - 1, lock := .free } := by
      rw [← hget]; cases f <;> rfl
    have hcur2 : ({ t with curthread := th2 } : Kernel).curproc = some cp2 := by
      simp [Kernel.curproc, htp, htp2]
    have hrec2' : ∃ u, ({ t with curthread := th2 } : Kernel).procs cp2 = some u ∧
        u.fileTable fd2.toNat = some f := by
      by_cases hc : cp2 = cp
      · subst hc
        have hfdne : fd2.toNat ≠ fd.toNat := by
          rcases hne with h | h
          · exact absurd rfl h
          · omega
        rw [hrec] at hrec2
        cases hrec2
        refine ⟨{ r with fileTable := Function.update r.fileTable fd.toNat none }, ?_, ?_⟩
        · show t.procs cp2 = _
          rw [hprocs, Function.update_same]
        · show Function.update r.fileTable fd.toNat none fd2.toNat = some f
          rw [Function.update_noteq hfdne, hslot2]
      · refine ⟨r2, ?_, hslot2⟩
        show t.procs cp2 = _
        rw [hprocs, Function.update_noteq hc, hrec2]
    obtain ⟨u, hu, huslot⟩ := hrec2'
    obtain ⟨t2, ht2, _, _, _, hev2, _, _⟩ :=
      sys_close_ok K fd2 { t with curthread := th2 } cp2 u f _ v hcur2 hu hfd2 huslot hget2 rfl hvn
    refine ⟨t, t2, ht, hev, ht2, ?_⟩
    rw [hev2]
    have : o.countRef - 1 - 1 = 0 := by omega
    simp [this, hev]

/-- Witness of C9: closing descriptor 3 of `oneProcess`, the only reference to its
file, returns 0 and closes the vnode once. -/
theorem sys_close_spec_witness :
    ∃ t, sys_close os161Consts 3 oneProcess = .ok (.num 0, t) ∧
      t.events = [.lock_destroy (.sys 0), .vfs_close 7] :=
  (sys_close_spec os161Consts 3 oneProcess 1 shProc (.sys 0) shFile 7 rfl rfl (by decide) rfl rfl
    rfl rfl).1.imp (fun _ h => ⟨h.1, h.2.2.2.2.2⟩)

/-- C10 (the code at the failing input): after 100 allocations the record at
address 100 is registered with pid `MAX_PROC`, and `proc_search_pid` on that
pid fails its assertion `pid < MAX_PROC`. -/
theorem proc_search_pid_max_proc_panics :
    TableReach (filled 100 100) ∧ (filled 100 100).processTable.proc 100 = some 100 ∧
      ((filled 100 100).procs 100).map (fun r => r.p_pid) = some 100 ∧
      proc_search_pid 100 (filled 100 100) = .panic :=
  ⟨filled_reach 100 100 (by decide) (by decide), by rfl, by rfl, by rfl⟩

/-- C11 (the code at the failing inputs): in `oneProcess` only slot 1 of the
table is occupied.  For pid 101 `proc_search_pid` returns `NULL` and
`check_is_child` returns -1, but for pid 5 and pid 0, whose slots are empty,
`proc_search_pid` reads `p->p_pid` with `p == NULL`, for pid -1 its assertion
fails, and `check_is_child` does not return -1 for any of them. -/
theorem proc_search_pid_empty_slot_faults :
    oneProcess.processTable.proc 5 = none ∧ oneProcess.processTable.proc 0 = none ∧
      proc_search_pid 101 oneProcess = .ok none ∧ check_is_child 101 oneProcess = .ok (-1) ∧
      proc_search_pid 5 oneProcess = .fault ∧ check_is_child 5 oneProcess = .fault ∧
      proc_search_pid 0 oneProcess = .fault ∧ check_is_child 0 oneProcess = .fault ∧
      proc_search_pid (-1) oneProcess = .panic ∧ check_is_child (-1) oneProcess = .panic :=
  ⟨rfl, rfl, by rfl, by rfl, by rfl, by rfl, by rfl, by rfl, by rfl, by rfl⟩

/-- C12 (the code at the failing input): `proc_bootstrap` at boot, with the
record of the kernel process placed at address 1.  Afterwards `kproc` is that
record, slot 1 of the process table holds it, `last_i` is 1 and its `p_pid` is
1; the first process created next receives pid 2. -/
theorem proc_bootstrap_registers_kproc :
    bootObservation (proc_bootstrap (createEnvOk 1) boot) =
      some (some 1, some 1, 1, some 1, some 2) := by
  rfl

/-- C13: on every state, for a live record `p`, `proc_verify_pid` returns 0
exactly when `proc_init_waitpid` assigns a pid, returns -1 exactly when
`proc_init_waitpid` reaches its table-full panic, and its scan fails to exit
exactly when that of `proc_init_waitpid` does; its result depends on the
process table only.  (The function has no write to the table: its embedding
returns a value and no state.) -/
theorem proc_verify_pid_agrees (s : Kernel) (sem : Option Nat) (p : Nat) (r : proc)
    (hp : s.procs p = some r) :
    (proc_verify_pid s = .ok 0 ↔ ∃ t, proc_init_waitpid sem p s = .ok t) ∧
    (proc_verify_pid s = .ok (-1) ↔ proc_init_waitpid sem p s = .panic) ∧
    (proc_verify_pid s = .diverges ↔ proc_init_waitpid sem p s = .diverges) ∧
    (∀ u : Kernel, u.processTable = s.processTable → proc_verify_pid u = proc_verify_pid s) := by
  have hi0 : 1 ≤ (if s.processTable.last_i + 1 > MAX_PROC then 1
      else s.processTable.last_i + 1) := by split <;> omega
  have hinit : proc_init_waitpid sem p s =
      (proc_verify_pid_loop s (MAX_PROC + 1)
          (if s.processTable.last_i + 1 > MAX_PROC then 1 else s.processTable.last_i + 1) >>=
        fun j => if j = 0 then .panic
          else .ok { s with
            processTable := { s.processTable with
              proc := Function.update s.processTable.proc j (some p), last_i := j },
            procs := Function.update s.procs p
              (some { r with p_pid := (j : Int), p_status := 0, p_sem := sem }) }) := by
    simp only [proc_init_waitpid, Kernel.modProc, hp, Outcome.bind_ok]
    rw [proc_init_waitpid_loop_eq_scan p _ _ _ hi0,
      proc_verify_pid_loop_congr s
        { s with procs := Function.update s.procs p (some { r with p_pid := 0 }) } rfl]
    rcases proc_verify_pid_loop_cases s (MAX_PROC + 1)
        (if s.processTable.last_i + 1 > MAX_PROC then 1 else s.processTable.last_i + 1)
      with hd | ⟨j, hj⟩
    · rw [hd]; rfl
    · rw [hj]
      by_cases hj0 : j = 0
      · simp [hj0, Kernel.getProc]
      · have hj1 : ¬ ((j : Int) = 0) := by omega
        simp [hj0, hj1, Kernel.getProc, Kernel.modProc]
  have hver : proc_verify_pid s =
      (proc_verify_pid_loop s (MAX_PROC + 1)
          (if s.processTable.last_i + 1 > MAX_PROC then 1 else s.processTable.last_i + 1) >>=
        fun j => if j = 0 then .ok (-1) else .ok 0) := rfl
  refine ⟨?_, ?_, ?_, ?_⟩
  · rw [hinit, hver]
    rcases proc_verify_pid_loop_cases s (MAX_PROC + 1)
        (if s.processTable.last_i + 1 > MAX_PROC then 1 else s.processTable.last_i + 1)
      with hd | ⟨j, hj⟩
    · rw [hd]; simp
    · rw [hj]; by_cases hj0 : j = 0 <;> simp [hj0]
  · rw [hinit, hver]
    rcases proc_verify_pid_loop_cases s (MAX_PROC + 1)
        (if s.processTable.last_i + 1 > MAX_PROC then 1 else s.processTable.last_i + 1)
      with hd | ⟨j, hj⟩
    · rw [hd]; simp
    · rw [hj]; by_cases hj0 : j = 0 <;> simp [hj0]
  · rw [hinit, hver]
    rcases proc_verify_pid_loop_cases s (MAX_PROC + 1)
        (if s.processTable.last_i + 1 > MAX_PROC then 1 else s.processTable.last_i + 1)
      with hd | ⟨j, hj⟩
    · rw [hd]; simp
    · rw [hj]; by_cases hj0 : j = 0 <;> simp [hj0]
  · intro u hu
    simp only [proc_verify_pid, hu, proc_verify_pid_loop_congr s u hu]

/-- Witness of C13: in the state after two allocations, with a third record
live, `proc_verify_pid` returns 0 and `proc_init_waitpid` assigns a pid. -/
theorem proc_verify_pid_agrees_witness :
    (filled 2 3).procs 3 = some proc0 ∧ proc_verify_pid (filled 2 3) = .ok 0 ∧
      ∃ t, proc_init_waitpid (some 0) 3 (filled 2 3) = .ok t :=
  ⟨rfl, by rfl, (proc_verify_pid_agrees (filled 2 3) (some 0) 3 proc0 rfl).1.mp (by rfl)⟩

/-- C14: `proc_destroy` of a process that is not the kernel process, has no
attached thread and an empty children list (and is a live record with a pid of
the table, a semaphore and, when it has a parent, a live node in the children
list of that parent) returns.  Afterwards its record is released, its table
slot is empty and every other slot and `last_i` are unchanged, `VOP_DECREF`
has been called on its working directory and `as_destroy` on its address
space (after `as_deactivate` when it is the current process), the children
list of its parent has lost the first node that references it, the nodes
before and after staying in their order, and every other record is
unchanged. -/
theorem proc_destroy_leaf_spec (fuel : Nat) (s : Kernel) (p : Nat) (r : proc)
    (h : LeafDestroyable s p r) :
    ∃ t, proc_destroy (fuel + 1) (some p) s = .ok t ∧
      t.procs p = none ∧
      t.processTable.proc r.p_pid.toNat = none ∧
      (∀ i, i ≠ r.p_pid.toNat → t.processTable.proc i = s.processTable.proc i) ∧
      t.processTable.last_i = s.processTable.last_i ∧
      t.events =
        (match r.p_addrspace with
          | some a => if s.curproc = some p then [.as_destroy a, .as_deactivate]
                      else [.as_destroy a]
          | none => []) ++
        (match r.p_cwd with
          | some v => [.vop_decref v]
          | none => []) ++ s.events ∧
      (∀ fp, r.p_father_proc = some fp →
        ∃ fr pre node post, s.procs fp = some fr ∧ fr.p_children_list = pre ++ node :: post ∧
          node.p = p ∧ (∀ c ∈ pre, c.p ≠ p) ∧
          t.procs fp = some { fr with p_children_list := pre ++ post }) ∧
      (∀ q, q ≠ p → r.p_father_proc ≠ some q → t.procs q = s.procs q) := by
  obtain ⟨t, ht, htab, hev, hnone, hsome, _⟩ := proc_destroy_leaf_state fuel s p r h
  have hfa := h.father
  refine ⟨t, ht, ?_, ?_, ?_, ?_, hev, ?_, ?_⟩
  · rcases hfa with hf | ⟨fp, fr, node, rest, hf, _, hfr, hun, _⟩
    · rw [(hnone hf).1, Function.update_same]
    · rw [(hsome fp fr node rest hf hfr hun).1, Function.update_same]
  · rw [htab]; exact Function.update_same _ _ _
  · intro i hi
    rw [htab]; exact Function.update_noteq hi _ _
  · rw [htab]
  · intro fp hf
    rcases hfa with hf0 | ⟨fp1, fr, node, rest, hf1, hne, hfr, hun, _⟩
    · rw [hf0] at hf; cases hf
    · rw [hf1] at hf
      cases hf
      obtain ⟨pre, post, h1, h2, h3, h4⟩ := unlink_child_spec p _ _ _ hun
      refine ⟨fr, pre, node, post, hfr, h1, h3, h4, ?_⟩
      rw [(hsome fp fr node rest hf1 hfr hun).1, Function.update_noteq hne,
        Function.update_same, h2]
  · intro q hq hfq
    rcases hfa with hf0 | ⟨fp1, fr, node, rest, hf1, hne, hfr, hun, _⟩
    · rw [(hnone hf0).1, Function.update_noteq hq]
    · have hqf : q ≠ fp1 := fun e => hfq (e ▸ hf1)
      rw [(hsome fp1 fr node rest hf1 hfr hun).1, Function.update_noteq hq,
        Function.update_noteq hqf]

/-- Witness of C14: the exited child with pid 3 of `twoChildren` is destroyed;
its record is released and slot 3 of the table is empty. -/
theorem proc_destroy_leaf_spec_witness :
    ∃ t, proc_destroy 1 (some 3) twoChildren = .ok t ∧ t.procs 3 = none ∧
      t.processTable.proc 3 = none :=
  (proc_destroy_leaf_spec 0 twoChildren 3 exitedChild
    ⟨rfl, by decide, rfl, rfl, by decide, by decide,
      Or.inr ⟨1, waitingParent, { addr := 13, p := 3 }, [{ addr := 12, p := 2 }], rfl,
        by decide, rfl, rfl, rfl⟩⟩).imp
    (fun _ h => ⟨h.1, h.2.1, h.2.2.1⟩)

/-- C15: `proc_destroy` on a live process with attached threads never
completes, whatever the state and the fuel.  In the state in which the code
evaluates `KASSERT(proc->p_numthreads == 0)` the record is live with its
thread count and pid, the call panics there, and, when no other live record
has the same pid, the slot of the process table is as it was.  For a process
without children whose parent, if any, has a node for it, the assertion is
reached and the call panics. -/
theorem proc_destroy_attached_threads (fuel p : Nat) (s : Kernel) (r : proc)
    (hlive : s.procs p = some r) (hthreads : r.p_numthreads ≠ 0) :
    (∀ t, proc_destroy fuel (some p) s ≠ .ok t) ∧
    (∀ u, proc_destroy_before_check fuel p s = .ok u →
      proc_destroy (fuel + 1) (some p) s = .panic ∧
      (∃ r1, u.procs p = some r1 ∧ r1.p_numthreads = r.p_numthreads ∧ r1.p_pid = r.p_pid) ∧
      ((∀ q rq, q ≠ p → s.procs q = some rq → rq.p_pid ≠ r.p_pid) →
        u.processTable.proc r.p_pid.toNat = s.processTable.proc r.p_pid.toNat)) ∧
    (r.p_children_list = [] →
      (r.p_father_proc = none ∨
        ∃ fp fr node rest, r.p_father_proc = some fp ∧ fp ≠ p ∧ s.procs fp = some fr ∧
          unlink_child p fr.p_children_list = some (node, rest) ∧ s.nodes node.addr = true) →
      proc_destroy (fuel + 1) (some p) s = .panic) := by
  have hpin : ∀ g : Prop, (g → ∀ q rq, q ≠ p → s.procs q = some rq → rq.p_pid ≠ r.p_pid) →
      Pinned g p r.p_numthreads r.p_pid (s.processTable.proc r.p_pid.toNat) s :=
    fun g hg => ⟨⟨r, hlive, rfl, rfl⟩, hg, fun _ => rfl⟩
  have hpanic : ∀ u, proc_destroy_before_check fuel p s = .ok u →
      proc_destroy (fuel + 1) (some p) s = .panic ∧
      (∃ r1, u.procs p = some r1 ∧ r1.p_numthreads = r.p_numthreads ∧ r1.p_pid = r.p_pid) ∧
      ((∀ q rq, q ≠ p → s.procs q = some rq → rq.p_pid ≠ r.p_pid) →
        u.processTable.proc r.p_pid.toNat = s.processTable.proc r.p_pid.toNat) := by
    intro u hu
    have pu := Pinned.proc_destroy_before_check fuel
      (fun q s t hs ht => (proc_destroy_pinned hthreads fuel q s t hs ht).2) p s u
      (hpin False (fun h => h.elim)) hu
    obtain ⟨r1, hr1, hn1, hk1⟩ := pu.live
    refine ⟨?_, ⟨r1, hr1, hn1, hk1⟩, ?_⟩
    · rw [proc_destroy_eq_before_check]
      split
      · rfl
      · have hne : r1.p_numthreads ≠ 0 := by rw [hn1]; exact hthreads
        simp [hu, Kernel.getProc, hr1, hne]
    · intro hun
      exact (Pinned.proc_destroy_before_check fuel
        (fun q s t hs ht => (proc_destroy_pinned hthreads fuel q s t hs ht).2) p s u
        (hpin True (fun _ => hun)) hu).slot trivial
  refine ⟨?_, hpanic, ?_⟩
  · intro t ht
    exact (proc_destroy_pinned hthreads fuel p s t (hpin False (fun h => h.elim)) ht).1 rfl
  · intro hch hfa
    have hret : ∃ u, proc_destroy_before_check fuel p s = .ok u := by
      rw [proc_destroy_before_check_eq]
      rcases hfa with hf | ⟨fp, fr, node, rest, hf, hne, hfr, hun, hnode⟩
      · by_cases hcp : s.t_proc s.curthread = some p
        · cases hc : r.p_cwd <;> cases ha : r.p_addrspace <;>
            simp [Kernel.getProc, Kernel.modProc, Kernel.emit, hlive, hc, ha, hch, hcp,
              Kernel.curproc, proc_destroy_loop, hf]
        · have hcp2 : ¬ (some p = s.t_proc s.curthread) := fun e => hcp e.symm
          cases hc : r.p_cwd <;> cases ha : r.p_addrspace <;>
            simp [Kernel.getProc, Kernel.modProc, Kernel.emit, hlive, hc, ha, hch, hcp, hcp2,
              Kernel.curproc, proc_destroy_loop, hf]
      · have hne2 : ¬ (p = fp) := fun e => hne e.symm
        by_cases hcp : s.t_proc s.curthread = some p
        · cases hc : r.p_cwd <;> cases ha : r.p_addrspace <;>
            simp [Kernel.getProc, Kernel.modProc, Kernel.emit, hlive, hc, ha, hch, hcp,
              Kernel.curproc, proc_destroy_loop, hf, proc_remove_proc, Function.update_apply,
              hne, hne2, hfr, hun, Kernel.kfreeNode, hnode]
        · have hcp2 : ¬ (some p = s.t_proc s.curthread) := fun e => hcp e.symm
          cases hc : r.p_cwd <;> cases ha : r.p_addrspace <;>
            simp [Kernel.getProc, Kernel.modProc, Kernel.emit, hlive, hc, ha, hch, hcp, hcp2,
              Kernel.curproc, proc_destroy_loop, hf, proc_remove_proc, Function.update_apply,
              hne, hne2, hfr, hun, Kernel.kfreeNode, hnode]
    obtain ⟨u, hu⟩ := hret
    exact (hpanic u hu).1

/-- C15 at a concrete state: in `twoChildren`, `proc_destroy` of the child with
pid 2, which still runs a thread, panics. -/
theorem proc_destroy_attached_threads_witness :
    proc_destroy 3 (some 2) twoChildren = .panic :=
  (proc_destroy_attached_threads 2 2 twoChildren runningChild rfl (by decide)).2.2 rfl
    (Or.inr ⟨1, waitingParent, { addr := 12, p := 2 }, [{ addr := 13, p := 3 }], rfl, by decide,
      rfl, rfl, rfl⟩)

/-- C16: in a state whose links are well formed (the invariant of the
specification, strengthened by: a parent is live, a process that a children
list references is live, and no list has a node for a process that is not a
child), the invariant of the specification holds, every return of `sys_fork`
(for a new record at an address that holds no live record) leaves the links
well formed, and so does every return of `proc_destroy`. -/
theorem link_invariant_preserved (s : Kernel) (hinv : LinkInv s) :
    link_invariant s ∧
    (∀ (K : Consts) (env : ForkEnv) (fuel : Nat) (rv : RetVal) (pid : Option Int) (t : Kernel),
      (∀ a, env.run.create.kmalloc = some a → s.procs a = none) →
      sys_fork K env fuel s = .ok (rv, pid, t) → LinkInv t ∧ link_invariant t) ∧
    (∀ (fuel : Nat) (p : Option Nat) (t : Kernel),
      proc_destroy fuel p s = .ok t → LinkInv t ∧ link_invariant t) := by
  refine ⟨hinv.link_invariant, ?_, ?_⟩
  · intro K env fuel rv pid t hfresh h
    have := sys_fork_links K env fuel s t rv pid hinv hfresh h
    exact ⟨this, this.link_invariant⟩
  · intro fuel p t h
    cases p with
    | none =>
      cases fuel <;> simp [proc_destroy] at h
    | some q =>
      have := (proc_destroy_links fuel q s t hinv h).1
      exact ⟨this, this.link_invariant⟩

/-- C16 at a concrete state: `sys_fork` in `oneProcess` returns 0 and the
child, the process at address 2, has the caller as parent and exactly one
node in the children list of the caller. -/
theorem link_invariant_preserved_witness :
    ∃ pid t rc rp, sys_fork os161Consts forkEnvOk 1 oneProcess = .ok (.num 0, pid, t) ∧
      link_invariant t ∧ t.procs 2 = some rc ∧ t.procs 1 = some rp ∧
      rc.p_father_proc = some 1 ∧
      (rp.p_children_list.filter (fun n => n.p = 2)).length = 1 := by
  have h : ∃ pid t, sys_fork os161Consts forkEnvOk 1 oneProcess = .ok (.num 0, pid, t) :=
    ⟨_, _, rfl⟩
  obtain ⟨pid, t, ht⟩ := h
  have hl := ((link_invariant_preserved oneProcess LinkInv_oneProcess).2.1 os161Consts forkEnvOk 1
    _ pid t (by intro a ha; cases ha; rfl) ht).2
  have h2 : ∃ rc, t.procs 2 = some rc ∧ rc.p_father_proc = some 1 := by
    have e : (sys_fork os161Consts forkEnvOk 1 oneProcess).val?.map
        (fun x => (x.2.2.procs 2).map (fun r => r.p_father_proc)) = some (some (some 1)) := rfl
    rw [ht] at e
    simp only [Outcome.val?, Option.map_some', Option.some.injEq] at e
    cases hr : t.procs 2 with
    | none => simp [hr] at e
    | some rc =>
      simp only [hr, Option.map_some', Option.some.injEq] at e
      exact ⟨rc, rfl, e⟩
  have h1 : ∃ rp, t.procs 1 = some rp := by
    have e : (sys_fork os161Consts forkEnvOk 1 oneProcess).val?.map
        (fun x => (x.2.2.procs 1).isSome) = some true := rfl
    rw [ht] at e
    simp only [Outcome.val?, Option.map_some', Option.some.injEq] at e
    cases hr : t.procs 1 with
    | none => simp [hr] at e
    | some rp => exact ⟨rp, rfl⟩
  obtain ⟨rc, hrc, hfa⟩ := h2
  obtain ⟨rp, hrp⟩ := h1
  exact ⟨pid, t, rc, rp, ht, hl, hrc, hrp, hfa, (hl 2 1 rc rp hrc hrp).mp hfa⟩

/-- C17 (the code at three failing inputs): with every entry of
`systemFileTable` in use `sys_open` returns the value `ENFILE`, with every
descriptor of the caller in use it returns `EMFILE`, and for the access mode 3
it returns `EINVAL`; in the three cases the return value is not -1 and
nothing is stored in `*errp`. -/
theorem sys_open_returns_errno_value :
    openObservation (sys_open os161Consts openEnvOk 4096 0 fullRegistry) =
        some (.errno .ENFILE, none, some (some (.sys 0)), some none) ∧
      openObservation (sys_open os161Consts openEnvOk 4096 0 fullDescriptors) =
        some (.errno .EMFILE, none, some (some (.sys 0)), some (some (.sys 0))) ∧
      openObservation (sys_open os161Consts openEnvOk 4096 3 oneProcess) =
        some (.errno .EINVAL, none, some (some (.sys 0)), some none) :=
  ⟨by rfl, by rfl, by rfl⟩

/-- C18: when `sys_open` returns a descriptor, it is the smallest index from
3 below `OPEN_MAX` whose slot of the caller was empty; that slot now
references an entry of `systemFileTable` that was free (the first one whose
`vn` was `NULL`) and every other slot of every process is as before; the
entry holds the new vnode, reference count 1, a free lock, the access mode
`openflags & O_ACCMODE` and the offset 0, or `st_size` when `O_APPEND` is set;
every other entry is as before, and `*errp` is 0. -/
theorem sys_open_success (K : Consts) (env : OpenEnv) (path : Nat) (openflags : Int)
    (s t : Kernel) (fd : Int) (e : Option Errno) (hK : 3 ≤ K.OPEN_MAX)
    (h : sys_open K env path openflags s = .ok (.num fd, e, t)) (hfd : 0 ≤ fd) :
    ∃ cp r i, s.curproc = some cp ∧ s.procs cp = some r ∧
      3 ≤ fd ∧ fd < (K.OPEN_MAX : Int) ∧ r.fileTable fd.toNat = none ∧
      (∀ j, 3 ≤ j → j < fd.toNat → r.fileTable j ≠ none) ∧
      t.procs = Function.update s.procs cp (some
        { r with fileTable := Function.update r.fileTable fd.toNat (some (.sys i)) }) ∧
      i < 10 * K.OPEN_MAX ∧ (s.systemFileTable i).vn = none ∧
      (∀ j, j < i → (s.systemFileTable j).vn ≠ none) ∧
      t.systemFileTable = Function.update s.systemFileTable i
        { vn := some env.v,
          offset := if Int.land openflags K.O_APPEND ≠ 0 then env.st_size else 0,
          mode_open := Int.land openflags K.O_ACCMODE, lock := .free, countRef := 1 } ∧
      e = some (.code 0) ∧ t.ofheap = s.ofheap := by
  unfold sys_open at h
  split at h
  · simp only [Outcome.ok.injEq, Prod.mk.injEq, RetVal.num.injEq] at h; omega
  split at h
  · simp only [Outcome.ok.injEq, Prod.mk.injEq, RetVal.num.injEq] at h; omega
  split at h
  · simp only [Outcome.ok.injEq, Prod.mk.injEq, RetVal.num.injEq] at h; omega
  split at h
  · simp only [Outcome.ok.injEq, Prod.mk.injEq, RetVal.num.injEq] at h; omega
  split at h
  · simp only [Outcome.ok.injEq, Prod.mk.injEq, RetVal.num.injEq] at h; omega
  rcases sys_open_registry_loop_spec env.v (10 * K.OPEN_MAX) 0 s with
    ⟨k, _, hk2, hk3, hk4, hk5⟩ | ⟨_, hnone⟩
  · simp only [hk5] at h
    cases hcp : s.curproc with
    | none =>
      simp only [Outcome.bind_eq_ok] at h
      obtain ⟨⟨fd1, s2⟩, hloop, h⟩ := h
      rcases sys_open_fd_loop_spec K (.sys k) _ _ _ _ _ hloop with
        ⟨h1, _⟩ | ⟨cp, r, hc, _⟩
      · have : fd1 = K.OPEN_MAX := by omega
        simp [this] at h
      · rw [Kernel.setOf_curproc, hcp] at hc
        cases hc
    | some cp =>
      simp only [Outcome.bind_eq_ok] at h
      obtain ⟨⟨fd1, s2⟩, hloop, h⟩ := h
      rcases sys_open_fd_loop_spec K (.sys k) _ _ _ _ _ hloop with
        ⟨h1, _⟩ | ⟨cp2, r, hc, hr, h1, h2, h3, h4, h5, rfl⟩
      · have : fd1 = K.OPEN_MAX := by omega
        simp [this] at h
      · rw [Kernel.setOf_curproc, hcp] at hc
        cases hc
        have hne : fd1 ≠ K.OPEN_MAX := by omega
        simp only [Kernel.setOf_procs] at hr
        simp only [hne, if_false] at h
        split at h
        · rename_i happ
          split at h
          · simp only [Outcome.bind_eq_ok] at h
            obtain ⟨s1, _, h⟩ := h
            simp only [Outcome.ok.injEq, Prod.mk.injEq, RetVal.num.injEq] at h
            omega
          · simp only [Kernel.modOf_sys, Outcome.bind_ok] at h
            obtain ⟨rfl, rfl, h6, h7, h8⟩ := sys_open_mode_num K env k fd1 openflags _ t fd e hfd h
            refine ⟨cp, r, k, rfl, hr, by omega, by omega, by simpa using h4, ?_, ?_, by omega,
              hk3, fun j hj => hk4 j (by omega) hj, ?_, rfl, ?_⟩
            · intro j hj1 hj2
              exact h5 j hj1 (by simpa using hj2)
            · rw [h7]; simp [Kernel.setOf]
            · rw [h6]; simp [Kernel.setOf, happ]
            · rw [h8]; simp [Kernel.setOf]
        · rename_i happ
          simp only [Kernel.modOf_sys, Outcome.bind_ok] at h
          obtain ⟨rfl, rfl, h6, h7, h8⟩ := sys_open_mode_num K env k fd1 openflags _ t fd e hfd h
          refine ⟨cp, r, k, rfl, hr, by omega, by omega, by simpa using h4, ?_, ?_, by omega,
            hk3, fun j hj => hk4 j (by omega) hj, ?_, rfl, ?_⟩
          · intro j hj1 hj2
            exact h5 j hj1 (by simpa using hj2)
          · rw [h7]; simp [Kernel.setOf]
          · rw [h6]; simp [Kernel.setOf, happ]
          · rw [h8]; simp [Kernel.setOf]
  · simp [hnone] at h

/-- C18 at a concrete state: in `oneProcess`, whose descriptors 0 to 3 are in
use and whose registry entry 0 is in use, `sys_open` for writing returns
descriptor 4, which references registry entry 1, that was free. -/
theorem sys_open_success_witness :
    ∃ t i, sys_open os161Consts openEnvOk 4096 1 oneProcess = .ok (.num 4, some (.code 0), t) ∧
      (oneProcess.systemFileTable i).vn = none ∧
      t.systemFileTable = Function.update oneProcess.systemFileTable i
        { vn := some 9, offset := 0, mode_open := 1, lock := .free, countRef := 1 } ∧
      t.procs = Function.update oneProcess.procs 1 (some
        { shProc with fileTable := Function.update shProc.fileTable 4 (some (.sys i)) }) := by
  have h : ∃ t, sys_open os161Consts openEnvOk 4096 1 oneProcess =
      .ok (.num 4, some (.code 0), t) := ⟨_, rfl⟩
  obtain ⟨t, ht⟩ := h
  obtain ⟨cp, r, i, hcp, hr, _, _, _, _, hp, _, hv, _, hs, _, _⟩ :=
    sys_open_success os161Consts openEnvOk 4096 1 oneProcess t 4 _ (by decide) ht (by decide)
  have hcp1 : cp = 1 := by
    have : oneProcess.curproc = some 1 := rfl
    rw [this] at hcp
    exact (Option.some.inj hcp).symm
  subst hcp1
  have hr1 : r = shProc := by
    have : oneProcess.procs 1 = some shProc := rfl
    rw [this] at hr
    exact (Option.some.inj hr).symm
  subst hr1
  exact ⟨t, i, ht, hv, hs, hp⟩

/-- C19: a process returned by `proc_create_runprogram` has, in its slots 0, 1
and 2, the three records that `std_init` obtained from `kmalloc` (distinct
addresses), each with a console vnode, offset 0, a free lock, reference count
1 and the modes `O_RDONLY`, `O_WRONLY`, `O_WRONLY`; every slot from 3 on is
empty.  A process returned by `proc_create` has every slot empty, and so has
the kernel process that `proc_bootstrap` creates. -/
theorem proc_create_runprogram_std (K : Consts) (env : RunEnv) (name : String) (s t : Kernel)
    (np : Nat) (h : proc_create_runprogram K env name s = .ok (some np, t))
    (h01 : env.std0.kmalloc ≠ env.std1.kmalloc) (h02 : env.std0.kmalloc ≠ env.std2.kmalloc)
    (h12 : env.std1.kmalloc ≠ env.std2.kmalloc) :
    (∃ r a0 a1 a2 v0 v1 v2, t.procs np = some r ∧
      env.std0.kmalloc = some a0 ∧ env.std1.kmalloc = some a1 ∧ env.std2.kmalloc = some a2 ∧
      r.fileTable 0 = some (.heap a0) ∧ r.fileTable 1 = some (.heap a1) ∧
      r.fileTable 2 = some (.heap a2) ∧ (∀ fd, 3 ≤ fd → r.fileTable fd = none) ∧
      t.ofheap a0 = some
        { vn := some v0, offset := 0, mode_open := K.O_RDONLY, lock := .free, countRef := 1 } ∧
      t.ofheap a1 = some
        { vn := some v1, offset := 0, mode_open := K.O_WRONLY, lock := .free, countRef := 1 } ∧
      t.ofheap a2 = some
        { vn := some v2, offset := 0, mode_open := K.O_WRONLY, lock := .free, countRef := 1 }) ∧
    (∀ (cenv : CreateEnv) (nm : String) (u w : Kernel) (a : Nat),
      proc_create cenv nm u = .ok (some a, w) →
        ∃ r, w.procs a = some r ∧ ∀ fd, r.fileTable fd = none) ∧
    (∀ (cenv : CreateEnv) (u w : Kernel), proc_bootstrap cenv u = .ok w →
      ∃ kp r, w.kproc = some kp ∧ w.procs kp = some r ∧ ∀ fd, r.fileTable fd = none) := by
  have hcreate : ∀ (cenv : CreateEnv) (nm : String) (u w : Kernel) (a : Nat),
      proc_create cenv nm u = .ok (some a, w) →
        ∃ r, w.procs a = some r ∧ ∀ fd, r.fileTable fd = none := by
    intro cenv nm u w a hc
    obtain ⟨_, j, _, _, _, rfl⟩ := proc_create_ok hc
    exact ⟨_, Function.update_same _ _ _, fun _ => rfl⟩
  refine ⟨?_, hcreate, ?_⟩
  · unfold proc_create_runprogram at h
    simp only [Outcome.bind_eq_ok] at h
    obtain ⟨⟨newproc, s1⟩, hc, h⟩ := h
    cases newproc with
    | none => simp at h
    | some q =>
      simp only [Outcome.bind_eq_ok] at h
      obtain ⟨s2, hs2, ⟨r0, s3⟩, hi0, h⟩ := h
      simp only at h
      split at h
      · simp at h
      · rename_i hr0
        simp only [Outcome.bind_eq_ok] at h
        obtain ⟨⟨r1, s4⟩, hi1, h⟩ := h
        simp only at h
        split at h
        · simp at h
        · rename_i hr1
          simp only [Outcome.bind_eq_ok] at h
          obtain ⟨⟨r2, s5⟩, hi2, h⟩ := h
          simp only at h
          split at h
          · simp at h
          · rename_i hr2
            obtain ⟨rc, hrc, hnone⟩ := hcreate _ _ _ _ _ hc
            rw [Kernel.modProc_eq_ok] at hs2
            obtain ⟨rc2, hrc2, rfl⟩ := hs2
            rw [hrc] at hrc2
            cases hrc2
            obtain ⟨a0, v0, q0, hk0, _, hq0, _, _, hp0, ho0, _, ht0, hc0, _⟩ := std_init_ok hi0 hr0
            obtain ⟨a1, v1, q1, hk1, _, hq1, _, _, hp1, ho1, _, ht1, hc1, _⟩ := std_init_ok hi1 hr1
            obtain ⟨a2, v2, q2, hk2, _, hq2, _, _, hp2, ho2, _, ht2, hc2, _⟩ := std_init_ok hi2 hr2
            simp only [Function.update_same, Option.some.injEq] at hq0
            subst hq0
            rw [hp0] at hq1
            simp only [Function.update_same, Option.some.injEq] at hq1
            subst hq1
            rw [hp1] at hq2
            simp only [Function.update_same, Option.some.injEq] at hq2
            subst hq2
            have d01 : a0 ≠ a1 := fun e => h01 (by rw [hk0, hk1, e])
            have d02 : a0 ≠ a2 := fun e => h02 (by rw [hk0, hk2, e])
            have d12 : a1 ≠ a2 := fun e => h12 (by rw [hk1, hk2, e])
            have hfin : q = np ∧ t.ofheap = s5.ofheap ∧ (t.procs q = s5.procs q ∨ ∃ v, t.procs q =
                (s5.procs q).map (fun r => { r with p_cwd := some v })) := by
              split at h
              · simp at h
              · simp only [Outcome.bind_eq_ok] at h
                obtain ⟨cr, _, h⟩ := h
                split at h
                · rename_i v _
                  simp only [Outcome.bind_eq_ok] at h
                  obtain ⟨s6, hs6, h⟩ := h
                  simp only [Outcome.ok.injEq, Prod.mk.injEq, Option.some.injEq] at h
                  obtain ⟨rfl, rfl⟩ := h
                  rw [Kernel.modProc_eq_ok] at hs6
                  obtain ⟨r6, hr6, rfl⟩ := hs6
                  simp only [Kernel.emit] at hr6
                  exact ⟨rfl, rfl, Or.inr ⟨v, by simp [Kernel.emit, hr6]⟩⟩
                · simp only [Outcome.ok.injEq, Prod.mk.injEq, Option.some.injEq] at h
                  obtain ⟨rfl, rfl⟩ := h
                  exact ⟨rfl, rfl, Or.inl rfl⟩
            obtain ⟨hqnp, hoheap, hfin⟩ := hfin
            subst hqnp
            have h5 : s5.procs q = some
                { rc with
                  p_addrspace := none,
                  fileTable := Function.update (Function.update (Function.update rc.fileTable
                    (0 : Int).toNat (some (.heap a0))) (1 : Int).toNat (some (.heap a1)))
                    (2 : Int).toNat (some (.heap a2)) } := by
              rw [hp2, Function.update_same]
            have hft : ∀ fd, (Function.update (Function.update (Function.update rc.fileTable
                    (0 : Int).toNat (some (.heap a0))) (1 : Int).toNat (some (.heap a1)))
                    (2 : Int).toNat (some (.heap a2))) fd =
                if fd = 2 then some (.heap a2) else if fd = 1 then some (.heap a1)
                else if fd = 0 then some (.heap a0) else none := by
              intro fd
              simp only [Function.update_apply, hnone]
              rfl
            have ho : s5.ofheap a0 = some
                  { vn := some v0, offset := 0, mode_open := K.O_RDONLY, lock := .free,
                    countRef := 1 } ∧
                s5.ofheap a1 = some
                  { vn := some v1, offset := 0, mode_open := K.O_WRONLY, lock := .free,
                    countRef := 1 } ∧
                s5.ofheap a2 = some
                  { vn := some v2, offset := 0, mode_open := K.O_WRONLY, lock := .free,
                    countRef := 1 } := by
              rw [ho2, ho1, ho0]
              refine ⟨?_, ?_, ?_⟩
              · rw [Function.update_noteq d02, Function.update_noteq d01, Function.update_same]
              · rw [Function.update_noteq d12, Function.update_same]
              · rw [Function.update_same]
            rw [← hoheap] at ho
            rcases hfin with hfin | ⟨v, hfin⟩
            · rw [h5] at hfin
              refine ⟨_, a0, a1, a2, v0, v1, v2, hfin, hk0, hk1, hk2, ?_, ?_, ?_, ?_, ho⟩
              · simp only [hft]; rfl
              · simp only [hft]; rfl
              · simp only [hft]; rfl
              · intro fd hfd
                simp only [hft]
                have e2 : fd ≠ 2 := by omega
                have e1 : fd ≠ 1 := by omega
                have e0 : fd ≠ 0 := by omega
                simp [e2, e1, e0]
            · rw [h5] at hfin
              simp only [Option.map_some'] at hfin
              refine ⟨_, a0, a1, a2, v0, v1, v2, hfin, hk0, hk1, hk2, ?_, ?_, ?_, ?_, ho⟩
              · simp only [hft]; rfl
              · simp only [hft]; rfl
              · simp only [hft]; rfl
              · intro fd hfd
                simp only [hft]
                have e2 : fd ≠ 2 := by omega
                have e1 : fd ≠ 1 := by omega
                have e0 : fd ≠ 0 := by omega
                simp [e2, e1, e0]
  · intro cenv u w hb
    unfold proc_bootstrap at hb
    simp only [Outcome.bind_eq_ok] at hb
    obtain ⟨⟨kp, u1⟩, hc, hb⟩ := hb
    cases kp with
    | none => simp at hb
    | some a =>
      simp only [Outcome.ok.injEq] at hb
      subst hb
      obtain ⟨r, hr, hnone⟩ := hcreate _ _ _ _ _ hc
      exact ⟨a, r, rfl, hr, hnone⟩

/-- C19 at a concrete state: the process that `proc_create_runprogram` creates
in `oneProcess` has the records at 30, 31 and 32 in its slots 0, 1 and 2. -/
theorem proc_create_runprogram_std_witness :
    ∃ t r v0 v1 v2, proc_create_runprogram os161Consts forkEnvOk.run "sh" oneProcess =
        .ok (some 2, t) ∧ t.procs 2 = some r ∧
      r.fileTable 0 = some (.heap 30) ∧ r.fileTable 1 = some (.heap 31) ∧
      r.fileTable 2 = some (.heap 32) ∧ (∀ fd, 3 ≤ fd → r.fileTable fd = none) ∧
      t.ofheap 30 = some
        { vn := some v0, offset := 0, mode_open := 0, lock := .free, countRef := 1 } ∧
      t.ofheap 31 = some
        { vn := some v1, offset := 0, mode_open := 1, lock := .free, countRef := 1 } ∧
      t.ofheap 32 = some
        { vn := some v2, offset := 0, mode_open := 1, lock := .free, countRef := 1 } := by
  have h : ∃ t, proc_create_runprogram os161Consts forkEnvOk.run "sh" oneProcess =
      .ok (some 2, t) := ⟨_, rfl⟩
  obtain ⟨t, ht⟩ := h
  obtain ⟨r, a0, a1, a2, v0, v1, v2, hr, h0, h1, h2, hf0, hf1, hf2, hf, ho0, ho1, ho2⟩ :=
    (proc_create_runprogram_std os161Consts forkEnvOk.run "sh" oneProcess t 2 ht
      (by decide) (by decide) (by decide)).1
  cases (Option.some.inj h0 : 30 = a0)
  cases (Option.some.inj h1 : 31 = a1)
  cases (Option.some.inj h2 : 32 = a2)
  exact ⟨t, r, v0, v1, v2, ht, hr, hf0, hf1, hf2, hf, ho0, ho1, ho2⟩

/-- C21 (amended): `sys_waitpid` returns -1 and leaves the state as it is,
with `ENOSYS` when `pid <= 0`, with `ECHILD` when the caller has no child,
and, when `statusp` is `NULL` or readable and `pid` is below `MAX_PROC` and
names a registered process, with `ECHILD` when the parent of that process is
not the caller and with `EINVAL` when it is the caller and `options` is
neither 0 nor `WNOHANG`; and when `pid > 0`, the caller has a child, `statusp`
is not `NULL` and `copyin` fails, it returns -1 with `EFAULT` and leaves the
state as it is, whatever `pid` names and whatever `options` is. -/
theorem sys_waitpid_errors (K : Consts) (env : WaitEnv) (fuel : Nat) (pid : Int)
    (statusp : Option Nat) (options : Int) (s : Kernel) :
    (pid ≤ 0 → sys_waitpid K env fuel pid statusp options s = .ok (-1, some .ENOSYS, s)) ∧
    (∀ cp cr, 0 < pid → s.curproc = some cp → s.procs cp = some cr →
      (cr.p_children_list = [] →
        sys_waitpid K env fuel pid statusp options s = .ok (-1, some .ECHILD, s)) ∧
      (cr.p_children_list ≠ [] → (statusp = none ∨ env.copyin_err = false) →
        ∀ p r, pid < (MAX_PROC : Int) → s.processTable.proc pid.toNat = some p →
          s.procs p = some r → r.p_pid = pid →
          (r.p_father_proc ≠ some cp →
            sys_waitpid K env fuel pid statusp options s = .ok (-1, some .ECHILD, s)) ∧
          (r.p_father_proc = some cp → options ≠ 0 → options ≠ K.WNOHANG →
            sys_waitpid K env fuel pid statusp options s = .ok (-1, some .EINVAL, s))) ∧
      (cr.p_children_list ≠ [] → statusp ≠ none → env.copyin_err = true →
        sys_waitpid K env fuel pid statusp options s = .ok (-1, some .EFAULT, s))) := by
  refine ⟨?_, ?_⟩
  · intro h
    simp [sys_waitpid, h]
  · intro cp cr hpid hcur hrec
    have hnot : ¬ pid ≤ 0 := by omega
    refine ⟨?_, ?_, ?_⟩
    · intro hch
      simp [sys_waitpid, hnot, hcur, Kernel.getProc, hrec, hch]
    · intro hch hst p r hlt hslot hlive hrpid
      have hst2 : ¬ (statusp ≠ none ∧ env.copyin_err = true) := by
        rcases hst with h | h
        · simp [h]
        · simp [h]
      have h1 : ¬ pid > (MAX_PROC : Int) := by omega
      have h2 : pid ≥ 0 ∧ pid < (MAX_PROC : Int) := by omega
      have hsearch : proc_search_pid pid s = .ok (some p) := by
        simp only [proc_search_pid, h1, h2, hslot, Kernel.getProc, hlive, hrpid, if_true,
          if_false, and_self, Outcome.bind_ok]
      have hcur2 : s.t_proc s.curthread = some cp := hcur
      refine ⟨?_, ?_⟩
      · intro hfa
        have hchild : check_is_child pid s = .ok 0 := by
          simp [check_is_child, hsearch, Kernel.getProc, hlive, Kernel.curproc, hcur2, hfa]
        simp only [sys_waitpid, hnot, hcur, Kernel.getProc, hrec, hch, hst2, hchild, if_false,
          Outcome.bind_ok]
        rfl
      · intro hfa ho1 ho2
        have hchild : check_is_child pid s = .ok 1 := by
          simp [check_is_child, hsearch, Kernel.getProc, hlive, Kernel.curproc, hcur2, hfa]
        simp only [sys_waitpid, hnot, hcur, Kernel.getProc, hrec, hch, hst2, hchild, hsearch,
          ho1, ho2, if_false, Outcome.bind_ok]
        rfl
    · intro hch hst hin
      simp only [sys_waitpid, hnot, hcur, Kernel.getProc, hrec, hch, hst, hin, if_false,
        Outcome.bind_ok, ne_eq, not_false_eq_true, and_self, if_true]

/-- C21 at a concrete state: in `twoChildren` the parent waits for its child
with pid 2 with the options 5 and gets `EINVAL` when `statusp` is `NULL`, and
`EFAULT` when `statusp` is an address that `copyin` rejects. -/
theorem sys_waitpid_errors_witness :
    sys_waitpid os161Consts waitEnvOk 1 2 none 5 twoChildren =
        .ok (-1, some .EINVAL, twoChildren) ∧
      sys_waitpid os161Consts waitEnvBadStatus 1 2 (some 4096) 5 twoChildren =
        .ok (-1, some .EFAULT, twoChildren) :=
  ⟨((((sys_waitpid_errors os161Consts waitEnvOk 1 2 none 5 twoChildren).2 1 waitingParent
      (by decide) rfl rfl).2.1 (by decide) (Or.inl rfl) 2 runningChild (by decide) rfl rfl rfl).2
      rfl (by decide) (by decide)),
    ((sys_waitpid_errors os161Consts waitEnvBadStatus 1 2 (some 4096) 5 twoChildren).2 1
      waitingParent (by decide) rfl rfl).2.2 (by decide) (by decide) rfl⟩

/-- C21 (the claim at a failing input): in `twoChildren` the parent, which has
children, calls `sys_waitpid` for pid 1, a registered process that is not its
child, with a `statusp` that `copyin` rejects: the error is `EFAULT`, not
`ECHILD`. -/
theorem sys_waitpid_bad_status_first :
    (sys_waitpid os161Consts waitEnvBadStatus 1 1 (some 4096) 0 twoChildren).val?.map
        (fun x => (x.1, x.2.1)) = some (-1, some .EFAULT) := by
  rfl

/-- C22: when `proc_init_waitpid` returns, the record is stored in a slot `j`
of `1..MAX_PROC` that was empty, `j` is not the old `last_i`, every index that
the circular order `last_i + 1, ..., MAX_PROC, 1, 2, ...` meets before `j` was
occupied, `p_pid` and `last_i` are `j`, and every other slot is unchanged. -/
theorem proc_init_waitpid_next_fit (sem : Option Nat) (p : Nat) (s t : Kernel)
    (h : proc_init_waitpid sem p s = .ok t) :
    ∃ j r, 1 ≤ j ∧ j ≤ MAX_PROC ∧ j ≠ s.processTable.last_i ∧
      s.processTable.proc j = none ∧
      (∀ m, 1 ≤ m → m ≤ MAX_PROC →
        (if s.processTable.last_i < j then s.processTable.last_i < m ∧ m < j
         else (s.processTable.last_i < m ∨ m < j)) →
        s.processTable.proc m ≠ none) ∧
      s.procs p = some r ∧
      t.processTable.proc = Function.update s.processTable.proc j (some p) ∧
      t.processTable.last_i = j ∧
      t.procs = Function.update s.procs p
        (some { r with p_pid := (j : Int), p_status := 0, p_sem := sem }) := by
  have h0 := h
  unfold proc_init_waitpid at h
  simp only [Outcome.bind_eq_ok] at h
  obtain ⟨s1, hs1, s2, hloop, r2, hr2, hfin⟩ := h
  rw [Kernel.modProc_eq_ok] at hs1
  obtain ⟨r, hr, rfl⟩ := hs1
  have hi1 : 1 ≤ (if s.processTable.last_i + 1 > MAX_PROC then 1 else s.processTable.last_i + 1) := by
    split <;> omega
  have hi2 : (if s.processTable.last_i + 1 > MAX_PROC then 1 else s.processTable.last_i + 1) ≤
      MAX_PROC := by
    simp only [MAX_PROC]; split <;> omega
  rw [proc_init_waitpid_loop_eq_scan p _ _ _ hi1] at hloop
  simp only [Outcome.bind_eq_ok] at hloop
  obtain ⟨j, hscan, hloop⟩ := hloop
  rw [proc_verify_pid_loop_congr s
    { s with procs := Function.update s.procs p (some { r with p_pid := 0 }) } rfl] at hscan
  obtain ⟨j2, r3, _, _, _, hr3, ht⟩ := proc_init_waitpid_ok h0
  rw [hr] at hr3
  cases hr3
  by_cases hj0 : j = 0
  · simp only [hj0, if_true, Outcome.ok.injEq] at hloop
    subst hloop
    rw [Kernel.getProc_eq_ok] at hr2
    simp only [Function.update_same, Option.some.injEq] at hr2
    subst hr2
    simp at hfin
  · simp only [hj0, if_false] at hloop
    rw [Kernel.modProc_eq_ok] at hloop
    obtain ⟨r4, _, rfl⟩ := hloop
    rw [Kernel.getProc_eq_ok] at hr2
    split at hfin
    · simp at hfin
    · rw [Kernel.modProc_eq_ok] at hfin
      obtain ⟨r5, _, ht2⟩ := hfin
      have hlast : j2 = j := by
        have e1 : t.processTable.last_i = j2 := by rw [ht]
        have e2 : t.processTable.last_i = j := by rw [ht2]
        omega
      subst hlast
      obtain ⟨b1, b2, b3, b4, b5⟩ := proc_verify_pid_loop_first s _ _ j2 hi1 hi2 hscan hj0
      simp only [MAX_PROC] at b2 b5
      refine ⟨j2, r, b1, b2, b4, b3, ?_, hr, by rw [ht], by rw [ht], by rw [ht]⟩
      intro m hm1 hm2 hm
      simp only [MAX_PROC] at hm2
      apply b5 m hm1 hm2
      split_ifs at hm ⊢ <;> omega

/-- C22 at a concrete state: after 3 allocations from boot, with `last_i = 3`,
the next allocation takes slot 4 and sets `last_i` to 4. -/
theorem proc_init_waitpid_next_fit_witness :
    ∃ t, proc_init_waitpid (some 0) 4 (filled 3 5) = .ok t ∧
      t.processTable.proc = Function.update (filled 3 5).processTable.proc 4 (some 4) ∧
      t.processTable.last_i = 4 := by
  have h := filled_alloc 3 5 (by decide) (by decide)
  obtain ⟨j, r, _, _, _, hnone, _, _, h1, h2, _⟩ :=
    proc_init_waitpid_next_fit (some 0) 4 (filled 3 5) _ h
  have hj : j = 4 := h2.symm
  subst hj
  exact ⟨_, h, h1, h2⟩

/-- C23: when the source and the destination are live and every record that a
slot of the source references can be read, `proc_file_table_copy` returns;
afterwards every slot below `OPEN_MAX` of the destination holds what the slot
of the source held, the slots of the source hold what they held, every other
process record is unchanged, and the reference count of every record has
grown by the number of source slots below `OPEN_MAX` that reference it, its
other fields unchanged. -/
theorem proc_file_table_copy_spec (K : Consts) (psrc pdest : Nat) (s : Kernel) (rs rd : proc)
    (hs : s.procs psrc = some rs) (hd : s.procs pdest = some rd)
    (hlive : ∀ fd f, fd < K.OPEN_MAX → rs.fileTable fd = some f → ∃ o, s.getOf f = .ok o) :
    ∃ t rs1 rd1, proc_file_table_copy K psrc pdest s = .ok t ∧
      t.procs psrc = some rs1 ∧ t.procs pdest = some rd1 ∧
      (∀ fd, fd < K.OPEN_MAX → rd1.fileTable fd = rs.fileTable fd) ∧
      (∀ fd, rs1.fileTable fd = rs.fileTable fd) ∧
      (∀ q, q ≠ pdest → t.procs q = s.procs q) ∧
      (∀ f o, s.getOf f = .ok o → t.getOf f = .ok { o with countRef := o.countRef +
        (((List.range K.OPEN_MAX).filter (fun fd => rs.fileTable fd = some f)).length : Int) }) := by
  obtain ⟨t, a1, b1, ht, hta, htb, hfa, hfb, hq, hcount⟩ :=
    proc_file_table_copy_loop_spec K psrc pdest rs.fileTable K.OPEN_MAX 0 s rs rd (by omega) hs hd
      (fun _ => rfl) (fun i f _ hi hf => hlive i f (by omega) hf)
  refine ⟨t, a1, b1, ht, hta, htb, ?_, hfa, hq, ?_⟩
  · intro fd hfd
    rw [hfb fd]
    have : 0 ≤ fd ∧ fd < 0 + K.OPEN_MAX := by omega
    rw [if_pos this]
  · intro f o ho
    rw [hcount f o ho, List.range_eq_range']

/-- C23 at a concrete state: copying the table of the process of `oneProcess`
into an empty table gives the destination the file of descriptor 3, whose
reference count becomes 2. -/
theorem proc_file_table_copy_spec_witness :
    ∃ t rd1, proc_file_table_copy os161Consts 1 2 withEmptyChild = .ok t ∧
      t.procs 2 = some rd1 ∧ rd1.fileTable 3 = some (.sys 0) ∧ rd1.fileTable 4 = none ∧
      t.getOf (.sys 0) = .ok { shFile with countRef := 2 } := by
  obtain ⟨t, rs1, rd1, ht, _, hd, hf, _, _, hc⟩ :=
    proc_file_table_copy_spec os161Consts 1 2 withEmptyChild shProc proc0 rfl rfl
      (by
        intro fd f hfd hf
        cases f with
        | sys i => exact ⟨_, rfl⟩
        | heap a =>
          simp only [shProc] at hf
          split_ifs at hf with h0 h1 h2 h3
          · cases hf; exact ⟨_, rfl⟩
          · cases hf; exact ⟨_, rfl⟩
          · cases hf; exact ⟨_, rfl⟩
          · cases hf)
  refine ⟨t, rd1, ht, hd, hf 3 (by decide), hf 4 (by decide), ?_⟩
  rw [hc (.sys 0) shFile rfl]
  rfl

/-- C24 (the code at a failing input): in `idleFamily`, a parent with one
child and no attached thread anywhere, `proc_destroy` of the child alone
returns, but `proc_destroy` of the parent faults for every fuel from 2 on:
the child unlinks and releases its node in `proc_remove_proc`, and the loop of
the parent then releases the same node again. -/
theorem proc_destroy_cascade_double_free :
    (∀ fuel, (proc_destroy (fuel + 1) (some 2) idleFamily).val?.map
        (fun t => (t.processTable.proc 2, t.nodes 12)) = some (none, false)) ∧
      (∀ fuel, proc_destroy (fuel + 2) (some 1) idleFamily = .fault) ∧
      ∀ fuel, proc_destroy_loop (proc_destroy (fuel + 1)) 1 [{ addr := 12, p := 2 }] idleFamily =
        .fault :=
  ⟨fun _ => rfl, fun _ => rfl, fun _ => rfl⟩

/-- C25 (the code at a failing input): in `twoThreads` the invariant holds;
the loop of `proc_remove_all_threads` returns with the thread list empty and
`p_numthreads` still 2, and both threads still attached. -/
theorem proc_remove_all_threads_keeps_count :
    thread_list_invariant twoThreads ∧
      (proc_remove_all_threads_loop 1 3 twoThreads).val?.map
        (fun t => ((t.procs 1).map (fun r => (r.p_numthreads, r.p_thread_list.length)),
          t.t_proc 0, t.t_proc 1, t.events)) =
        some (some (2, 0), some 1, some 1, [.thread_destroy 1]) ∧
      ∀ t, proc_remove_all_threads_loop 1 3 twoThreads = .ok t → ¬ thread_list_invariant t := by
  refine ⟨?_, rfl, ?_⟩
  · intro p r hr
    by_cases hp : p = 1
    · subst hp
      have : r = twoThreadsProc := by
        have h : twoThreads.procs 1 = some twoThreadsProc := rfl
        rw [h] at hr
        exact (Option.some.inj hr).symm
      subst this
      refine ⟨rfl, ?_⟩
      intro t ht
      have ht2 : t = 0 ∨ t = 1 := by
        by_contra hc
        have : twoThreads.t_proc t = none := by simp [twoThreads, hc]
        rw [this] at ht
        cases ht
      rcases ht2 with rfl | rfl <;> rfl
    · have : twoThreads.procs p = none := by simp [twoThreads, hp]
      rw [this] at hr
      cases hr
  · intro t ht hinv
    have h1 : (proc_remove_all_threads_loop 1 3 twoThreads).val?.map
        (fun t => (t.procs 1).map (fun r => (r.p_numthreads, r.p_thread_list.length))) =
        some (some (2, 0)) := rfl
    rw [ht] at h1
    simp only [Outcome.val?, Option.map_some', Option.some.injEq] at h1
    cases hr : t.procs 1 with
    | none => simp [hr] at h1
    | some r =>
      simp only [hr, Option.map_some', Option.some.injEq, Prod.mk.injEq] at h1
      have := (hinv 1 r hr).1
      omega

/-- C26 (the code at three failing inputs): on descriptor 3 of `oneProcess`,
whose lock is free, `sys_write` and `sys_read` return -1 with the lock held
when the vnode operation fails, `sys_read` returns -1 with the lock held when
`copyout` fails, and the next `sys_read` on the descriptor sleeps on that
lock. -/
theorem sys_read_write_leave_lock_held :
    (oneProcess.systemFileTable 0).lock = .free ∧
      ioObservation (sys_write os161Consts ioEnvVopFails 3 16 oneProcess) =
        some (-1, some (.code 5), .held) ∧
      ioObservation (sys_read os161Consts ioEnvVopFails 3 16 oneProcess) =
        some (-1, some (.code 5), .held) ∧
      ioObservation (sys_read os161Consts ioEnvCopyoutFails 3 16 oneProcess) =
        some (-1, some .EFAULT, .held) ∧
      (match sys_read os161Consts ioEnvCopyoutFails 3 16 oneProcess with
        | .ok x => (sys_read os161Consts ioEnvOk 3 16 x.2.2).isSleeps
        | _ => false) = true :=
  ⟨rfl, rfl, rfl, rfl, rfl⟩

/-- C27 (the code at a failing input): `sys_close` of descriptor 3 of
`oneProcess`, the last reference to entry 0 of `systemFileTable`, returns 0
and leaves the entry with reference count 0, a destroyed lock and its `vn`
still set; the next `sys_open` takes entry 1, not entry 0; and in a registry
whose entries have all been closed in this way `sys_open` returns `ENFILE`. -/
theorem sys_close_keeps_vnode :
    registryEntry0 (sys_close os161Consts 3 oneProcess) = some (.num 0, some 7, 0, .destroyed) ∧
      (match sys_close os161Consts 3 oneProcess with
        | .ok x => openObservation (sys_open os161Consts openEnvOk 4096 0 x.2)
        | _ => none) = some (.num 3, some (.code 0), some (some (.sys 1)), some none) ∧
      openObservation (sys_open os161Consts openEnvOk 4096 0 closedRegistry) =
        some (.errno .ENFILE, none, some none, some none) :=
  ⟨rfl, rfl, rfl⟩

end OS161
